import Mathlib

/-!
Verification of core data structures and algorithms of the proxy submission
pipeline: the sorted queue, the mempool schedule and its index dictionary, the
stuck-transaction dictionary, the Solana transaction list sender, the block
commitment classification, the batched account reader, and the holder-write
preparation stage.  Python sources are embedded shallowly: machine integers
become Nat/Int, assertion failures and raised exceptions become Option/Except,
and wall-clock reads become explicit parameters.
-/

namespace Proxy

/-! ## Sorted queue (proxy/mempool/sorted_queue.py)

A `SortedQueue` keeps a Python list sorted in ascending order of `lt_key` and
identifies elements by `(lt_key, eq_key)`.  The embedding keeps the underlying
list and parametrises every operation by the two key functions.  `bisect_left`
is embedded in its linear form, which agrees with the binary search on the
sorted lists the class maintains. -/

section SortedQueueDefs

variable {α : Type} {κ : Type} [LinearOrder κ] {ε : Type} [DecidableEq ε]

/-- Leftmost insertion position for key k: length of the longest prefix whose
lt-keys are strictly below k (bisect.bisect_left on the key sequence). -/
def sqBisect (ltKey : α → κ) : List α → κ → Nat
  | [], _ => 0
  | a :: rest, k => if ltKey a < k then sqBisect ltKey rest k + 1 else 0

/-- Scan used by SortedQueue.find_from_pos: walk the list while the lt-key
still equals k, and return the running index of the first element whose eq-key
is e. -/
def sqScan (ltKey : α → κ) (eqKey : α → ε) (k : κ) (e : ε) : List α → Nat → Option Nat
  | [], _ => none
  | a :: rest, i =>
      if ltKey a ≠ k then none
      else if eqKey a = e then some i
      else sqScan ltKey eqKey k e rest (i + 1)

/-- SortedQueue.find_from_pos: scan from start position pos. -/
def sqFindFromPos (ltKey : α → κ) (eqKey : α → ε) (xs : List α) (pos : Nat) (item : α) :
    Option Nat :=
  sqScan ltKey eqKey (ltKey item) (eqKey item) (xs.drop pos) pos

/-- SortedQueue.find: scan from the bisect position of the item's lt-key. -/
def sqFind (ltKey : α → κ) (eqKey : α → ε) (xs : List α) (item : α) : Option Nat :=
  sqFindFromPos ltKey eqKey xs (sqBisect ltKey xs (ltKey item)) item

/-- SortedQueue.add: the source asserts that no element with the same
(lt-key, eq-key) pair sits at the insertion position, then inserts there;
the assertion failure is modelled as none.  list.insert(pos, item) is written
as take pos ++ item :: drop pos. -/
def sqAdd (ltKey : α → κ) (eqKey : α → ε) (xs : List α) (item : α) : Option (List α) :=
  let pos := sqBisect ltKey xs (ltKey item)
  match sqFindFromPos ltKey eqKey xs pos item with
  | some _ => none
  | none => some (xs.take pos ++ item :: xs.drop pos)

/-- SortedQueue.pop with an item argument: find the element with the item's
key pair and remove it; the two assertions (queue non-empty, item present)
are modelled as none. -/
def sqPopItem (ltKey : α → κ) (eqKey : α → ε) (xs : List α) (item : α) :
    Option (α × List α) :=
  if xs.length = 0 then none
  else
    match sqFind ltKey eqKey xs item with
    | none => none
    | some i =>
        match xs[i]? with
        | none => none
        | some a => some (a, xs.eraseIdx i)

/-- SortedQueue.pop with index -1 (the class constant _top_index): remove and
return the last element of the queue. -/
def sqPopLast (xs : List α) : Option (α × List α) :=
  match xs.getLast? with
  | none => none
  | some a => some (a, xs.dropLast)

/-- Sortedness maintained by the queue: lt-keys ascend along the list. -/
def SqSorted (ltKey : α → κ) (xs : List α) : Prop :=
  List.Pairwise (fun a b => ltKey a ≤ ltKey b) xs

end SortedQueueDefs

section SortedQueueLemmas

variable {α : Type} {κ : Type} [LinearOrder κ] {ε : Type} [DecidableEq ε]
variable {ltKey : α → κ} {eqKey : α → ε}

theorem sqBisect_le_length (xs : List α) (k : κ) : sqBisect ltKey xs k ≤ xs.length := by
  induction xs with
  | nil => simp [sqBisect]
  | cons a rest ih =>
      simp only [sqBisect]
      split
      · simpa using Nat.succ_le_succ ih
      · exact Nat.zero_le _

theorem sqBisect_take_lt (xs : List α) (k : κ) :
    ∀ a ∈ xs.take (sqBisect ltKey xs k), ltKey a < k := by
  induction xs with
  | nil => simp
  | cons b rest ih =>
      simp only [sqBisect]
      split
      · intro a ha
        rcases List.mem_cons.mp (by simpa using ha) with h | h
        · subst h; assumption
        · exact ih a h
      · simp

theorem sqBisect_drop_ge (xs : List α) (k : κ) (hs : SqSorted ltKey xs) :
    ∀ a ∈ xs.drop (sqBisect ltKey xs k), k ≤ ltKey a := by
  induction xs with
  | nil => simp
  | cons b rest ih =>
      simp only [sqBisect]
      split
      case isTrue h => exact ih (List.Pairwise.of_cons hs)
      case isFalse h =>
        intro a ha
        rcases List.mem_cons.mp (by simpa using ha) with h2 | h2
        · subst h2; exact le_of_not_lt h
        · exact le_trans (le_of_not_lt h) (List.rel_of_pairwise_cons hs h2)

theorem list_getElem_append_cons (t r : List α) (x : α) : (t ++ x :: r)[t.length]? = some x := by
  induction t with
  | nil => simp
  | cons a t ih => simpa using ih

theorem list_eraseIdx_append_cons (t r : List α) (x : α) :
    (t ++ x :: r).eraseIdx t.length = t ++ r := by
  induction t with
  | nil => simp
  | cons a t ih => simpa [List.eraseIdx] using ih

theorem sqBisect_eq_prefix (t r : List α) (b : α) (k : κ)
    (ht : ∀ a ∈ t, ltKey a < k) (hb : ¬ ltKey b < k) :
    sqBisect ltKey (t ++ b :: r) k = t.length := by
  induction t with
  | nil => simp [sqBisect, hb]
  | cons a t ih =>
      have ha : ltKey a < k := ht a (by simp)
      have h2 := ih (fun a h => ht a (by simp [h]))
      simp only [List.cons_append, sqBisect, if_pos ha, List.length_cons]
      exact congrArg (fun n => n + 1) h2

theorem sqScan_some_spec (k : κ) (e : ε) :
    ∀ (l : List α) (i j : Nat), sqScan ltKey eqKey k e l i = some j →
      ∃ t b r, l = t ++ b :: r ∧ j = i + t.length ∧ ltKey b = k ∧ eqKey b = e := by
  intro l
  induction l with
  | nil => intro i j h; simp [sqScan] at h
  | cons a rest ih =>
      intro i j h
      simp only [sqScan] at h
      by_cases hk : ltKey a ≠ k
      · simp [hk] at h
      · rw [if_neg hk] at h
        by_cases he : eqKey a = e
        · rw [if_pos he] at h
          refine ⟨[], a, rest, by simp, ?_, by simpa using not_not.mp (by simpa using hk), he⟩
          simpa using (Option.some_inj.mp h).symm
        · rw [if_neg he] at h
          obtain ⟨t, b, r, hl, hj, hbk, hbe⟩ := ih (i + 1) j h
          exact ⟨a :: t, b, r, by simp [hl], by simp [hj]; omega, hbk, hbe⟩

theorem sqScan_none_of_not_mem (k : κ) (e : ε) (l : List α) (i : Nat)
    (h : ∀ y ∈ l, ¬(ltKey y = k ∧ eqKey y = e)) :
    sqScan ltKey eqKey k e l i = none := by
  induction l generalizing i with
  | nil => simp [sqScan]
  | cons a rest ih =>
      simp only [sqScan]
      by_cases hk : ltKey a ≠ k
      · simp [hk]
      · rw [if_neg hk]
        have he : ¬ eqKey a = e := fun he => h a (by simp) ⟨not_not.mp hk, he⟩
        rw [if_neg he]
        exact ih (i + 1) (fun y hy => h y (by simp [hy]))

theorem sqScan_isSome_of_mem (k : κ) (e : ε) (l : List α) (y : α)
    (hs : SqSorted ltKey l) (hall : ∀ a ∈ l, k ≤ ltKey a)
    (hy : y ∈ l) (hky : ltKey y = k) (hey : eqKey y = e) :
    ∀ i, (sqScan ltKey eqKey k e l i).isSome := by
  induction l with
  | nil => cases hy
  | cons a rest ih =>
      intro i
      simp only [sqScan]
      by_cases hk : ltKey a ≠ k
      · exfalso
        rcases List.mem_cons.mp hy with h | h
        · exact hk (h ▸ hky)
        · have h1 : ltKey a ≤ ltKey y := List.rel_of_pairwise_cons hs h
          have h2 : k ≤ ltKey a := hall a (by simp)
          exact hk (le_antisymm (hky ▸ h1) h2)
      · rw [if_neg hk]
        by_cases he : eqKey a = e
        · simp [he]
        · rw [if_neg he]
          have hyr : y ∈ rest := by
            rcases List.mem_cons.mp hy with h | h
            · exact absurd (h ▸ hey) he
            · exact h
          exact ih (List.Pairwise.of_cons hs) (fun b hb => hall b (by simp [hb])) hyr (i + 1)

theorem sqAdd_eq_insert (xs : List α) (item : α)
    (fresh : ∀ y ∈ xs, ¬(ltKey y = ltKey item ∧ eqKey y = eqKey item)) :
    sqAdd ltKey eqKey xs item =
      some (xs.take (sqBisect ltKey xs (ltKey item)) ++
            item :: xs.drop (sqBisect ltKey xs (ltKey item))) := by
  have hnone : sqFindFromPos ltKey eqKey xs (sqBisect ltKey xs (ltKey item)) item = none :=
    sqScan_none_of_not_mem _ _ _ _ (fun y hy => fresh y (List.mem_of_mem_drop hy))
  simp [sqAdd, hnone]

theorem sqAdd_some_sorted (xs ys : List α) (item : α) (hs : SqSorted ltKey xs)
    (h : sqAdd ltKey eqKey xs item = some ys) : SqSorted ltKey ys := by
  simp only [sqAdd] at h
  rcases hfp : sqFindFromPos ltKey eqKey xs (sqBisect ltKey xs (ltKey item)) item with _ | i
  · simp only [hfp, Option.some_inj] at h
    subst h
    have htake : ∀ a ∈ xs.take (sqBisect ltKey xs (ltKey item)), ltKey a < ltKey item :=
      sqBisect_take_lt xs (ltKey item)
    have hdrop : ∀ a ∈ xs.drop (sqBisect ltKey xs (ltKey item)), ltKey item ≤ ltKey a :=
      sqBisect_drop_ge xs (ltKey item) hs
    rw [SqSorted, List.pairwise_append]
    refine ⟨(hs.sublist (List.take_sublist _ _) : _), ?_, ?_⟩
    · rw [List.pairwise_cons]
      exact ⟨hdrop, hs.sublist (List.drop_sublist _ _)⟩
    · intro a ha b hb
      rcases List.mem_cons.mp hb with h1 | h1
      · exact le_of_lt (h1 ▸ htake a ha)
      · exact le_trans (le_of_lt (htake a ha)) (hdrop b h1)
  · simp [hfp] at h

theorem sqAdd_some_perm (xs ys : List α) (item : α)
    (h : sqAdd ltKey eqKey xs item = some ys) : ys.Perm (item :: xs) := by
  simp only [sqAdd] at h
  rcases hfp : sqFindFromPos ltKey eqKey xs (sqBisect ltKey xs (ltKey item)) item with _ | i
  · simp only [hfp, Option.some_inj] at h
    subst h
    have hp : (xs.take (sqBisect ltKey xs (ltKey item)) ++
        item :: xs.drop (sqBisect ltKey xs (ltKey item))).Perm
        (item :: (xs.take (sqBisect ltKey xs (ltKey item)) ++
          xs.drop (sqBisect ltKey xs (ltKey item)))) := List.perm_middle
    rw [List.take_append_drop] at hp
    exact hp
  · simp [hfp] at h

theorem sqPopItem_some_spec (xs ys : List α) (item a : α)
    (h : sqPopItem ltKey eqKey xs item = some (a, ys)) :
    ltKey a = ltKey item ∧ eqKey a = eqKey item ∧
      ∃ l1 l2, xs = l1 ++ a :: l2 ∧ ys = l1 ++ l2 := by
  simp only [sqPopItem] at h
  split at h
  · cases h
  · rcases hf : sqFind ltKey eqKey xs item with _ | i
    · simp [hf] at h
    · simp only [hf] at h
      have hf2 := hf
      simp only [sqFind, sqFindFromPos] at hf2
      obtain ⟨t, b, r, hdrop, hi, hbk, hbe⟩ := sqScan_some_spec _ _ _ _ _ hf2
      have hpos : sqBisect ltKey xs (ltKey item) ≤ xs.length := sqBisect_le_length xs _
      have hxs : xs = (xs.take (sqBisect ltKey xs (ltKey item)) ++ t) ++ b :: r := by
        rw [List.append_assoc, ← hdrop, List.take_append_drop]
      have hlen : ((xs.take (sqBisect ltKey xs (ltKey item)) ++ t)).length = i := by
        simp [List.length_take, Nat.min_eq_left hpos, hi]
      have hget : xs[i]? = some b := by
        rw [hxs, ← hlen]
        exact list_getElem_append_cons _ _ _
      simp only [hget] at h
      have herase : xs.eraseIdx i = (xs.take (sqBisect ltKey xs (ltKey item)) ++ t) ++ r := by
        conv_lhs => rw [hxs, ← hlen]
        exact list_eraseIdx_append_cons _ _ _
      simp only [Option.some_inj, Prod.mk.injEq] at h
      obtain ⟨hab, hys⟩ := h
      subst hab
      exact ⟨hbk, hbe, _, r, hxs, by rw [← hys, herase]⟩

theorem sqPopItem_some_perm (xs ys : List α) (item a : α)
    (h : sqPopItem ltKey eqKey xs item = some (a, ys)) : xs.Perm (a :: ys) := by
  obtain ⟨_, _, l1, l2, hxs, hys⟩ := sqPopItem_some_spec xs ys item a h
  rw [hxs, hys]
  exact List.perm_middle

theorem sqPopItem_some_sorted (xs ys : List α) (item a : α) (hs : SqSorted ltKey xs)
    (h : sqPopItem ltKey eqKey xs item = some (a, ys)) : SqSorted ltKey ys := by
  obtain ⟨_, _, l1, l2, hxs, hys⟩ := sqPopItem_some_spec xs ys item a h
  subst hxs hys
  exact hs.sublist (List.Sublist.append_left (List.sublist_cons_self _ _) l1)

theorem sqFind_isSome_of_mem (xs : List α) (item y : α) (hs : SqSorted ltKey xs)
    (hy : y ∈ xs) (hk : ltKey y = ltKey item) (he : eqKey y = eqKey item) :
    (sqFind ltKey eqKey xs item).isSome := by
  rw [sqFind, sqFindFromPos]
  have hsplit := List.take_append_drop (sqBisect ltKey xs (ltKey item)) xs
  have hyd : y ∈ xs.drop (sqBisect ltKey xs (ltKey item)) := by
    rcases List.mem_append.mp (by rw [hsplit]; exact hy) with h | h
    · exact absurd (sqBisect_take_lt xs (ltKey item) y h) (by rw [hk]; exact lt_irrefl _)
    · exact h
  exact sqScan_isSome_of_mem _ _ _ y
    (hs.sublist (List.drop_sublist _ _))
    (sqBisect_drop_ge xs (ltKey item) hs) hyd hk he _

theorem sqAdd_none_of_mem (xs : List α) (item y : α) (hs : SqSorted ltKey xs)
    (hy : y ∈ xs) (hk : ltKey y = ltKey item) (he : eqKey y = eqKey item) :
    sqAdd ltKey eqKey xs item = none := by
  have h := sqFind_isSome_of_mem xs item y hs hy hk he
  rw [sqFind] at h
  rcases hfp : sqFindFromPos ltKey eqKey xs (sqBisect ltKey xs (ltKey item)) item with _ | i
  · rw [hfp] at h; cases h
  · simp [sqAdd, hfp]

theorem sq_insert_pop (t r : List α) (x : α) (ht : ∀ a ∈ t, ltKey a < ltKey x) :
    sqPopItem ltKey eqKey (t ++ x :: r) x = some (x, t ++ r) := by
  have hbis : sqBisect ltKey (t ++ x :: r) (ltKey x) = t.length :=
    sqBisect_eq_prefix t r x (ltKey x) ht (lt_irrefl _)
  have hne : ¬ (t ++ x :: r).length = 0 := by simp
  have hfind : sqFind ltKey eqKey (t ++ x :: r) x = some t.length := by
    rw [sqFind, hbis, sqFindFromPos, List.drop_left, sqScan]
    simp
  rw [sqPopItem, if_neg hne, hfind]
  simp only [list_getElem_append_cons, list_eraseIdx_append_cons]

end SortedQueueLemmas

/-- C9: for every SortedQueue (a list sorted by the lt-key function) and every
item whose (lt-key, eq-key) pair is not already present, add(item) keeps the
list sorted and increases the length by one, and an immediately following
pop(item) returns that same item and restores the original contents; add of an
item whose (lt-key, eq-key) pair is already present fails (the assertion in
SortedQueue.add). -/
theorem sortedQueue_add_pop_roundtrip {α κ ε : Type} [LinearOrder κ] [DecidableEq ε]
    (ltKey : α → κ) (eqKey : α → ε) (xs : List α) (x : α) (hs : SqSorted ltKey xs) :
    ((∀ y ∈ xs, ¬(ltKey y = ltKey x ∧ eqKey y = eqKey x)) →
      ∃ ys, sqAdd ltKey eqKey xs x = some ys ∧ SqSorted ltKey ys ∧
        ys.length = xs.length + 1 ∧ sqPopItem ltKey eqKey ys x = some (x, xs)) ∧
    (∀ y ∈ xs, ltKey y = ltKey x → eqKey y = eqKey x → sqAdd ltKey eqKey xs x = none) := by
  constructor
  · intro fresh
    have hadd := @sqAdd_eq_insert α κ _ ε _ ltKey eqKey xs x fresh
    set pos := sqBisect ltKey xs (ltKey x) with hposdef
    have hpos : pos ≤ xs.length := sqBisect_le_length xs _
    set ys := xs.take pos ++ x :: xs.drop pos with hysdef
    refine ⟨ys, hadd, sqAdd_some_sorted xs ys x hs hadd, ?_, ?_⟩
    · have := List.length_append (xs.take pos) (x :: xs.drop pos)
      simp only [hysdef, List.length_append, List.length_cons, List.length_take,
        List.length_drop, Nat.min_eq_left hpos]
      omega
    · have hp := @sq_insert_pop α κ _ ε _ ltKey eqKey
        (xs.take pos) (xs.drop pos) x (sqBisect_take_lt xs (ltKey x))
      rw [hysdef, hp, List.take_append_drop]
  · intro y hy hk he
    exact sqAdd_none_of_mem xs x y hs hy hk he

/-- C9 witness: the round-trip law applied to a concrete queue of
(key, tag) pairs ordered by the first component. -/
theorem sortedQueue_add_pop_roundtrip_witness :
    ∃ ys, sqAdd (fun p : Int × String => p.1) (fun p => p.2)
        [((-9 : Int), "b"), ((-5 : Int), "a")] ((-7 : Int), "c") = some ys ∧
      SqSorted (fun p : Int × String => p.1) ys ∧
      ys.length = [((-9 : Int), "b"), ((-5 : Int), "a")].length + 1 ∧
      sqPopItem (fun p : Int × String => p.1) (fun p => p.2) ys ((-7 : Int), "c") =
        some (((-7 : Int), "c"), [((-9 : Int), "b"), ((-5 : Int), "a")]) :=
  (sortedQueue_add_pop_roundtrip (fun p : Int × String => p.1) (fun p => p.2)
    [((-9 : Int), "b"), ((-5 : Int), "a")] ((-7 : Int), "c")
    (by unfold SqSorted; decide)).1 (by decide)

/-! ## Tx List Sender status handling
(proxy/common_neon/solana_tx_list_sender.py)

SolTxSendState.Status, the per-status state lists kept in
_tx_state_list_dict, and _check_tx_status_for_send.  The dictionary is
embedded as a total function from statuses to lists; a status key is present
in the Python dict exactly when its list is non-empty (entries are only ever
appended on creation and keys are removed whole). -/

/-- Per-transaction status, SolTxSendState.Status. -/
inductive TxStatus
  | WaitForReceipt
  | GoodReceipt
  | LogTruncatedError
  | AccountAlreadyExistsError
  | AlreadyFinalizedError
  | NoReceiptError
  | BlockHashNotFoundError
  | AltInvalidIndexError
  | NodeBehindError
  | BlockedAccountError
  | CUBudgetExceededError
  | InvalidIxDataError
  | RequireResizeIterError
  | BadNonceError
  | UnknownError
deriving DecidableEq, Repr

/-- Exceptions the sender can raise for a failed transaction; solTxError wraps
the raw receipt (kept abstract as an optional identifier) when no decoded
error object was stored. -/
inductive SenderExc
  | blockedAccountsError
  | nodeBehindError (slots : Nat)
  | cuBudgetExceededError
  | invalidIxDataError
  | requireResizeIterError
  | nonceTooLowError (txNonce stateTxCnt : Nat)
  | solTxError (receipt : Option Nat)
deriving DecidableEq, Repr

/-- The per-transaction entry of SolTxSendState restricted to the fields
_check_tx_status_for_send reads: the signature, the stored decoded error and
the raw receipt. -/
structure TxSendState where
  sig : String
  error : Option SenderExc
  receipt : Option Nat
deriving DecidableEq, Repr

/-- The completed_tx_status_set of _check_tx_status_for_send. -/
def completedTxStatusSet : List TxStatus :=
  [TxStatus.WaitForReceipt, TxStatus.GoodReceipt,
   TxStatus.LogTruncatedError, TxStatus.AccountAlreadyExistsError]

/-- The resubmitted_tx_status_set of _check_tx_status_for_send. -/
def resubmittedTxStatusSet : List TxStatus :=
  [TxStatus.NoReceiptError, TxStatus.BlockHashNotFoundError,
   TxStatus.AltInvalidIndexError]

/-- SolTxListSender._check_tx_status_for_send: decide whether the
transactions under tx_status go back into the work list (ok true), are left
alone (ok false), or make the sender raise the first entry's stored error
(error).  The one-block sleep before resubmitting AltInvalidIndexError has no
bearing on the returned value and is elided from the pure embedding. -/
def checkTxStatusForSend (d : TxStatus → List TxSendState) (txStatus : TxStatus) :
    Except SenderExc Bool :=
  if txStatus ∈ completedTxStatusSet then .ok false
  else
    match d txStatus with
    | [] => .ok false
    | txState :: _ =>
        if txStatus ∈ resubmittedTxStatusSet then .ok true
        else if txStatus = TxStatus.BlockedAccountError ∧
            ∃ s ∈ completedTxStatusSet, d s ≠ [] then .ok true
        else .error (match txState.error with
          | some e => e
          | none => .solTxError txState.receipt)

/-- Concrete state dictionary: one transaction failed on blocked accounts
while another is still waiting for its receipt; nothing has a GoodReceipt. -/
def blockedWaitStateDict : TxStatus → List TxSendState
  | TxStatus.BlockedAccountError =>
      [⟨"sigBlocked", some SenderExc.blockedAccountsError, none⟩]
  | TxStatus.WaitForReceipt => [⟨"sigWait", none, none⟩]
  | _ => []

/-- C1 counterexample: with one BlockedAccountError transaction and one
WaitForReceipt transaction but no GoodReceipt at all,
_check_tx_status_for_send still sends the blocked transaction back to the
work list (returns True), contradicting the claim that blocked transactions
are resubmitted only when some transaction already reached GoodReceipt. -/
theorem checkTxStatus_blocked_without_goodReceipt :
    checkTxStatusForSend blockedWaitStateDict TxStatus.BlockedAccountError = .ok true ∧
    blockedWaitStateDict TxStatus.GoodReceipt = [] := by
  constructor
  · rfl
  · rfl

/-- C1 (amended): blocked transactions are collected back into the work list
iff at least one transaction of the batch reached one of the completed
statuses WaitForReceipt, GoodReceipt, LogTruncatedError or
AccountAlreadyExistsError (not only GoodReceipt); otherwise the error stored
for the first blocked transaction (the BlockedAccountsError recorded by the
receipt decoder) is raised. -/
theorem checkTxStatus_blocked_spec (d : TxStatus → List TxSendState)
    (b : TxSendState) (rest : List TxSendState)
    (hd : d TxStatus.BlockedAccountError = b :: rest) :
    (checkTxStatusForSend d TxStatus.BlockedAccountError = .ok true ↔
      ∃ s ∈ completedTxStatusSet, d s ≠ []) ∧
    ((∀ s ∈ completedTxStatusSet, d s = []) →
      checkTxStatusForSend d TxStatus.BlockedAccountError =
        .error (match b.error with
          | some e => e
          | none => .solTxError b.receipt)) := by
  constructor
  · by_cases hc : ∃ s ∈ completedTxStatusSet, d s ≠ []
    · simp only [checkTxStatusForSend, hd, completedTxStatusSet, resubmittedTxStatusSet]
      simp
      tauto
    · simp only [checkTxStatusForSend, hd, completedTxStatusSet, resubmittedTxStatusSet]
      simp
      tauto
  · intro hnone
    have hc : ¬ ∃ s ∈ completedTxStatusSet, d s ≠ [] := by
      rintro ⟨s, hs, hne⟩
      exact hne (hnone s hs)
    simp only [checkTxStatusForSend, hd, completedTxStatusSet, resubmittedTxStatusSet]
    simp
    exact ⟨hnone _ (by decide), hnone _ (by decide), hnone _ (by decide), hnone _ (by decide)⟩

/-- C1 witness: the amended rule evaluated on the concrete dictionary where a
WaitForReceipt entry exists, so the blocked transaction is resubmitted. -/
theorem checkTxStatus_blocked_spec_witness :
    checkTxStatusForSend blockedWaitStateDict TxStatus.BlockedAccountError = .ok true :=
  (checkTxStatus_blocked_spec blockedWaitStateDict
      ⟨"sigBlocked", some SenderExc.blockedAccountsError, none⟩ [] rfl).1.mpr
    ⟨TxStatus.WaitForReceipt, by decide, by decide⟩

/-! ## Commitment levels and block status
(proxy/common_neon/solana_tx.py, proxy/common_neon/solana_interactor.py) -/

/-- Commitment levels in the order of Commitment.Order. -/
inductive Commitment
  | NotProcessed
  | Processed
  | Confirmed
  | Safe
  | Finalized
deriving DecidableEq, Repr

/-- Commitment.level: the index of the commitment in Commitment.Order. -/
def Commitment.level : Commitment → Nat
  | .NotProcessed => 0
  | .Processed => 1
  | .Confirmed => 2
  | .Safe => 3
  | .Finalized => 4

/-- Modelled from the spec: the SolBlockInfo class lives in
common_neon/utils, which is not among the sources; per the spec the chain
adapter returns BlockInfo or Empty(slot) for get_block, so only the slot and
the emptiness flag are modelled.  is_empty is true exactly when the node
returned no block at the requested slot and commitment. -/
structure SolBlockInfo where
  blockSlot : Nat
  isEmptyInfo : Bool
deriving DecidableEq, Repr

/-- The parsed result object of a getBlockCommitment response: the optional
commitment vote-stake array and the totalStake field (read with default 1). -/
structure BlockCommitmentResult where
  commitment : Option (List Nat)
  totalStake : Option Nat
deriving DecidableEq, Repr

/-- A getBlockCommitment RPC response with its optional result object. -/
structure BlockCommitmentResp where
  result : Option BlockCommitmentResult
deriving DecidableEq, Repr

/-- SolBlockStatus: a block slot with its commitment classification. -/
structure SolBlockStatus where
  blockSlot : Nat
  commitment : Commitment
deriving DecidableEq, Repr

/-- SolBlockStatus.init_empty. -/
def SolBlockStatus.initEmpty (blockSlot : Nat) : SolBlockStatus :=
  ⟨blockSlot, Commitment.NotProcessed⟩

/-- SolInteractor._get_block_status.  The float comparison
voted_stake * 100 / total_stake > 66.67 is embedded over the rationals
(66.67 = 6667/100); at the decimal inputs considered by the theorems below the
Python double rounding agrees with the exact rational comparison.  A zero
total stake (never returned by the RPC; the source reads it with default 1)
would raise ZeroDivisionError in Python and lands in the Confirmed branch
under the rational division-by-zero convention. -/
def getBlockStatusOf (blockSlot : Nat) (finalizedBlockInfo : SolBlockInfo)
    (blockCommitment : BlockCommitmentResp) : SolBlockStatus :=
  if ¬ finalizedBlockInfo.isEmptyInfo then ⟨blockSlot, Commitment.Finalized⟩
  else
    match blockCommitment.result with
    | none => SolBlockStatus.initEmpty blockSlot
    | some result =>
        match result.commitment with
        | none => SolBlockStatus.initEmpty blockSlot
        | some commitmentList =>
            let votedStake := commitmentList.sum
            let totalStake := result.totalStake.getD 1
            if ((votedStake * 100 : ℚ) / totalStake) > 6667 / 100 then
              ⟨blockSlot, Commitment.Safe⟩
            else ⟨blockSlot, Commitment.Confirmed⟩

/-- C4 counterexample: a non-finalized block with voted stake 6667 of total
10000 has voted/total = 0.6667, strictly above 2/3, yet the source classifies
it Confirmed, because its threshold is the strictly larger 66.67/100; with
these decimal inputs the Python doubles on both sides of the comparison round
to the same value, so the rational embedding matches the float comparison. -/
theorem blockStatus_two_thirds_counterexample :
    getBlockStatusOf 7 ⟨7, true⟩ ⟨some ⟨some [6667], some 10000⟩⟩ =
      ⟨7, Commitment.Confirmed⟩ ∧
    ((6667 : ℚ) / 10000 > 2 / 3) := by
  constructor
  · rw [getBlockStatusOf]
    norm_num
  · norm_num

/-- C4 (amended): a block found at Finalized commitment is classified
Finalized; a block not found at Finalized commitment but carrying commitment
data is classified Safe iff voted_stake * 100 / total_stake exceeds 66.67
(the source threshold, slightly above 2/3), and Confirmed otherwise. -/
theorem blockStatus_classification (slot : Nat) (info : SolBlockInfo)
    (resp : BlockCommitmentResp) (cl : List Nat) (ts : Option Nat)
    (hresp : resp.result = some ⟨some cl, ts⟩) :
    (info.isEmptyInfo = false → getBlockStatusOf slot info resp = ⟨slot, Commitment.Finalized⟩) ∧
    (info.isEmptyInfo = true →
      ((getBlockStatusOf slot info resp).commitment = Commitment.Safe ↔
        ((cl.sum * 100 : ℚ) / (ts.getD 1) > 6667 / 100)) ∧
      (¬((cl.sum * 100 : ℚ) / (ts.getD 1) > 6667 / 100) →
        getBlockStatusOf slot info resp = ⟨slot, Commitment.Confirmed⟩)) := by
  constructor
  · intro hinfo
    rw [getBlockStatusOf, if_pos (by simp [hinfo])]
  · intro hinfo
    rw [getBlockStatusOf, if_neg (by simp [hinfo])]
    simp only [hresp]
    refine ⟨⟨fun hsafe => ?_, fun hq => by rw [if_pos hq]⟩, fun hq => by rw [if_neg hq]⟩
    by_contra hq
    rw [if_neg hq] at hsafe
    exact Commitment.noConfusion hsafe

/-- C4 witness: a non-finalized block with voted stake 67 of total 100 is
classified Safe by the amended rule (0.67 exceeds 66.67 percent). -/
theorem blockStatus_classification_witness :
    (getBlockStatusOf 9 ⟨9, true⟩ ⟨some ⟨some [67], some 100⟩⟩).commitment =
      Commitment.Safe :=
  ((blockStatus_classification 9 ⟨9, true⟩ ⟨some ⟨some [67], some 100⟩⟩ [67]
      (some 100) rfl).2 rfl).1.mpr (by norm_num)

/-- Python-level exceptions surfacing from the sender's commit-level check. -/
inductive PyExc
  | typeErrorMissingArg
  | commitLevelError (required got : Commitment)
deriving DecidableEq, Repr

/-- SolInteractor.get_block_status as written in the source: it fetches the
finalized block info and the getBlockCommitment response, then evaluates
the call _get_block_status(block_slot, finalized_block_info, ) which passes
two arguments to the three-parameter _get_block_status, so Python raises
TypeError (missing required positional argument block_commitment) before any
classification runs; the fetched resp_list is never used. -/
def getBlockStatusMethod (blockSlot : Nat) (finalizedBlockInfo : SolBlockInfo)
    (blockCommitment : BlockCommitmentResp) : Except PyExc SolBlockStatus :=
  Except.error PyExc.typeErrorMissingArg

/-- The sentinel _big_block_slot = 2 ** 64 - 1 of SolTxListSender. -/
def bigBlockSlot : Nat := 2 ^ 64 - 1

/-- SolTxListSender._validate_commit_level: return immediately when the
configured commit level is Confirmed, otherwise take the minimum receipt slot
over the kept transaction states (None slots skipped, starting from the
sentinel), query the block status through get_block_status, and raise
CommitLevelError when the status commitment sits below the configured level.
The per-slot fetches performed inside get_block_status are supplied as
functions of the slot. -/
def validateCommitLevel (commitLevel : Commitment)
    (blockInfoAt : Nat → SolBlockInfo) (blockCommitmentAt : Nat → BlockCommitmentResp)
    (blockSlots : List (Option Nat)) : Except PyExc Unit :=
  if commitLevel = Commitment.Confirmed then .ok ()
  else
    let minBlockSlot := blockSlots.foldl
      (fun m s => match s with | none => m | some b => min m b) bigBlockSlot
    match getBlockStatusMethod minBlockSlot (blockInfoAt minBlockSlot)
        (blockCommitmentAt minBlockSlot) with
    | .error e => .error e
    | .ok st =>
        if st.commitment.level < commitLevel.level then
          .error (.commitLevelError commitLevel st.commitment)
        else .ok ()

/-- C3 (code-bug evidence): whenever the configured commit level differs from
Confirmed, the final validation of send always raises TypeError out of
get_block_status — the source line calls the three-parameter
_get_block_status with only two arguments — so it can neither raise
CommitLevelError nor let send return normally as the claim describes. -/
theorem validateCommitLevel_always_typeError (commitLevel : Commitment)
    (h : commitLevel ≠ Commitment.Confirmed)
    (blockInfoAt : Nat → SolBlockInfo) (blockCommitmentAt : Nat → BlockCommitmentResp)
    (blockSlots : List (Option Nat)) :
    validateCommitLevel commitLevel blockInfoAt blockCommitmentAt blockSlots =
      .error PyExc.typeErrorMissingArg := by
  rw [validateCommitLevel, if_neg h]
  rfl

/-- C3 witness: with commit level Finalized, a finalized block info fetch and
full commitment data for every slot, the validation still ends in TypeError
instead of succeeding. -/
theorem validateCommitLevel_always_typeError_witness :
    validateCommitLevel Commitment.Finalized (fun s => ⟨s, false⟩)
      (fun _ => ⟨some ⟨some [100], some 100⟩⟩) [some 5] =
      .error PyExc.typeErrorMissingArg :=
  validateCommitLevel_always_typeError Commitment.Finalized (by decide)
    (fun s => ⟨s, false⟩) (fun _ => ⟨some ⟨some [100], some 100⟩⟩) [some 5]

/-! ## Batched account reads (SolInteractor.get_account_info_list and
SolInteractor._decode_account_info, proxy/common_neon/solana_interactor.py) -/

/-- The raw account object of a getMultipleAccounts value entry, with the
base64 data already decoded to bytes. -/
structure RawAccount where
  data : List Nat
  lamports : Nat
  owner : String
deriving DecidableEq, Repr

/-- The decoded AccountInfo tuple (address, tag, lamports, owner, data). -/
structure AccountInfo where
  pubkey : String
  tag : Nat
  lamports : Nat
  owner : String
  data : List Nat
deriving DecidableEq, Repr

/-- SolInteractor._decode_account_info: the tag is data[0] when the data is
non-empty and 0 otherwise. -/
def decodeAccountInfo (pubkey : String) (raw : RawAccount) : AccountInfo :=
  { pubkey := pubkey
    tag := raw.data.headD 0
    lamports := raw.lamports
    owner := raw.owner
    data := raw.data }

/-- SolInteractor.get_account_info_list, instrumented with the trace of chunk
requests it issues.  The while loop peels 50 pubkeys per getMultipleAccounts
call; each value entry is zipped back to its pubkey, None marking an absent
account; on an RPC error the partial result collected so far is returned. -/
def getAccountInfoList (rpc : List String → Except Unit (List (Option RawAccount)))
    (src : List String) : List (List String) × List (Option AccountInfo) :=
  if h : src = [] then ([], [])
  else
    let chunk := src.take 50
    let rest := src.drop 50
    match rpc chunk with
    | .error _ => ([chunk], [])
    | .ok vals =>
        let decoded := (chunk.zip vals).map fun p =>
          match p.2 with
          | none => none
          | some info => some (decodeAccountInfo p.1 info)
        let tl := getAccountInfoList rpc rest
        (chunk :: tl.1, decoded ++ tl.2)
termination_by src.length
decreasing_by
  simp only [List.length_drop]
  have : 0 < src.length := List.length_pos.mpr h
  omega

theorem list_zip_decode (accountAt : String → Option RawAccount) :
    ∀ l : List String,
      ((l.zip (l.map accountAt)).map fun p =>
        match p.2 with
        | none => none
        | some info => some (decodeAccountInfo p.1 info)) =
      l.map (fun pk => (accountAt pk).map (decodeAccountInfo pk)) := by
  intro l
  induction l with
  | nil => simp
  | cons a t ih =>
      rcases h : accountAt a with _ | info
      · simp [h, ih]
      · simp [h, ih]

/-- C6: when the RPC behaves as the documented getMultipleAccounts contract —
answering every chunk with exactly one optional account per requested pubkey,
given by a pointwise account map — the batched read returns one entry per
input position in input order, None exactly where the account does not exist,
so the output has the same length as the input; and the issued chunks each
hold at most 50 pubkeys and concatenate back to the input list. -/
theorem getAccountInfoList_contract (accountAt : String → Option RawAccount)
    (rpc : List String → Except Unit (List (Option RawAccount)))
    (hrpc : ∀ l, rpc l = .ok (l.map accountAt)) (src : List String) :
    (getAccountInfoList rpc src).2 =
      src.map (fun pk => (accountAt pk).map (decodeAccountInfo pk)) ∧
    (getAccountInfoList rpc src).2.length = src.length ∧
    (∀ c ∈ (getAccountInfoList rpc src).1, c.length ≤ 50) ∧
    (getAccountInfoList rpc src).1.join = src := by
  have hmain : ∀ n (src : List String), src.length ≤ n →
      (getAccountInfoList rpc src).2 =
        src.map (fun pk => (accountAt pk).map (decodeAccountInfo pk)) ∧
      (∀ c ∈ (getAccountInfoList rpc src).1, c.length ≤ 50) ∧
      (getAccountInfoList rpc src).1.join = src := by
    intro n
    induction n with
    | zero =>
        intro src hlen
        have hsrc : src = [] := List.eq_nil_of_length_eq_zero (Nat.le_zero.mp hlen)
        subst hsrc
        rw [getAccountInfoList]
        simp
    | succ n ih =>
        intro src hlen
        by_cases hsrc : src = []
        · subst hsrc
          rw [getAccountInfoList]
          simp
        · rw [getAccountInfoList, dif_neg hsrc]
          simp only [hrpc]
          have hzip := list_zip_decode accountAt (src.take 50)
          have hlen2 : (src.drop 50).length ≤ n := by
            have hpos : 0 < src.length := List.length_pos.mpr hsrc
            simp only [List.length_drop]
            omega
          obtain ⟨ih1, ih2, ih3⟩ := ih (src.drop 50) hlen2
          refine ⟨?_, ?_, ?_⟩
          · rw [hzip, ih1, ← List.map_append, List.take_append_drop]
          · intro c hc
            rcases List.mem_cons.mp hc with h | h
            · subst h
              simp [List.length_take]
            · exact ih2 c h
          · show src.take 50 ++ (getAccountInfoList rpc (src.drop 50)).1.join = src
            rw [ih3, List.take_append_drop]
  obtain ⟨h1, h2, h3⟩ := hmain src.length src (le_refl _)
  refine ⟨h1, ?_, h2, h3⟩
  rw [h1, List.length_map]

/-- C6 witness: the contract evaluated on a two-pubkey input where the first
account exists and the second does not. -/
theorem getAccountInfoList_contract_witness :
    (getAccountInfoList
        (fun l => .ok (l.map (fun pk =>
          if pk = "p1" then some ⟨[3, 4], 10, "own"⟩ else none)))
        ["p1", "p2"]).2 =
      ["p1", "p2"].map (fun pk =>
        ((if pk = "p1" then some (⟨[3, 4], 10, "own"⟩ : RawAccount) else none)).map
          (decodeAccountInfo pk)) :=
  (getAccountInfoList_contract
    (fun pk => if pk = "p1" then some ⟨[3, 4], 10, "own"⟩ else none)
    (fun l => .ok (l.map (fun pk => if pk = "p1" then some ⟨[3, 4], 10, "own"⟩ else none)))
    (fun _ => rfl) ["p1", "p2"]).1

/-! ## Holder write preparation
(WriteHolderNeonTxPrepStage.build_tx_list,
proxy/mempool/neon_tx_send_strategy_holder_stage.py) -/

/-- Modelled from the spec: the instruction constructors produced by the tx
builder (make_write_ix and make_compute_budget_cu_fee_ix live in
common_neon/neon_instruction.py, which is not among the sources); per the
spec an STx carries HolderWrite(offset, chunk) instructions and optional
compute-budget instructions. -/
inductive SolIx
  | computeBudgetCuFee (fee : Nat)
  | holderWrite (offset : Nat) (chunk : List Nat)
deriving DecidableEq, Repr

/-- A legacy Solana transaction: a name and its instruction list. -/
structure SolLegacyTx where
  name : String
  ixList : List SolIx
deriving DecidableEq, Repr

/-- The strategy-context fields read by build_tx_list: whether the ETx is a
stuck transaction, whether transactions of this stage name were already sent,
and the builder's holder_msg bytes. -/
structure HolderPrepCtx where
  isStuckTx : Bool
  hasSolTx : Bool
  holderMsg : List Nat
deriving DecidableEq, Repr

/-- The chunk size holder_msg_size = 900 of build_tx_list. -/
def holderMsgSize : Nat := 900

/-- The while loop of build_tx_list: peel 900-byte chunks off holder_msg,
emitting one transaction per chunk whose instructions are the optional
compute-budget fee instruction followed by the write at the running offset
(a compute-unit priority fee of 0 is falsy in Python and adds nothing). -/
def buildHolderWriteLoop (cuPriorityFee : Nat) (name : String) (offset : Nat)
    (msg : List Nat) : List SolLegacyTx :=
  if h : msg = [] then []
  else
    let part := msg.take holderMsgSize
    let rest := msg.drop holderMsgSize
    let ixs := (if cuPriorityFee ≠ 0 then [SolIx.computeBudgetCuFee cuPriorityFee] else []) ++
      [SolIx.holderWrite offset part]
    ⟨name, ixs⟩ :: buildHolderWriteLoop cuPriorityFee name (offset + holderMsgSize) rest
termination_by msg.length
decreasing_by
  simp only [List.length_drop]
  have : 0 < msg.length := List.length_pos.mpr h
  simp only [holderMsgSize]
  omega

/-- WriteHolderNeonTxPrepStage.build_tx_list: nothing is built for a stuck
transaction or when transactions of this stage name were already sent;
otherwise the chunk loop runs over a copy of holder_msg from offset 0. -/
def buildHolderTxList (ctx : HolderPrepCtx) (cuPriorityFee : Nat) (name : String) :
    List (List SolLegacyTx) :=
  if ctx.isStuckTx ∨ ctx.hasSolTx then []
  else [buildHolderWriteLoop cuPriorityFee name 0 ctx.holderMsg]

/-- The (offset, chunk) pairs of all HolderWrite instructions of a built
transaction list, in order. -/
def holderWritePairs (txs : List SolLegacyTx) : List (Nat × List Nat) :=
  (txs.map fun tx => tx.ixList.filterMap fun ix =>
    match ix with
    | SolIx.holderWrite o c => some (o, c)
    | _ => none).join

/-- C8 counterexample: a non-stuck context that already has sent transactions
of the stage name and a non-empty holder_msg produces no transactions at all,
so the concatenation of its HolderWrite chunks (empty) differs from
holder_msg, contradicting the claim for arbitrary non-stuck ETxs. -/
theorem buildHolderTxList_skips_resent :
    buildHolderTxList ⟨false, true, [1]⟩ 0 "HolderWrite" = [] ∧
    ((holderWritePairs
        (buildHolderTxList ⟨false, true, [1]⟩ 0 "HolderWrite").join).map
      Prod.snd).join ≠ [1] := by
  refine ⟨rfl, by decide⟩

theorem buildHolderWriteLoop_spec (cuPriorityFee : Nat) (name : String) :
    ∀ n (msg : List Nat) (offset : Nat), msg.length ≤ n →
      ((holderWritePairs (buildHolderWriteLoop cuPriorityFee name offset msg)).map
          Prod.snd).join = msg ∧
      (∀ p ∈ holderWritePairs (buildHolderWriteLoop cuPriorityFee name offset msg),
        p.2 ≠ [] ∧ p.2.length ≤ 900) ∧
      (∃ k, (holderWritePairs (buildHolderWriteLoop cuPriorityFee name offset msg)).map
          Prod.fst = List.range' offset k 900) := by
  intro n
  induction n with
  | zero =>
      intro msg offset hlen
      have hmsg : msg = [] := List.eq_nil_of_length_eq_zero (Nat.le_zero.mp hlen)
      subst hmsg
      rw [buildHolderWriteLoop]
      exact ⟨rfl, by simp [holderWritePairs], 0, rfl⟩
  | succ n ih =>
      intro msg offset hlen
      by_cases hmsg : msg = []
      · subst hmsg
        rw [buildHolderWriteLoop]
        exact ⟨rfl, by simp [holderWritePairs], 0, rfl⟩
      · rw [buildHolderWriteLoop, dif_neg hmsg]
        have hpos : 0 < msg.length := List.length_pos.mpr hmsg
        have hlen2 : (msg.drop holderMsgSize).length ≤ n := by
          simp only [List.length_drop, holderMsgSize]
          omega
        obtain ⟨ih1, ih2, k, ih3⟩ := ih (msg.drop holderMsgSize) (offset + holderMsgSize) hlen2
        have hpairs : holderWritePairs
            (⟨name, (if cuPriorityFee ≠ 0 then [SolIx.computeBudgetCuFee cuPriorityFee]
                else []) ++ [SolIx.holderWrite offset (msg.take holderMsgSize)]⟩ ::
              buildHolderWriteLoop cuPriorityFee name (offset + holderMsgSize)
                (msg.drop holderMsgSize)) =
            (offset, msg.take holderMsgSize) ::
              holderWritePairs (buildHolderWriteLoop cuPriorityFee name
                (offset + holderMsgSize) (msg.drop holderMsgSize)) := by
          by_cases hfee : cuPriorityFee ≠ 0
          · simp [holderWritePairs, hfee, List.filterMap]
          · simp [holderWritePairs, hfee, List.filterMap]
        rw [hpairs]
        refine ⟨?_, ?_, ?_⟩
        · simp only [List.map_cons]
          rw [show ∀ (c : List Nat) (ls : List (List Nat)), (c :: ls).join = c ++ ls.join
            from fun _ _ => rfl]
          rw [ih1, List.take_append_drop]
        · intro p hp
          rcases List.mem_cons.mp hp with h | h
          · subst h
            have hlt : 0 < (msg.take holderMsgSize).length := by
              rw [List.length_take]
              simp only [holderMsgSize]
              omega
            refine ⟨List.length_pos.mp hlt, ?_⟩
            rw [List.length_take]
            simp only [holderMsgSize]
            omega
          · exact ih2 p h
        · refine ⟨k + 1, ?_⟩
          simp only [List.map_cons, ih3]
          rfl

/-- C8 (amended): for a non-stuck holder-backed ETx that has not already sent
transactions of the holder-write stage, build_tx_list returns one transaction
group whose HolderWrite chunks are non-empty, hold at most 900 bytes each,
sit at offsets 0, 900, 1800, ... and concatenate to holder_msg; for a stuck
transaction being resumed (and likewise when holder-write transactions were
already sent) no HolderWrite instructions are built. -/
theorem buildHolderTxList_spec (ctx : HolderPrepCtx) (cuPriorityFee : Nat)
    (name : String) (hfresh : ctx.isStuckTx = false ∧ ctx.hasSolTx = false) :
    (∃ txs, buildHolderTxList ctx cuPriorityFee name = [txs] ∧
      ((holderWritePairs txs).map Prod.snd).join = ctx.holderMsg ∧
      (∀ p ∈ holderWritePairs txs, p.2 ≠ [] ∧ p.2.length ≤ 900) ∧
      (∃ k, (holderWritePairs txs).map Prod.fst = List.range' 0 k 900)) ∧
    (∀ ctx2 : HolderPrepCtx, ctx2.isStuckTx = true →
      buildHolderTxList ctx2 cuPriorityFee name = []) := by
  constructor
  · refine ⟨buildHolderWriteLoop cuPriorityFee name 0 ctx.holderMsg, ?_, ?_⟩
    · rw [buildHolderTxList, if_neg (by simp [hfresh.1, hfresh.2])]
    · exact buildHolderWriteLoop_spec cuPriorityFee name ctx.holderMsg.length
        ctx.holderMsg 0 (le_refl _)
  · intro ctx2 hstuck
    rw [buildHolderTxList, if_pos (Or.inl (by simp [hstuck]))]

/-- C8 witness: a fresh non-stuck context with a 1000-byte holder message is
split into chunks at offsets 0 and 900 whose concatenation is the message. -/
theorem buildHolderTxList_spec_witness :
    ∃ txs, buildHolderTxList ⟨false, false, List.replicate 1000 7⟩ 0 "HolderWrite" = [txs] ∧
      ((holderWritePairs txs).map Prod.snd).join = List.replicate 1000 7 ∧
      (∀ p ∈ holderWritePairs txs, p.2 ≠ [] ∧ p.2.length ≤ 900) ∧
      (∃ k, (holderWritePairs txs).map Prod.fst = List.range' 0 k 900) :=
  (buildHolderTxList_spec ⟨false, false, List.replicate 1000 7⟩ 0 "HolderWrite"
    ⟨rfl, rfl⟩).1

/-! ## Association-list model of Python dict

Python dicts are embedded as association lists in insertion order: lookup
finds the first entry, assignment replaces in place when the key exists and
appends otherwise, deletion filters the key out. -/

section DictDefs

variable {κ β : Type} [DecidableEq κ]

/-- d.get(k): the value of the first entry with key k. -/
def dlookup (l : List (κ × β)) (k : κ) : Option β :=
  (l.find? fun p => decide (p.1 = k)).map Prod.snd

/-- del d[k] / d.pop(k): remove the entries with key k. -/
def derase (l : List (κ × β)) (k : κ) : List (κ × β) :=
  l.filter fun p => decide (p.1 ≠ k)

/-- d[k] = v: replace the value in place when the key exists, append a fresh
entry otherwise. -/
def dset (l : List (κ × β)) (k : κ) (v : β) : List (κ × β) :=
  if (dlookup l k).isSome then l.map (fun p => if p.1 = k then (k, v) else p)
  else l ++ [(k, v)]

theorem dlookup_nil (k : κ) : dlookup ([] : List (κ × β)) k = none := rfl

theorem dlookup_cons (p : κ × β) (t : List (κ × β)) (k2 : κ) :
    dlookup (p :: t) k2 = if p.1 = k2 then some p.2 else dlookup t k2 := by
  by_cases h : p.1 = k2
  · simp [dlookup, List.find?_cons_of_pos, h]
  · simp [dlookup, List.find?_cons_of_neg, h]

theorem dlookup_append (l1 l2 : List (κ × β)) (k : κ) :
    dlookup (l1 ++ l2) k =
      match dlookup l1 k with
      | some v => some v
      | none => dlookup l2 k := by
  induction l1 with
  | nil => simp [dlookup_nil]
  | cons p t ih =>
      by_cases h : p.1 = k
      · simp [dlookup_cons, h]
      · simp [dlookup_cons, h, ih]

theorem dlookup_setmap (l : List (κ × β)) (k k2 : κ) (v : β) :
    dlookup (l.map fun p => if p.1 = k then (k, v) else p) k2 =
      (if k2 = k then (if (dlookup l k).isSome then some v else none)
       else dlookup l k2) := by
  induction l with
  | nil => by_cases h : k2 = k <;> simp [dlookup_nil, h]
  | cons p t ih =>
      by_cases hpk : p.1 = k
      · by_cases h2 : k2 = k
        · subst h2
          simp [dlookup_cons, hpk, ih]
        · have hpk2 : ¬ p.1 = k2 := by rw [hpk]; exact fun h => h2 h.symm
          have hkk2 : ¬ (k : κ) = k2 := fun h => h2 h.symm
          simp [dlookup_cons, hpk, h2, hpk2, hkk2, ih]
      · by_cases h2 : k2 = k
        · subst h2
          simp [dlookup_cons, hpk, ih]
        · simp [dlookup_cons, hpk, h2, ih]

theorem dlookup_dset (l : List (κ × β)) (k k2 : κ) (v : β) :
    dlookup (dset l k v) k2 = if k2 = k then some v else dlookup l k2 := by
  rw [dset]
  by_cases hp : (dlookup l k).isSome
  · rw [if_pos hp, dlookup_setmap, if_pos hp]
  · rw [if_neg hp, dlookup_append]
    rcases hlk2 : dlookup l k2 with _ | w
    · simp only [hlk2]
      by_cases h2 : k2 = k
      · subst h2
        simp [dlookup_cons]
      · have hkk2 : ¬ (k : κ) = k2 := fun h => h2 h.symm
        simp [dlookup_cons, h2, hkk2, dlookup_nil]
    · simp only [hlk2]
      by_cases h2 : k2 = k
      · subst h2
        rw [hlk2] at hp
        simp at hp
      · simp [h2]

theorem dlookup_derase (l : List (κ × β)) (k k2 : κ) :
    dlookup (derase l k) k2 = if k2 = k then none else dlookup l k2 := by
  induction l with
  | nil => by_cases h : k2 = k <;> simp [derase, dlookup_nil, h]
  | cons p t ih =>
      by_cases hpk : p.1 = k
      · have hstep : derase (p :: t) k = derase t k := by
          simp [derase, hpk]
        by_cases h2 : k2 = k
        · subst h2
          rw [hstep, ih]
          simp
        · have hpk2 : ¬ p.1 = k2 := by rw [hpk]; exact fun h => h2 h.symm
          simp [hstep, ih, h2, dlookup_cons, hpk2]
      · have hstep : derase (p :: t) k = p :: derase t k := by
          simp [derase, hpk]
        by_cases h2 : k2 = k
        · subst h2
          simp [hstep, dlookup_cons, ih, hpk]
        · simp [hstep, dlookup_cons, ih, h2]

end DictDefs

/-! ## Stuck transaction dictionary
(MPStuckTxDict, proxy/mempool/mempool_stuck_tx_dict.py)

The completed-transaction dictionary checked by `in self._completed_tx_dict`
is MPTxDict from mempool_neon_tx_dict.py, which is not among the sources;
modelled from the spec (the stuck-tx poll skips own and completed entries) as
the plain set of completed signatures, passed as a parameter. -/

/-- The stuck transaction record; only the neon signature is inspected by the
dictionary operations (stuck_tx.sig and stuck_tx.neon_tx.sig agree). -/
structure MPStuckTxInfo where
  sig : String
  holderAccount : String
  startTime : Nat
deriving DecidableEq, Repr

/-- The three dictionaries of MPStuckTxDict. -/
structure MPStuckTxDict where
  ownTxDict : List (String × MPStuckTxInfo)
  externalTxDict : List (String × MPStuckTxInfo)
  processedTxDict : List (String × MPStuckTxInfo)
deriving DecidableEq, Repr

/-- MPStuckTxDict.add_external_tx_list: rebuild the external dictionary from
the reported list, skipping signatures present in own, processed or the
completed set (the not-in-external branch of the source only logs). -/
def stuckAddExternalTxList (completedSet : List String) (d : MPStuckTxDict)
    (stuckTxList : List MPStuckTxInfo) : MPStuckTxDict :=
  let txDict := stuckTxList.foldl
    (fun acc stuckTx =>
      if (dlookup d.ownTxDict stuckTx.sig).isSome then acc
      else if (dlookup d.processedTxDict stuckTx.sig).isSome then acc
      else if stuckTx.sig ∈ completedSet then acc
      else dset acc stuckTx.sig stuckTx)
    []
  { d with externalTxDict := txDict }

/-- MPStuckTxDict.add_own_tx: skip signatures already processed, owned or
completed; otherwise pop the signature from external and insert it into own. -/
def stuckAddOwnTx (completedSet : List String) (d : MPStuckTxDict)
    (stuckTx : MPStuckTxInfo) : MPStuckTxDict :=
  if (dlookup d.processedTxDict stuckTx.sig).isSome then d
  else if (dlookup d.ownTxDict stuckTx.sig).isSome then d
  else if stuckTx.sig ∈ completedSet then d
  else
    { d with
      externalTxDict := derase d.externalTxDict stuckTx.sig
      ownTxDict := dset d.ownTxDict stuckTx.sig stuckTx }

/-- MPStuckTxDict.acquire_tx: pop the signature from own, or failing that from
external (the or short-circuits), and insert the popped record into
processed; the assertion that one of the pops succeeded is the none case. -/
def stuckAcquireTx (d : MPStuckTxDict) (tx : MPStuckTxInfo) : Option MPStuckTxDict :=
  match dlookup d.ownTxDict tx.sig with
  | some stuckTx =>
      some { d with
        ownTxDict := derase d.ownTxDict tx.sig
        processedTxDict := dset d.processedTxDict tx.sig stuckTx }
  | none =>
      match dlookup d.externalTxDict tx.sig with
      | some stuckTx =>
          some { d with
            externalTxDict := derase d.externalTxDict tx.sig
            processedTxDict := dset d.processedTxDict tx.sig stuckTx }
      | none => none

/-- MPStuckTxDict.skip_tx: pop the signature from the first dictionary that
holds it; the closing assert False is the none case. -/
def stuckSkipTx (d : MPStuckTxDict) (stuckTx : MPStuckTxInfo) : Option MPStuckTxDict :=
  if (dlookup d.ownTxDict stuckTx.sig).isSome then
    some { d with ownTxDict := derase d.ownTxDict stuckTx.sig }
  else if (dlookup d.externalTxDict stuckTx.sig).isSome then
    some { d with externalTxDict := derase d.externalTxDict stuckTx.sig }
  else if (dlookup d.processedTxDict stuckTx.sig).isSome then
    some { d with processedTxDict := derase d.processedTxDict stuckTx.sig }
  else none

/-- MPStuckTxDict.done_tx: pop the signature from processed (KeyError when it
is absent). -/
def stuckDoneTx (d : MPStuckTxDict) (neonSig : String) : Option MPStuckTxDict :=
  match dlookup d.processedTxDict neonSig with
  | some _ => some { d with processedTxDict := derase d.processedTxDict neonSig }
  | none => none

/-- States of MPStuckTxDict reachable from the empty dictionary through its
operations (failing assertions stop a run, so only completing operations
produce states). -/
inductive StuckReach (completedSet : List String) : MPStuckTxDict → Prop
  | init : StuckReach completedSet ⟨[], [], []⟩
  | addExternal (d : MPStuckTxDict) (txs : List MPStuckTxInfo) :
      StuckReach completedSet d →
      StuckReach completedSet (stuckAddExternalTxList completedSet d txs)
  | addOwn (d : MPStuckTxDict) (tx : MPStuckTxInfo) :
      StuckReach completedSet d →
      StuckReach completedSet (stuckAddOwnTx completedSet d tx)
  | acquire (d d2 : MPStuckTxDict) (tx : MPStuckTxInfo) :
      StuckReach completedSet d → stuckAcquireTx d tx = some d2 →
      StuckReach completedSet d2
  | skip (d d2 : MPStuckTxDict) (tx : MPStuckTxInfo) :
      StuckReach completedSet d → stuckSkipTx d tx = some d2 →
      StuckReach completedSet d2
  | done (d d2 : MPStuckTxDict) (sig : String) :
      StuckReach completedSet d → stuckDoneTx d sig = some d2 →
      StuckReach completedSet d2

/-- The pairwise disjointness of the three dictionaries at one signature. -/
def StuckDisjointAt (d : MPStuckTxDict) (k : String) : Prop :=
  ¬((dlookup d.ownTxDict k).isSome ∧ (dlookup d.externalTxDict k).isSome) ∧
  ¬((dlookup d.ownTxDict k).isSome ∧ (dlookup d.processedTxDict k).isSome) ∧
  ¬((dlookup d.externalTxDict k).isSome ∧ (dlookup d.processedTxDict k).isSome)

theorem stuckAddExternal_fold_clean (completedSet : List String) (d : MPStuckTxDict)
    (k : String) :
    ∀ (txs : List MPStuckTxInfo) (acc : List (String × MPStuckTxInfo)),
      ((dlookup acc k).isSome →
        ¬(dlookup d.ownTxDict k).isSome ∧ ¬(dlookup d.processedTxDict k).isSome) →
      ((dlookup (txs.foldl
          (fun acc stuckTx =>
            if (dlookup d.ownTxDict stuckTx.sig).isSome then acc
            else if (dlookup d.processedTxDict stuckTx.sig).isSome then acc
            else if stuckTx.sig ∈ completedSet then acc
            else dset acc stuckTx.sig stuckTx) acc) k).isSome →
        ¬(dlookup d.ownTxDict k).isSome ∧ ¬(dlookup d.processedTxDict k).isSome) := by
  intro txs
  induction txs with
  | nil => intro acc hacc; exact hacc
  | cons tx rest ih =>
      intro acc hacc
      simp only [List.foldl_cons]
      by_cases h1 : (dlookup d.ownTxDict tx.sig).isSome
      · rw [if_pos h1]; exact ih acc hacc
      · rw [if_neg h1]
        by_cases h2 : (dlookup d.processedTxDict tx.sig).isSome
        · rw [if_pos h2]; exact ih acc hacc
        · rw [if_neg h2]
          by_cases h3 : tx.sig ∈ completedSet
          · rw [if_pos h3]; exact ih acc hacc
          · rw [if_neg h3]
            apply ih
            intro hk
            rw [dlookup_dset] at hk
            by_cases hks : k = tx.sig
            · exact hks ▸ ⟨h1, h2⟩
            · rw [if_neg hks] at hk
              exact hacc hk

/-- C10: in every reachable state of the stuck-transaction dictionary, a neon
transaction signature is present in at most one of own, external and
processed: add_own_tx pops the signature from external before inserting into
own, add_external_tx_list skips signatures found in own or processed, and
acquire_tx moves the signature from own or external into processed. -/
theorem stuckTxDict_disjoint (completedSet : List String) (d : MPStuckTxDict)
    (h : StuckReach completedSet d) (k : String) : StuckDisjointAt d k := by
  induction h with
  | init => exact ⟨by simp [dlookup_nil], by simp [dlookup_nil], by simp [dlookup_nil]⟩
  | addExternal d txs _ ih =>
      obtain ⟨h1, h2, h3⟩ := ih
      refine ⟨?_, h2, ?_⟩
      · rintro ⟨hown, hext⟩
        exact (stuckAddExternal_fold_clean completedSet d k txs []
          (by simp [dlookup_nil]) hext).1 hown
      · rintro ⟨hext, hproc⟩
        exact (stuckAddExternal_fold_clean completedSet d k txs []
          (by simp [dlookup_nil]) hext).2 hproc
  | addOwn d tx _ ih =>
      obtain ⟨h1, h2, h3⟩ := ih
      rw [stuckAddOwnTx]
      by_cases c1 : (dlookup d.processedTxDict tx.sig).isSome
      · rw [if_pos c1]; exact ⟨h1, h2, h3⟩
      · rw [if_neg c1]
        by_cases c2 : (dlookup d.ownTxDict tx.sig).isSome
        · rw [if_pos c2]; exact ⟨h1, h2, h3⟩
        · rw [if_neg c2]
          by_cases c3 : tx.sig ∈ completedSet
          · rw [if_pos c3]; exact ⟨h1, h2, h3⟩
          · rw [if_neg c3]
            by_cases hks : k = tx.sig
            · subst hks
              refine ⟨?_, ?_, ?_⟩
              · rintro ⟨_, hext⟩
                rw [dlookup_derase, if_pos rfl] at hext
                simp at hext
              · rintro ⟨_, hproc⟩
                exact c1 hproc
              · rintro ⟨hext, _⟩
                rw [dlookup_derase, if_pos rfl] at hext
                simp at hext
            · refine ⟨?_, ?_, ?_⟩
              · rintro ⟨hown, hext⟩
                rw [dlookup_dset, if_neg hks] at hown
                rw [dlookup_derase, if_neg hks] at hext
                exact h1 ⟨hown, hext⟩
              · rintro ⟨hown, hproc⟩
                rw [dlookup_dset, if_neg hks] at hown
                exact h2 ⟨hown, hproc⟩
              · rintro ⟨hext, hproc⟩
                rw [dlookup_derase, if_neg hks] at hext
                exact h3 ⟨hext, hproc⟩
  | acquire d d2 tx _ hacq ih =>
      obtain ⟨h1, h2, h3⟩ := ih
      rw [stuckAcquireTx] at hacq
      rcases hown : dlookup d.ownTxDict tx.sig with _ | stuckTx
      · rw [hown] at hacq
        rcases hext : dlookup d.externalTxDict tx.sig with _ | stuckTx
        · rw [hext] at hacq; cases hacq
        · rw [hext] at hacq
          cases hacq
          by_cases hks : k = tx.sig
          · subst hks
            refine ⟨?_, ?_, ?_⟩
            · rintro ⟨hownk, _⟩
              rw [hown] at hownk
              simp at hownk
            · rintro ⟨hownk, _⟩
              rw [hown] at hownk
              simp at hownk
            · rintro ⟨hextk, _⟩
              rw [dlookup_derase, if_pos rfl] at hextk
              simp at hextk
          · refine ⟨?_, ?_, ?_⟩
            · rintro ⟨hownk, hextk⟩
              rw [dlookup_derase, if_neg hks] at hextk
              exact h1 ⟨hownk, hextk⟩
            · rintro ⟨hownk, hprock⟩
              rw [dlookup_dset, if_neg hks] at hprock
              exact h2 ⟨hownk, hprock⟩
            · rintro ⟨hextk, hprock⟩
              rw [dlookup_derase, if_neg hks] at hextk
              rw [dlookup_dset, if_neg hks] at hprock
              exact h3 ⟨hextk, hprock⟩
      · rw [hown] at hacq
        cases hacq
        by_cases hks : k = tx.sig
        · subst hks
          refine ⟨?_, ?_, ?_⟩
          · rintro ⟨hownk, _⟩
            rw [dlookup_derase, if_pos rfl] at hownk
            simp at hownk
          · rintro ⟨hownk, _⟩
            rw [dlookup_derase, if_pos rfl] at hownk
            simp at hownk
          · rintro ⟨hextk, _⟩
            exact h1 ⟨by rw [hown]; simp, hextk⟩
        · refine ⟨?_, ?_, ?_⟩
          · rintro ⟨hownk, hextk⟩
            rw [dlookup_derase, if_neg hks] at hownk
            exact h1 ⟨hownk, hextk⟩
          · rintro ⟨hownk, hprock⟩
            rw [dlookup_derase, if_neg hks] at hownk
            rw [dlookup_dset, if_neg hks] at hprock
            exact h2 ⟨hownk, hprock⟩
          · rintro ⟨hextk, hprock⟩
            rw [dlookup_dset, if_neg hks] at hprock
            exact h3 ⟨hextk, hprock⟩
  | skip d d2 tx _ hskip ih =>
      obtain ⟨h1, h2, h3⟩ := ih
      rw [stuckSkipTx] at hskip
      by_cases c1 : (dlookup d.ownTxDict tx.sig).isSome
      · rw [if_pos c1] at hskip
        cases hskip
        refine ⟨?_, ?_, h3⟩
        · rintro ⟨hownk, hextk⟩
          rw [dlookup_derase] at hownk
          by_cases hks : k = tx.sig
          · rw [if_pos hks] at hownk; simp at hownk
          · rw [if_neg hks] at hownk; exact h1 ⟨hownk, hextk⟩
        · rintro ⟨hownk, hprock⟩
          rw [dlookup_derase] at hownk
          by_cases hks : k = tx.sig
          · rw [if_pos hks] at hownk; simp at hownk
          · rw [if_neg hks] at hownk; exact h2 ⟨hownk, hprock⟩
      · rw [if_neg c1] at hskip
        by_cases c2 : (dlookup d.externalTxDict tx.sig).isSome
        · rw [if_pos c2] at hskip
          cases hskip
          refine ⟨?_, h2, ?_⟩
          · rintro ⟨hownk, hextk⟩
            rw [dlookup_derase] at hextk
            by_cases hks : k = tx.sig
            · rw [if_pos hks] at hextk; simp at hextk
            · rw [if_neg hks] at hextk; exact h1 ⟨hownk, hextk⟩
          · rintro ⟨hextk, hprock⟩
            rw [dlookup_derase] at hextk
            by_cases hks : k = tx.sig
            · rw [if_pos hks] at hextk; simp at hextk
            · rw [if_neg hks] at hextk; exact h3 ⟨hextk, hprock⟩
        · rw [if_neg c2] at hskip
          by_cases c3 : (dlookup d.processedTxDict tx.sig).isSome
          · rw [if_pos c3] at hskip
            cases hskip
            refine ⟨h1, ?_, ?_⟩
            · rintro ⟨hownk, hprock⟩
              rw [dlookup_derase] at hprock
              by_cases hks : k = tx.sig
              · rw [if_pos hks] at hprock; simp at hprock
              · rw [if_neg hks] at hprock; exact h2 ⟨hownk, hprock⟩
            · rintro ⟨hextk, hprock⟩
              rw [dlookup_derase] at hprock
              by_cases hks : k = tx.sig
              · rw [if_pos hks] at hprock; simp at hprock
              · rw [if_neg hks] at hprock; exact h3 ⟨hextk, hprock⟩
          · rw [if_neg c3] at hskip
            cases hskip
  | done d d2 sig _ hdone ih =>
      obtain ⟨h1, h2, h3⟩ := ih
      rw [stuckDoneTx] at hdone
      rcases hproc : dlookup d.processedTxDict sig with _ | stuckTx
      · rw [hproc] at hdone; cases hdone
      · rw [hproc] at hdone
        cases hdone
        refine ⟨h1, ?_, ?_⟩
        · rintro ⟨hownk, hprock⟩
          rw [dlookup_derase] at hprock
          by_cases hks : k = sig
          · rw [if_pos hks] at hprock; simp at hprock
          · rw [if_neg hks] at hprock; exact h2 ⟨hownk, hprock⟩
        · rintro ⟨hextk, hprock⟩
          rw [dlookup_derase] at hprock
          by_cases hks : k = sig
          · rw [if_pos hks] at hprock; simp at hprock
          · rw [if_neg hks] at hprock; exact h3 ⟨hextk, hprock⟩

/-- C10 witness: a concrete run — register an own stuck tx, then acquire it —
reaches a state whose dictionaries are disjoint at that signature. -/
theorem stuckTxDict_disjoint_witness :
    StuckDisjointAt
      { ownTxDict := derase (dset [] "s1" ⟨"s1", "h1", 3⟩) "s1"
        externalTxDict := derase ([] : List (String × MPStuckTxInfo)) "s1"
        processedTxDict := dset [] "s1" ⟨"s1", "h1", 3⟩ } "s1" := by
  have h0 : StuckReach [] ⟨[], [], []⟩ := StuckReach.init
  have h1 : StuckReach [] (stuckAddOwnTx [] ⟨[], [], []⟩ ⟨"s1", "h1", 3⟩) :=
    StuckReach.addOwn _ _ h0
  have hstep : stuckAddOwnTx [] ⟨[], [], []⟩ ⟨"s1", "h1", 3⟩ =
      ⟨dset [] "s1" ⟨"s1", "h1", 3⟩, derase [] "s1", []⟩ := by
    rfl
  rw [hstep] at h1
  have h2 : StuckReach []
      { ownTxDict := derase (dset [] "s1" ⟨"s1", "h1", 3⟩) "s1"
        externalTxDict := derase ([] : List (String × MPStuckTxInfo)) "s1"
        processedTxDict := dset [] "s1" ⟨"s1", "h1", 3⟩ } := by
    refine StuckReach.acquire _ _ ⟨"s1", "h1", 3⟩ h1 ?_
    rfl
  exact stuckTxDict_disjoint [] _ h2 "s1"

/-! ## Mempool index dictionary
(MPTxRequestDict, proxy/mempool/mempool_schedule.py)

The two gas-price SortedQueues use lt-key -gas_price and eq-key sig.  The
(sender, nonce) dictionary key f-string is embedded as the pair itself (the
formatted key is injective on the hex sender addresses in use). -/

/-- The MPTxRequest fields used by the schedule: neon signature, sender
address, nonce, gas price and the state transaction count of the
execution config carried by the request. -/
structure MPTxRequest where
  sig : String
  senderAddress : String
  nonce : Nat
  gasPrice : Int
  cfgStateTxCnt : Nat
deriving DecidableEq, Repr

/-- MPTxRequestDict._sender_nonce of a request. -/
def MPTxRequest.snKey (tx : MPTxRequest) : String × Nat := (tx.senderAddress, tx.nonce)

/-- The lt-key -gas_price of the gas-price queues. -/
def gasLtKey (tx : MPTxRequest) : Int := -tx.gasPrice

/-- The four index structures of MPTxRequestDict. -/
structure MPTxRequestDict where
  txHashDict : List (String × MPTxRequest)
  txSenderNonceDict : List ((String × Nat) × MPTxRequest)
  txGasPriceQueue : List MPTxRequest
  txGappedGasPriceQueue : List MPTxRequest
deriving DecidableEq, Repr

theorem sqPopItem_some_length {α κ ε : Type} [LinearOrder κ] [DecidableEq ε]
    {ltKey : α → κ} {eqKey : α → ε} {xs ys : List α} {item a : α}
    (h : sqPopItem ltKey eqKey xs item = some (a, ys)) : ys.length < xs.length := by
  obtain ⟨_, _, l1, l2, hxs, hys⟩ := sqPopItem_some_spec xs ys item a h
  subst hxs hys
  simp only [List.length_append, List.length_cons]
  omega

/-- MPTxRequestDict._move_between_gas_price_queues: starting at the given
nonce, while the (sender, nonce) key is present in the sender-nonce
dictionary, pop that transaction from src and add it to dst, stepping the
nonce; a pop of an absent transaction or an add of a present one is an
assertion error (none).  Every executed step removes one element from src —
exactly as the Python loop, whose pop raises when the element is missing —
so with the fuel src.length + 1 passed by every caller the zero case is
unreachable. -/
def moveBetweenGasPriceQueues (snDict : List ((String × Nat) × MPTxRequest)) :
    Nat → List MPTxRequest → List MPTxRequest → String → Nat →
    Option (List MPTxRequest × List MPTxRequest)
  | 0, _, _, _, _ => none
  | fuel + 1, src, dst, senderAddress, nonce =>
      match dlookup snDict (senderAddress, nonce) with
      | none => some (src, dst)
      | some tx =>
          match sqPopItem gasLtKey MPTxRequest.sig src tx with
          | none => none
          | some (popped, src2) =>
              match sqAdd gasLtKey MPTxRequest.sig dst popped with
              | none => none
              | some dst2 =>
                  moveBetweenGasPriceQueues snDict fuel src2 dst2 senderAddress (nonce + 1)

/-- MPTxRequestDict.add_tx without its closing size assertion: the four
opening assertions (fresh hash key, fresh sender-nonce key, absent from both
queues), the two dictionary insertions, and the queue insertion — for a
non-gapped transaction followed by queue_tx(sender, nonce + 1), which runs on
the sender-nonce dictionary already holding the new transaction. -/
def dictAddTxCore (d : MPTxRequestDict) (tx : MPTxRequest) (isGappedTx : Bool) :
    Option MPTxRequestDict :=
  if (dlookup d.txHashDict tx.sig).isSome then none
  else if (dlookup d.txSenderNonceDict tx.snKey).isSome then none
  else if (sqFind gasLtKey MPTxRequest.sig d.txGasPriceQueue tx).isSome then none
  else if (sqFind gasLtKey MPTxRequest.sig d.txGappedGasPriceQueue tx).isSome then none
  else
    let hashDict2 := dset d.txHashDict tx.sig tx
    let snDict2 := dset d.txSenderNonceDict tx.snKey tx
    if isGappedTx then
      match sqAdd gasLtKey MPTxRequest.sig d.txGappedGasPriceQueue tx with
      | none => none
      | some gq2 => some ⟨hashDict2, snDict2, d.txGasPriceQueue, gq2⟩
    else
      match sqAdd gasLtKey MPTxRequest.sig d.txGasPriceQueue tx with
      | none => none
      | some q2 =>
          match moveBetweenGasPriceQueues snDict2 (d.txGappedGasPriceQueue.length + 1)
              d.txGappedGasPriceQueue q2 tx.senderAddress (tx.nonce + 1) with
          | none => none
          | some (gq2, q3) => some ⟨hashDict2, snDict2, q3, gq2⟩

/-- MPTxRequestDict.add_tx with its closing size assertion
len(hash) == len(sender_nonce) >= len(gas_queue) + len(gapped_queue). -/
def dictAddTx (d : MPTxRequestDict) (tx : MPTxRequest) (isGappedTx : Bool) :
    Option MPTxRequestDict :=
  match dictAddTxCore d tx isGappedTx with
  | none => none
  | some d2 =>
      if d2.txHashDict.length = d2.txSenderNonceDict.length ∧
          d2.txGasPriceQueue.length + d2.txGappedGasPriceQueue.length ≤
            d2.txSenderNonceDict.length then some d2
      else none

/-- MPTxRequestDict.pop_tx: assert both keys present; remove the transaction
from the gapped queue when found there, otherwise pop it from the gas-price
queue and dequeue the successors (the move runs before the dictionary keys
are dropped); finally drop both dictionary entries. -/
def dictPopTx (d : MPTxRequestDict) (tx : MPTxRequest) : Option MPTxRequestDict :=
  if ¬ (dlookup d.txHashDict tx.sig).isSome then none
  else if ¬ (dlookup d.txSenderNonceDict tx.snKey).isSome then none
  else
    match sqFind gasLtKey MPTxRequest.sig d.txGappedGasPriceQueue tx with
    | some pos =>
        some ⟨derase d.txHashDict tx.sig, derase d.txSenderNonceDict tx.snKey,
          d.txGasPriceQueue, d.txGappedGasPriceQueue.eraseIdx pos⟩
    | none =>
        match sqPopItem gasLtKey MPTxRequest.sig d.txGasPriceQueue tx with
        | none => none
        | some (_, q2) =>
            match moveBetweenGasPriceQueues d.txSenderNonceDict (q2.length + 1) q2
                d.txGappedGasPriceQueue tx.senderAddress (tx.nonce + 1) with
            | none => none
            | some (q3, gq2) =>
                some ⟨derase d.txHashDict tx.sig, derase d.txSenderNonceDict tx.snKey,
                  q3, gq2⟩

/-- MPTxRequestDict.done_tx: assert both keys present and the transaction
absent from both queues; dequeue the successors when the pool became
suspended; drop both dictionary entries. -/
def dictDoneTx (d : MPTxRequestDict) (tx : MPTxRequest) (isSuspended : Bool) :
    Option MPTxRequestDict :=
  if ¬ (dlookup d.txHashDict tx.sig).isSome then none
  else if ¬ (dlookup d.txSenderNonceDict tx.snKey).isSome then none
  else if (sqFind gasLtKey MPTxRequest.sig d.txGasPriceQueue tx).isSome then none
  else if (sqFind gasLtKey MPTxRequest.sig d.txGappedGasPriceQueue tx).isSome then none
  else if isSuspended then
    match moveBetweenGasPriceQueues d.txSenderNonceDict (d.txGasPriceQueue.length + 1)
        d.txGasPriceQueue d.txGappedGasPriceQueue tx.senderAddress (tx.nonce + 1) with
    | none => none
    | some (q2, gq2) =>
        some ⟨derase d.txHashDict tx.sig, derase d.txSenderNonceDict tx.snKey, q2, gq2⟩
  else
    some ⟨derase d.txHashDict tx.sig, derase d.txSenderNonceDict tx.snKey,
      d.txGasPriceQueue, d.txGappedGasPriceQueue⟩

/-- MPTxRequestDict.acquire_tx: pop the transaction from the gas-price queue
(it stays in both dictionaries). -/
def dictAcquireTx (d : MPTxRequestDict) (tx : MPTxRequest) : Option MPTxRequestDict :=
  match sqPopItem gasLtKey MPTxRequest.sig d.txGasPriceQueue tx with
  | none => none
  | some (_, q2) => some { d with txGasPriceQueue := q2 }

/-- MPTxRequestDict.cancel_process_tx: put the transaction back into the
gapped queue and dequeue the successors when the pool became suspended,
otherwise back into the gas-price queue. -/
def dictCancelProcessTx (d : MPTxRequestDict) (tx : MPTxRequest) (isSuspended : Bool) :
    Option MPTxRequestDict :=
  if isSuspended then
    match sqAdd gasLtKey MPTxRequest.sig d.txGappedGasPriceQueue tx with
    | none => none
    | some gq2 =>
        match moveBetweenGasPriceQueues d.txSenderNonceDict (d.txGasPriceQueue.length + 1)
            d.txGasPriceQueue gq2 tx.senderAddress (tx.nonce + 1) with
        | none => none
        | some (q2, gq3) => some ⟨d.txHashDict, d.txSenderNonceDict, q2, gq3⟩
  else
    match sqAdd gasLtKey MPTxRequest.sig d.txGasPriceQueue tx with
    | none => none
    | some q2 => some { d with txGasPriceQueue := q2 }

/-- MPTxRequestDict.queue_tx: move the sender's consecutively-nonced
transactions from the gapped queue into the gas-price queue. -/
def dictQueueTx (d : MPTxRequestDict) (senderAddress : String) (startNonce : Nat) :
    Option MPTxRequestDict :=
  match moveBetweenGasPriceQueues d.txSenderNonceDict (d.txGappedGasPriceQueue.length + 1)
      d.txGappedGasPriceQueue d.txGasPriceQueue senderAddress startNonce with
  | none => none
  | some (gq2, q2) => some { d with txGasPriceQueue := q2, txGappedGasPriceQueue := gq2 }

/-- MPTxRequestDict.dequeue_tx: move the sender's consecutively-nonced
transactions from the gas-price queue into the gapped queue. -/
def dictDequeueTx (d : MPTxRequestDict) (senderAddress : String) (startNonce : Nat) :
    Option MPTxRequestDict :=
  match moveBetweenGasPriceQueues d.txSenderNonceDict (d.txGasPriceQueue.length + 1)
      d.txGasPriceQueue d.txGappedGasPriceQueue senderAddress startNonce with
  | none => none
  | some (q2, gq2) => some { d with txGasPriceQueue := q2, txGappedGasPriceQueue := gq2 }

/-- The structural invariant of the index dictionary: distinct keys and equal
sizes of the two dictionaries, sorted gas-price queues whose members carry
pairwise distinct signatures, each member being exactly the hash-dictionary
entry of its signature. -/
def DictInv (d : MPTxRequestDict) : Prop :=
  (d.txHashDict.map Prod.fst).Nodup ∧
  (d.txSenderNonceDict.map Prod.fst).Nodup ∧
  d.txHashDict.length = d.txSenderNonceDict.length ∧
  SqSorted gasLtKey d.txGasPriceQueue ∧
  SqSorted gasLtKey d.txGappedGasPriceQueue ∧
  ((d.txGasPriceQueue ++ d.txGappedGasPriceQueue).map MPTxRequest.sig).Nodup ∧
  (∀ t ∈ d.txGasPriceQueue ++ d.txGappedGasPriceQueue, dlookup d.txHashDict t.sig = some t)

theorem dlookup_isSome_iff_mem_keys {κ β : Type} [DecidableEq κ]
    (l : List (κ × β)) (k : κ) : (dlookup l k).isSome ↔ k ∈ l.map Prod.fst := by
  induction l with
  | nil => simp [dlookup_nil]
  | cons p t ih =>
      by_cases h : p.1 = k
      · simp [dlookup_cons, h]
      · have hne : ¬ k = p.1 := fun he => h he.symm
        rw [dlookup_cons, if_neg h, ih]
        simp [List.mem_cons, hne]

theorem dset_fresh_append {κ β : Type} [DecidableEq κ]
    (l : List (κ × β)) (k : κ) (v : β) (h : ¬ (dlookup l k).isSome) :
    dset l k v = l ++ [(k, v)] := by
  rw [dset, if_neg h]

theorem derase_length_of_present {κ β : Type} [DecidableEq κ] :
    ∀ (l : List (κ × β)) (k : κ), (l.map Prod.fst).Nodup → (dlookup l k).isSome →
      (derase l k).length + 1 = l.length := by
  intro l
  induction l with
  | nil => intro k _ h; simp [dlookup_nil] at h
  | cons p t ih =>
      intro k hnd hk
      by_cases h : p.1 = k
      · have hstep : derase (p :: t) k = derase t k := by simp [derase, h]
        have hkt : ¬ (dlookup t k).isSome := by
          rw [dlookup_isSome_iff_mem_keys]
          have := (List.nodup_cons.mp hnd).1
          rw [h] at this
          exact this
        have ht : derase t k = t := by
          apply List.filter_eq_self.mpr
          intro p2 hp2
          simp only [decide_eq_true_eq]
          intro he
          exact hkt (by rw [dlookup_isSome_iff_mem_keys, ← he]; exact List.mem_map_of_mem _ hp2)
        rw [hstep, ht]
        simp
      · have hstep : derase (p :: t) k = p :: derase t k := by simp [derase, h]
        have hkt : (dlookup t k).isSome := by
          rw [dlookup_cons, if_neg h] at hk
          exact hk
        have := ih k (List.nodup_cons.mp hnd).2 hkt
        rw [hstep]
        simp only [List.length_cons]
        omega

theorem derase_keys_nodup {κ β : Type} [DecidableEq κ]
    (l : List (κ × β)) (k : κ) (h : (l.map Prod.fst).Nodup) :
    ((derase l k).map Prod.fst).Nodup := by
  have hsub : List.Sublist (derase l k) l := List.filter_sublist l
  exact h.sublist (hsub.map Prod.fst)

theorem nodup_subset_length {γ : Type} [DecidableEq γ] :
    ∀ (l1 l2 : List γ), l1.Nodup → (∀ x ∈ l1, x ∈ l2) → l1.length ≤ l2.length := by
  intro l1
  induction l1 with
  | nil => simp
  | cons a t ih =>
      intro l2 hnd hsub
      have hal2 : a ∈ l2 := hsub a (by simp)
      have hnd2 := List.nodup_cons.mp hnd
      have hsubt : ∀ x ∈ t, x ∈ l2.erase a := by
        intro x hx
        exact (List.mem_erase_of_ne (fun (he : x = a) => hnd2.1 (he ▸ hx))).mpr
          (hsub x (by simp [hx]))
      have h1 := ih (l2.erase a) hnd2.2 hsubt
      have h2 := List.length_erase_of_mem hal2
      have hpos : 0 < l2.length := List.length_pos.mpr (List.ne_nil_of_mem hal2)
      simp only [List.length_cons]
      omega

/-- The size claim follows from the structural invariant: the queue members
have pairwise distinct signatures, each of which is a key of the hash
dictionary. -/
theorem dictInv_counts (d : MPTxRequestDict) (h : DictInv d) :
    d.txHashDict.length = d.txSenderNonceDict.length ∧
    d.txGasPriceQueue.length + d.txGappedGasPriceQueue.length ≤ d.txHashDict.length := by
  obtain ⟨hnd1, hnd2, hlen, hs1, hs2, hqnd, hqmem⟩ := h
  refine ⟨hlen, ?_⟩
  have hsub : ∀ x ∈ (d.txGasPriceQueue ++ d.txGappedGasPriceQueue).map MPTxRequest.sig,
      x ∈ d.txHashDict.map Prod.fst := by
    intro x hx
    obtain ⟨t, ht, hxt⟩ := List.mem_map.mp hx
    have := hqmem t ht
    rw [← hxt, ← dlookup_isSome_iff_mem_keys]
    rw [this]
    rfl
  have := nodup_subset_length _ _ hqnd hsub
  simp only [List.length_map, List.length_append] at this
  simpa using this

/-- The queue contents after a successful move are a permutation of the
contents before, and sortedness of both queues is preserved. -/
theorem moveBetween_some_spec (snDict : List ((String × Nat) × MPTxRequest)) :
    ∀ (fuel : Nat) (src dst src2 dst2 : List MPTxRequest) (a : String) (n : Nat),
      moveBetweenGasPriceQueues snDict fuel src dst a n = some (src2, dst2) →
      (src2 ++ dst2).Perm (src ++ dst) ∧
      (SqSorted gasLtKey src → SqSorted gasLtKey dst →
        SqSorted gasLtKey src2 ∧ SqSorted gasLtKey dst2) := by
  intro fuel
  induction fuel with
  | zero =>
      intro src dst src2 dst2 a n hmv
      exact Option.noConfusion hmv
  | succ N ih =>
      intro src dst src2 dst2 a n hmv
      rw [moveBetweenGasPriceQueues] at hmv
      rcases hlk : dlookup snDict (a, n) with _ | tx
      · simp only [hlk, Option.some_inj, Prod.mk.injEq] at hmv
        obtain ⟨h1, h2⟩ := hmv
        subst h1 h2
        exact ⟨List.Perm.refl _, fun hs1 hs2 => ⟨hs1, hs2⟩⟩
      · simp only [hlk] at hmv
        rcases hpop : sqPopItem gasLtKey MPTxRequest.sig src tx with _ | ppair
        · simp [hpop] at hmv
        · obtain ⟨popped, srcmid⟩ := ppair
          simp only [hpop] at hmv
          rcases hadd : sqAdd gasLtKey MPTxRequest.sig dst popped with _ | dstmid
          · simp [hadd] at hmv
          · simp only [hadd] at hmv
            obtain ⟨ihp, ihs⟩ := ih srcmid dstmid src2 dst2 a (n + 1) hmv
            have hpp := sqPopItem_some_perm src srcmid tx popped hpop
            have hap := sqAdd_some_perm dst dstmid popped hadd
            constructor
            · have step1 : (srcmid ++ dstmid).Perm (srcmid ++ (popped :: dst)) :=
                List.Perm.append_left srcmid hap
              have step2 : (srcmid ++ (popped :: dst)).Perm (popped :: (srcmid ++ dst)) :=
                List.perm_middle
              have step3 : (popped :: (srcmid ++ dst)) = (popped :: srcmid) ++ dst := rfl
              have step4 : ((popped :: srcmid) ++ dst).Perm (src ++ dst) :=
                List.Perm.append_right dst hpp.symm
              exact ihp.trans (step1.trans (step2.trans (by rw [step3]; exact step4)))
            · intro hs1 hs2
              exact ihs (sqPopItem_some_sorted src srcmid tx popped hs1 hpop)
                (sqAdd_some_sorted dst dstmid popped hs2 hadd)

theorem sqFind_some_spec {α κ ε : Type} [LinearOrder κ] [DecidableEq ε]
    {ltKey : α → κ} {eqKey : α → ε} {xs : List α} {item : α} {i : Nat}
    (h : sqFind ltKey eqKey xs item = some i) :
    ∃ l1 b l2, xs = l1 ++ b :: l2 ∧ ltKey b = ltKey item ∧ eqKey b = eqKey item ∧
      xs.eraseIdx i = l1 ++ l2 := by
  have h2 := h
  simp only [sqFind, sqFindFromPos] at h2
  obtain ⟨t, b, r, hdrop, hi, hbk, hbe⟩ := sqScan_some_spec _ _ _ _ _ h2
  have hpos : sqBisect ltKey xs (ltKey item) ≤ xs.length := sqBisect_le_length xs _
  have hxs : xs = (xs.take (sqBisect ltKey xs (ltKey item)) ++ t) ++ b :: r := by
    rw [List.append_assoc, ← hdrop, List.take_append_drop]
  have hlen : ((xs.take (sqBisect ltKey xs (ltKey item)) ++ t)).length = i := by
    simp [List.length_take, Nat.min_eq_left hpos, hi]
  refine ⟨xs.take (sqBisect ltKey xs (ltKey item)) ++ t, b, r, hxs, hbk, hbe, ?_⟩
  conv_lhs => rw [hxs, ← hlen]
  exact list_eraseIdx_append_cons _ _ _

theorem nodup_middle_ne {γ : Type} (pre post : List γ) (x : γ)
    (h : (pre ++ x :: post).Nodup) : ∀ y ∈ pre ++ post, y ≠ x := by
  intro y hy he
  subst he
  have h2 := List.nodup_middle.mp h
  exact (List.nodup_cons.mp h2).1 hy

theorem nodup_append_singleton {γ : Type} (l : List γ) (a : γ)
    (hnd : l.Nodup) (ha : a ∉ l) : (l ++ [a]).Nodup := by
  rw [List.nodup_append]
  exact ⟨hnd, List.nodup_singleton a, by simpa [List.disjoint_singleton] using ha⟩

theorem dlookup_append_single_hit {κ β : Type} [DecidableEq κ]
    (l : List (κ × β)) (k : κ) (v : β) (h : dlookup l k = none) :
    dlookup (l ++ [(k, v)]) k = some v := by
  rw [dlookup_append, h, dlookup_cons]
  simp

theorem dlookup_append_single_miss {κ β : Type} [DecidableEq κ]
    (l : List (κ × β)) (k k2 : κ) (v : β) (h : (dlookup l k2).isSome) :
    dlookup (l ++ [(k, v)]) k2 = dlookup l k2 := by
  rw [dlookup_append]
  rcases hl : dlookup l k2 with _ | w
  · rw [hl] at h; simp at h
  · rfl

/-- Effect of MPTxRequestDict.add_tx before the closing size assertion: both
dictionaries gain the fresh entry, the queue contents gain the transaction,
the invariant is preserved. -/
theorem dictAddTxCore_inv (d d2 : MPTxRequestDict) (tx : MPTxRequest) (g : Bool)
    (hinv : DictInv d) (h : dictAddTxCore d tx g = some d2) :
    DictInv d2 ∧
    d2.txHashDict = d.txHashDict ++ [(tx.sig, tx)] ∧
    d2.txSenderNonceDict = d.txSenderNonceDict ++ [(tx.snKey, tx)] ∧
    (d2.txGasPriceQueue ++ d2.txGappedGasPriceQueue).Perm
      (tx :: (d.txGasPriceQueue ++ d.txGappedGasPriceQueue)) := by
  obtain ⟨hnd1, hnd2, hlen, hs1, hs2, hqnd, hqmem⟩ := hinv
  rw [dictAddTxCore] at h
  by_cases h1 : (dlookup d.txHashDict tx.sig).isSome
  · rw [if_pos h1] at h; cases h
  rw [if_neg h1] at h
  by_cases h2 : (dlookup d.txSenderNonceDict tx.snKey).isSome
  · rw [if_pos h2] at h; cases h
  rw [if_neg h2] at h
  by_cases h3 : (sqFind gasLtKey MPTxRequest.sig d.txGasPriceQueue tx).isSome
  · rw [if_pos h3] at h; cases h
  rw [if_neg h3] at h
  by_cases h4 : (sqFind gasLtKey MPTxRequest.sig d.txGappedGasPriceQueue tx).isSome
  · rw [if_pos h4] at h; cases h
  rw [if_neg h4] at h
  simp only [dset_fresh_append _ _ _ h1, dset_fresh_append _ _ _ h2] at h
  have hsigfresh : ∀ t ∈ d.txGasPriceQueue ++ d.txGappedGasPriceQueue, t.sig ≠ tx.sig := by
    intro t ht he
    have := hqmem t ht
    rw [he] at this
    rw [this] at h1
    simp at h1
  have hnd1b : ((d.txHashDict ++ [(tx.sig, tx)]).map Prod.fst).Nodup := by
    rw [List.map_append]
    refine nodup_append_singleton _ _ hnd1 ?_
    rw [← dlookup_isSome_iff_mem_keys]
    exact h1
  have hnd2b : ((d.txSenderNonceDict ++ [(tx.snKey, tx)]).map Prod.fst).Nodup := by
    rw [List.map_append]
    refine nodup_append_singleton _ _ hnd2 ?_
    rw [← dlookup_isSome_iff_mem_keys]
    exact h2
  have hlenb : (d.txHashDict ++ [(tx.sig, tx)]).length =
      (d.txSenderNonceDict ++ [(tx.snKey, tx)]).length := by
    simp [hlen]
  have hmemb : ∀ (q2 g2 : List MPTxRequest),
      (q2 ++ g2).Perm (tx :: (d.txGasPriceQueue ++ d.txGappedGasPriceQueue)) →
      (((q2 ++ g2).map MPTxRequest.sig).Nodup ∧
        ∀ t ∈ q2 ++ g2, dlookup (d.txHashDict ++ [(tx.sig, tx)]) t.sig = some t) := by
    intro q2 g2 hperm
    constructor
    · refine ((hperm.map MPTxRequest.sig).nodup_iff).mpr ?_
      rw [List.map_cons, List.nodup_cons]
      exact ⟨fun hmem => by
        obtain ⟨t, ht, hts⟩ := List.mem_map.mp hmem
        exact hsigfresh t ht hts, hqnd⟩
    · intro t ht
      rcases List.mem_cons.mp (hperm.subset ht) with hcase | hcase
      · subst hcase
        exact dlookup_append_single_hit _ _ _
          (Option.not_isSome_iff_eq_none.mp h1)
      · rw [dlookup_append_single_miss _ _ _ _ (by rw [hqmem t hcase]; rfl)]
        exact hqmem t hcase
  split at h
  · -- gapped branch: add to the gapped queue
    rcases hadd : sqAdd gasLtKey MPTxRequest.sig d.txGappedGasPriceQueue tx with _ | gq2
    · rw [hadd] at h; exact Option.noConfusion h
    · simp only [hadd, Option.some_inj] at h
      subst h
      have haddp := sqAdd_some_perm _ _ _ hadd
      have hperm : (d.txGasPriceQueue ++ gq2).Perm
          (tx :: (d.txGasPriceQueue ++ d.txGappedGasPriceQueue)) := by
        have st1 : (d.txGasPriceQueue ++ gq2).Perm
            (d.txGasPriceQueue ++ (tx :: d.txGappedGasPriceQueue)) :=
          List.Perm.append_left _ haddp
        have st2 : (d.txGasPriceQueue ++ (tx :: d.txGappedGasPriceQueue)).Perm
            (tx :: (d.txGasPriceQueue ++ d.txGappedGasPriceQueue)) := List.perm_middle
        exact st1.trans st2
      obtain ⟨hnq, hmq⟩ := hmemb _ _ hperm
      exact ⟨⟨hnd1b, hnd2b, hlenb, hs1, sqAdd_some_sorted _ _ _ hs2 hadd, hnq, hmq⟩,
        rfl, rfl, hperm⟩
  · -- non-gapped branch: add to the gas-price queue, then queue_tx
    rcases hadd : sqAdd gasLtKey MPTxRequest.sig d.txGasPriceQueue tx with _ | q2
    · rw [hadd] at h; exact Option.noConfusion h
    · simp only [hadd] at h
      rcases hmv : moveBetweenGasPriceQueues (d.txSenderNonceDict ++ [(tx.snKey, tx)])
          (d.txGappedGasPriceQueue.length + 1) d.txGappedGasPriceQueue q2
          tx.senderAddress (tx.nonce + 1) with _ | pr
      · rw [hmv] at h; exact Option.noConfusion h
      · obtain ⟨gq2, q3⟩ := pr
        simp only [hmv, Option.some_inj] at h
        subst h
        obtain ⟨hmvp, hmvs⟩ := moveBetween_some_spec _ _ _ _ _ _ _ _ hmv
        have haddp := sqAdd_some_perm _ _ _ hadd
        have hperm : (q3 ++ gq2).Perm (tx :: (d.txGasPriceQueue ++ d.txGappedGasPriceQueue)) := by
          have st1 : (q3 ++ gq2).Perm (gq2 ++ q3) := List.perm_append_comm
          have st2 : (gq2 ++ q3).Perm (d.txGappedGasPriceQueue ++ q2) := hmvp
          have st3 : (d.txGappedGasPriceQueue ++ q2).Perm
              (d.txGappedGasPriceQueue ++ (tx :: d.txGasPriceQueue)) :=
            List.Perm.append_left _ haddp
          have st4 : (d.txGappedGasPriceQueue ++ (tx :: d.txGasPriceQueue)).Perm
              (tx :: (d.txGappedGasPriceQueue ++ d.txGasPriceQueue)) := List.perm_middle
          have st5 : (tx :: (d.txGappedGasPriceQueue ++ d.txGasPriceQueue)).Perm
              (tx :: (d.txGasPriceQueue ++ d.txGappedGasPriceQueue)) :=
            List.Perm.cons tx List.perm_append_comm
          exact st1.trans (st2.trans (st3.trans (st4.trans st5)))
        obtain ⟨hnq, hmq⟩ := hmemb q3 gq2 hperm
        obtain ⟨hsrt1, hsrt2⟩ := hmvs hs2 (sqAdd_some_sorted _ _ _ hs1 hadd)
        exact ⟨⟨hnd1b, hnd2b, hlenb, hsrt2, hsrt1, hnq, hmq⟩, rfl, rfl, hperm⟩

theorem map_sig_middle_ne (pre post : List MPTxRequest) (b : MPTxRequest)
    (hnd : ((pre ++ b :: post).map MPTxRequest.sig).Nodup) :
    ∀ t ∈ pre ++ post, t.sig ≠ b.sig := by
  intro t ht
  have hnd2 : (pre.map MPTxRequest.sig ++ b.sig :: post.map MPTxRequest.sig).Nodup := by
    simpa using hnd
  have h2 := nodup_middle_ne _ _ _ hnd2
  apply h2
  rw [← List.map_append]
  exact List.mem_map_of_mem _ ht

/-- MPTxRequestDict.add_tx (with its closing assertion) preserves the
invariant. -/
theorem dictAddTx_inv (d d2 : MPTxRequestDict) (tx : MPTxRequest) (g : Bool)
    (hinv : DictInv d) (h : dictAddTx d tx g = some d2) : DictInv d2 := by
  rw [dictAddTx] at h
  rcases hc : dictAddTxCore d tx g with _ | dmid
  · rw [hc] at h; exact Option.noConfusion h
  · simp only [hc] at h
    split at h
    · simp only [Option.some_inj] at h
      subst h
      exact (dictAddTxCore_inv d dmid tx g hinv hc).1
    · exact Option.noConfusion h

/-- MPTxRequestDict.acquire_tx preserves the invariant. -/
theorem dictAcquireTx_inv (d d2 : MPTxRequestDict) (tx : MPTxRequest)
    (hinv : DictInv d) (h : dictAcquireTx d tx = some d2) : DictInv d2 := by
  obtain ⟨hnd1, hnd2, hlen, hs1, hs2, hqnd, hqmem⟩ := hinv
  rw [dictAcquireTx] at h
  rcases hpop : sqPopItem gasLtKey MPTxRequest.sig d.txGasPriceQueue tx with _ | pr
  · rw [hpop] at h; exact Option.noConfusion h
  · obtain ⟨p, q2⟩ := pr
    simp only [hpop, Option.some_inj] at h
    subst h
    obtain ⟨hk, he, l1, l2, hq, hq2⟩ := sqPopItem_some_spec _ _ _ _ hpop
    have hsub : List.Sublist (q2 ++ d.txGappedGasPriceQueue)
        (d.txGasPriceQueue ++ d.txGappedGasPriceQueue) := by
      rw [hq, hq2]
      exact List.Sublist.append_right
        (List.Sublist.append_left (List.sublist_cons_self _ _) l1) _
    exact ⟨hnd1, hnd2, hlen, sqPopItem_some_sorted _ _ _ _ hs1 hpop, hs2,
      hqnd.sublist (hsub.map MPTxRequest.sig),
      fun t ht => hqmem t (hsub.subset ht)⟩

/-- MPTxRequestDict.pop_tx preserves the invariant. -/
theorem dictPopTx_inv (d d2 : MPTxRequestDict) (tx : MPTxRequest)
    (hinv : DictInv d) (h : dictPopTx d tx = some d2) : DictInv d2 := by
  obtain ⟨hnd1, hnd2, hlen, hs1, hs2, hqnd, hqmem⟩ := hinv
  rw [dictPopTx] at h
  by_cases h1 : ¬ (dlookup d.txHashDict tx.sig).isSome
  · rw [if_pos h1] at h; exact Option.noConfusion h
  rw [if_neg h1] at h
  have h1s : (dlookup d.txHashDict tx.sig).isSome := not_not.mp h1
  by_cases h2 : ¬ (dlookup d.txSenderNonceDict tx.snKey).isSome
  · rw [if_pos h2] at h; exact Option.noConfusion h
  rw [if_neg h2] at h
  have h2s : (dlookup d.txSenderNonceDict tx.snKey).isSome := not_not.mp h2
  have hlen1 := derase_length_of_present d.txHashDict tx.sig hnd1 h1s
  have hlen2 := derase_length_of_present d.txSenderNonceDict tx.snKey hnd2 h2s
  rcases hf : sqFind gasLtKey MPTxRequest.sig d.txGappedGasPriceQueue tx with _ | pos
  · simp only [hf] at h
    rcases hpop : sqPopItem gasLtKey MPTxRequest.sig d.txGasPriceQueue tx with _ | pr
    · rw [hpop] at h; exact Option.noConfusion h
    · obtain ⟨p, q2⟩ := pr
      simp only [hpop] at h
      rcases hmv : moveBetweenGasPriceQueues d.txSenderNonceDict (q2.length + 1) q2
          d.txGappedGasPriceQueue tx.senderAddress (tx.nonce + 1) with _ | mr
      · rw [hmv] at h; exact Option.noConfusion h
      · obtain ⟨q3, gq2⟩ := mr
        simp only [hmv, Option.some_inj] at h
        subst h
        obtain ⟨hmvp, hmvs⟩ := moveBetween_some_spec _ _ _ _ _ _ _ _ hmv
        obtain ⟨hpk, hpe, l1, l2, hq, hq2⟩ := sqPopItem_some_spec _ _ _ _ hpop
        have hsub : List.Sublist (q2 ++ d.txGappedGasPriceQueue)
            (d.txGasPriceQueue ++ d.txGappedGasPriceQueue) := by
          rw [hq, hq2]
          exact List.Sublist.append_right
            (List.Sublist.append_left (List.sublist_cons_self _ _) l1) _
        have hperm2 : ∀ t ∈ q3 ++ gq2, t ∈ q2 ++ d.txGappedGasPriceQueue :=
          fun t ht => hmvp.subset ht
        have hsigne : ∀ t ∈ q2 ++ d.txGappedGasPriceQueue, t.sig ≠ tx.sig := by
          intro t ht
          have hmem2 : t ∈ (l1 ++ (l2 ++ d.txGappedGasPriceQueue)) := by
            rw [hq2] at ht
            simpa [List.append_assoc] using ht
          have hnd3 : ((l1 ++ p :: (l2 ++ d.txGappedGasPriceQueue)).map
              MPTxRequest.sig).Nodup := by
            rw [hq] at hqnd
            simpa [List.append_assoc] using hqnd
          have := map_sig_middle_ne l1 (l2 ++ d.txGappedGasPriceQueue) p hnd3 t hmem2
          rw [hpe] at this
          exact this
        obtain ⟨hsrt1, hsrt2⟩ := hmvs (sqPopItem_some_sorted _ _ _ _ hs1 hpop) hs2
        refine ⟨derase_keys_nodup _ _ hnd1, derase_keys_nodup _ _ hnd2, by dsimp only; omega,
          hsrt1, hsrt2, ?_, ?_⟩
        · exact ((hmvp.map MPTxRequest.sig).nodup_iff).mpr
            (hqnd.sublist (hsub.map MPTxRequest.sig))
        · intro t ht
          have htold := hsub.subset (hperm2 t ht)
          rw [dlookup_derase, if_neg (hsigne t (hperm2 t ht))]
          exact hqmem t htold
  · simp only [hf, Option.some_inj] at h
    subst h
    obtain ⟨l1, b, l2, hgq, hbk, hbe, herase⟩ := sqFind_some_spec hf
    have hsub : List.Sublist (d.txGasPriceQueue ++ (l1 ++ l2))
        (d.txGasPriceQueue ++ d.txGappedGasPriceQueue) := by
      rw [hgq]
      exact List.Sublist.append_left
        (List.Sublist.append_left (List.sublist_cons_self _ _) l1) _
    have hsigne : ∀ t ∈ d.txGasPriceQueue ++ (l1 ++ l2), t.sig ≠ tx.sig := by
      intro t ht
      have hmem2 : t ∈ ((d.txGasPriceQueue ++ l1) ++ l2) := by
        simpa [List.append_assoc] using ht
      have hnd3 : (((d.txGasPriceQueue ++ l1) ++ b :: l2).map MPTxRequest.sig).Nodup := by
        rw [hgq] at hqnd
        simpa [List.append_assoc] using hqnd
      have := map_sig_middle_ne _ _ b hnd3 t hmem2
      rw [hbe] at this
      exact this
    rw [herase]
    refine ⟨derase_keys_nodup _ _ hnd1, derase_keys_nodup _ _ hnd2, by dsimp only; omega,
      hs1, ?_, hqnd.sublist (hsub.map MPTxRequest.sig), ?_⟩
    · have : SqSorted gasLtKey (l1 ++ l2) := by
        rw [hgq] at hs2
        exact hs2.sublist (List.Sublist.append_left (List.sublist_cons_self _ _) l1)
      exact this
    · intro t ht
      rw [dlookup_derase, if_neg (hsigne t ht)]
      exact hqmem t (hsub.subset ht)

/-- MPTxRequestDict.done_tx preserves the invariant when the transaction
argument is the stored dictionary entry of its signature (call sites pass the
very object held by the dictionaries). -/
theorem dictDoneTx_inv (d d2 : MPTxRequestDict) (tx : MPTxRequest) (b : Bool)
    (hinv : DictInv d) (hstored : dlookup d.txHashDict tx.sig = some tx)
    (h : dictDoneTx d tx b = some d2) : DictInv d2 := by
  obtain ⟨hnd1, hnd2, hlen, hs1, hs2, hqnd, hqmem⟩ := hinv
  rw [dictDoneTx] at h
  by_cases h1 : ¬ (dlookup d.txHashDict tx.sig).isSome
  · rw [if_pos h1] at h; exact Option.noConfusion h
  rw [if_neg h1] at h
  have h1s : (dlookup d.txHashDict tx.sig).isSome := not_not.mp h1
  by_cases h2 : ¬ (dlookup d.txSenderNonceDict tx.snKey).isSome
  · rw [if_pos h2] at h; exact Option.noConfusion h
  rw [if_neg h2] at h
  have h2s : (dlookup d.txSenderNonceDict tx.snKey).isSome := not_not.mp h2
  by_cases h3 : (sqFind gasLtKey MPTxRequest.sig d.txGasPriceQueue tx).isSome
  · rw [if_pos h3] at h; exact Option.noConfusion h
  rw [if_neg h3] at h
  by_cases h4 : (sqFind gasLtKey MPTxRequest.sig d.txGappedGasPriceQueue tx).isSome
  · rw [if_pos h4] at h; exact Option.noConfusion h
  rw [if_neg h4] at h
  have hlen1 := derase_length_of_present d.txHashDict tx.sig hnd1 h1s
  have hlen2 := derase_length_of_present d.txSenderNonceDict tx.snKey hnd2 h2s
  have hsigne : ∀ t ∈ d.txGasPriceQueue ++ d.txGappedGasPriceQueue, t.sig ≠ tx.sig := by
    intro t ht he
    have hteq : t = tx := by
      have := hqmem t ht
      rw [he, hstored] at this
      exact Option.some_inj.mp this.symm
    subst hteq
    rcases List.mem_append.mp ht with hmem | hmem
    · exact h3 (sqFind_isSome_of_mem _ _ t hs1 hmem rfl rfl)
    · exact h4 (sqFind_isSome_of_mem _ _ t hs2 hmem rfl rfl)
  split at h
  · rcases hmv : moveBetweenGasPriceQueues d.txSenderNonceDict
        (d.txGasPriceQueue.length + 1) d.txGasPriceQueue
        d.txGappedGasPriceQueue tx.senderAddress (tx.nonce + 1) with _ | mr
    · rw [hmv] at h; exact Option.noConfusion h
    · obtain ⟨q2, gq2⟩ := mr
      simp only [hmv, Option.some_inj] at h
      subst h
      obtain ⟨hmvp, hmvs⟩ := moveBetween_some_spec _ _ _ _ _ _ _ _ hmv
      obtain ⟨hsrt1, hsrt2⟩ := hmvs hs1 hs2
      refine ⟨derase_keys_nodup _ _ hnd1, derase_keys_nodup _ _ hnd2, by dsimp only; omega,
        hsrt1, hsrt2, ((hmvp.map MPTxRequest.sig).nodup_iff).mpr hqnd, ?_⟩
      intro t ht
      have htold := hmvp.subset ht
      rw [dlookup_derase, if_neg (hsigne t htold)]
      exact hqmem t htold
  · simp only [Option.some_inj] at h
    subst h
    refine ⟨derase_keys_nodup _ _ hnd1, derase_keys_nodup _ _ hnd2, by dsimp only; omega,
      hs1, hs2, hqnd, ?_⟩
    intro t ht
    rw [dlookup_derase, if_neg (hsigne t ht)]
    exact hqmem t ht

/-- MPTxRequestDict.cancel_process_tx preserves the invariant when the
canceled transaction is the stored dictionary entry of its signature and sits
in neither queue (it is the processing transaction, popped from the gas-price
queue when it was acquired). -/
theorem dictCancelProcessTx_inv (d d2 : MPTxRequestDict) (tx : MPTxRequest) (b : Bool)
    (hinv : DictInv d) (hstored : dlookup d.txHashDict tx.sig = some tx)
    (hnq : tx ∉ d.txGasPriceQueue) (hng : tx ∉ d.txGappedGasPriceQueue)
    (h : dictCancelProcessTx d tx b = some d2) : DictInv d2 := by
  obtain ⟨hnd1, hnd2, hlen, hs1, hs2, hqnd, hqmem⟩ := hinv
  have hsigfresh : ∀ t ∈ d.txGasPriceQueue ++ d.txGappedGasPriceQueue, t.sig ≠ tx.sig := by
    intro t ht he
    have hteq : t = tx := by
      have := hqmem t ht
      rw [he, hstored] at this
      exact Option.some_inj.mp this.symm
    subst hteq
    rcases List.mem_append.mp ht with hmem | hmem
    · exact hnq hmem
    · exact hng hmem
  rw [dictCancelProcessTx] at h
  split at h
  · rcases hadd : sqAdd gasLtKey MPTxRequest.sig d.txGappedGasPriceQueue tx with _ | gq2
    · rw [hadd] at h; exact Option.noConfusion h
    · simp only [hadd] at h
      rcases hmv : moveBetweenGasPriceQueues d.txSenderNonceDict
          (d.txGasPriceQueue.length + 1) d.txGasPriceQueue gq2
          tx.senderAddress (tx.nonce + 1) with _ | mr
      · rw [hmv] at h; exact Option.noConfusion h
      · obtain ⟨q2, gq3⟩ := mr
        simp only [hmv, Option.some_inj] at h
        subst h
        obtain ⟨hmvp, hmvs⟩ := moveBetween_some_spec _ _ _ _ _ _ _ _ hmv
        have haddp := sqAdd_some_perm _ _ _ hadd
        have hperm : (q2 ++ gq3).Perm
            (tx :: (d.txGasPriceQueue ++ d.txGappedGasPriceQueue)) := by
          have st1 : (q2 ++ gq3).Perm (d.txGasPriceQueue ++ gq2) := hmvp
          have st2 : (d.txGasPriceQueue ++ gq2).Perm
              (d.txGasPriceQueue ++ (tx :: d.txGappedGasPriceQueue)) :=
            List.Perm.append_left _ haddp
          have st3 : (d.txGasPriceQueue ++ (tx :: d.txGappedGasPriceQueue)).Perm
              (tx :: (d.txGasPriceQueue ++ d.txGappedGasPriceQueue)) := List.perm_middle
          exact st1.trans (st2.trans st3)
        obtain ⟨hsrt1, hsrt2⟩ := hmvs hs1 (sqAdd_some_sorted _ _ _ hs2 hadd)
        refine ⟨hnd1, hnd2, hlen, hsrt1, hsrt2, ?_, ?_⟩
        · refine ((hperm.map MPTxRequest.sig).nodup_iff).mpr ?_
          rw [List.map_cons, List.nodup_cons]
          exact ⟨fun hmem => by
            obtain ⟨t, ht, hts⟩ := List.mem_map.mp hmem
            exact hsigfresh t ht hts, hqnd⟩
        · intro t ht
          rcases List.mem_cons.mp (hperm.subset ht) with hcase | hcase
          · subst hcase; exact hstored
          · exact hqmem t hcase
  · rcases hadd : sqAdd gasLtKey MPTxRequest.sig d.txGasPriceQueue tx with _ | q2
    · rw [hadd] at h; exact Option.noConfusion h
    · simp only [hadd, Option.some_inj] at h
      subst h
      have haddp := sqAdd_some_perm _ _ _ hadd
      have hperm : (q2 ++ d.txGappedGasPriceQueue).Perm
          (tx :: (d.txGasPriceQueue ++ d.txGappedGasPriceQueue)) :=
        List.Perm.append_right _ haddp
      refine ⟨hnd1, hnd2, hlen, sqAdd_some_sorted _ _ _ hs1 hadd, hs2, ?_, ?_⟩
      · refine ((hperm.map MPTxRequest.sig).nodup_iff).mpr ?_
        rw [List.map_cons, List.nodup_cons]
        exact ⟨fun hmem => by
          obtain ⟨t, ht, hts⟩ := List.mem_map.mp hmem
          exact hsigfresh t ht hts, hqnd⟩
      · intro t ht
        rcases List.mem_cons.mp (hperm.subset ht) with hcase | hcase
        · subst hcase; exact hstored
        · exact hqmem t hcase

/-- MPTxRequestDict.queue_tx preserves the invariant. -/
theorem dictQueueTx_inv (d d2 : MPTxRequestDict) (a : String) (n : Nat)
    (hinv : DictInv d) (h : dictQueueTx d a n = some d2) : DictInv d2 := by
  obtain ⟨hnd1, hnd2, hlen, hs1, hs2, hqnd, hqmem⟩ := hinv
  rw [dictQueueTx] at h
  rcases hmv : moveBetweenGasPriceQueues d.txSenderNonceDict
      (d.txGappedGasPriceQueue.length + 1) d.txGappedGasPriceQueue
      d.txGasPriceQueue a n with _ | mr
  · rw [hmv] at h; exact Option.noConfusion h
  · obtain ⟨gq2, q2⟩ := mr
    simp only [hmv, Option.some_inj] at h
    subst h
    obtain ⟨hmvp, hmvs⟩ := moveBetween_some_spec _ _ _ _ _ _ _ _ hmv
    obtain ⟨hsrt1, hsrt2⟩ := hmvs hs2 hs1
    have hperm : (q2 ++ gq2).Perm (d.txGasPriceQueue ++ d.txGappedGasPriceQueue) := by
      have st1 : (q2 ++ gq2).Perm (gq2 ++ q2) := List.perm_append_comm
      have st2 : (gq2 ++ q2).Perm (d.txGappedGasPriceQueue ++ d.txGasPriceQueue) := hmvp
      exact st1.trans (st2.trans List.perm_append_comm)
    exact ⟨hnd1, hnd2, hlen, hsrt2, hsrt1,
      ((hperm.map MPTxRequest.sig).nodup_iff).mpr hqnd,
      fun t ht => hqmem t (hperm.subset ht)⟩

/-- MPTxRequestDict.dequeue_tx preserves the invariant. -/
theorem dictDequeueTx_inv (d d2 : MPTxRequestDict) (a : String) (n : Nat)
    (hinv : DictInv d) (h : dictDequeueTx d a n = some d2) : DictInv d2 := by
  obtain ⟨hnd1, hnd2, hlen, hs1, hs2, hqnd, hqmem⟩ := hinv
  rw [dictDequeueTx] at h
  rcases hmv : moveBetweenGasPriceQueues d.txSenderNonceDict
      (d.txGasPriceQueue.length + 1) d.txGasPriceQueue
      d.txGappedGasPriceQueue a n with _ | mr
  · rw [hmv] at h; exact Option.noConfusion h
  · obtain ⟨q2, gq2⟩ := mr
    simp only [hmv, Option.some_inj] at h
    subst h
    obtain ⟨hmvp, hmvs⟩ := moveBetween_some_spec _ _ _ _ _ _ _ _ hmv
    obtain ⟨hsrt1, hsrt2⟩ := hmvs hs1 hs2
    exact ⟨hnd1, hnd2, hlen, hsrt1, hsrt2,
      ((hmvp.map MPTxRequest.sig).nodup_iff).mpr hqnd,
      fun t ht => hqmem t (hmvp.subset ht)⟩

/-- States of MPTxRequestDict reachable from the empty dictionary through the
operations the schedule performs: add_tx, pop_tx (the drop of a transaction),
done_tx (behind done_tx and fail_tx of the schedule), acquire_tx,
cancel_process_tx, queue_tx and dequeue_tx.  For pop, done and cancel the
transaction argument is the object stored in the dictionaries (Python call
sites pass the very entry, by aliasing); for cancel it is additionally the
processing transaction, which was popped from the gas-price queue when it was
acquired and therefore sits in neither queue. -/
inductive DictReach : MPTxRequestDict → Prop
  | init : DictReach ⟨[], [], [], []⟩
  | add (d d2 : MPTxRequestDict) (tx : MPTxRequest) (g : Bool) :
      DictReach d → dictAddTx d tx g = some d2 → DictReach d2
  | pop (d d2 : MPTxRequestDict) (tx : MPTxRequest) :
      DictReach d → dictPopTx d tx = some d2 → DictReach d2
  | doneOp (d d2 : MPTxRequestDict) (tx : MPTxRequest) (b : Bool) :
      DictReach d → dlookup d.txHashDict tx.sig = some tx →
      dictDoneTx d tx b = some d2 → DictReach d2
  | acquire (d d2 : MPTxRequestDict) (tx : MPTxRequest) :
      DictReach d → dictAcquireTx d tx = some d2 → DictReach d2
  | cancel (d d2 : MPTxRequestDict) (tx : MPTxRequest) (b : Bool) :
      DictReach d → dlookup d.txHashDict tx.sig = some tx →
      tx ∉ d.txGasPriceQueue → tx ∉ d.txGappedGasPriceQueue →
      dictCancelProcessTx d tx b = some d2 → DictReach d2
  | queue (d d2 : MPTxRequestDict) (a : String) (n : Nat) :
      DictReach d → dictQueueTx d a n = some d2 → DictReach d2
  | dequeue (d d2 : MPTxRequestDict) (a : String) (n : Nat) :
      DictReach d → dictDequeueTx d a n = some d2 → DictReach d2

theorem dictReach_inv (d : MPTxRequestDict) (h : DictReach d) : DictInv d := by
  induction h with
  | init =>
      refine ⟨List.nodup_nil, List.nodup_nil, rfl, List.Pairwise.nil, List.Pairwise.nil,
        List.nodup_nil, ?_⟩
      intro t ht
      simp at ht
  | add d d2 tx g _ hop ih => exact dictAddTx_inv d d2 tx g ih hop
  | pop d d2 tx _ hop ih => exact dictPopTx_inv d d2 tx ih hop
  | doneOp d d2 tx b _ hstored hop ih => exact dictDoneTx_inv d d2 tx b ih hstored hop
  | acquire d d2 tx _ hop ih => exact dictAcquireTx_inv d d2 tx ih hop
  | cancel d d2 tx b _ hstored hnq hng hop ih =>
      exact dictCancelProcessTx_inv d d2 tx b ih hstored hnq hng hop
  | queue d d2 a n _ hop ih => exact dictQueueTx_inv d d2 a n ih hop
  | dequeue d d2 a n _ hop ih => exact dictDequeueTx_inv d d2 a n ih hop

/-- C7: after every completed mempool index operation — add_tx, the pop
behind a transaction drop, done_tx and fail_tx, acquire_tx,
cancel_process_tx, queue_tx, dequeue_tx — the hash index and the
(sender, nonce) index have the same number of entries, and this common count
is at least the combined size of the pending and gapped gas-price queues. -/
theorem mempoolDict_size_invariant (d : MPTxRequestDict) (h : DictReach d) :
    d.txHashDict.length = d.txSenderNonceDict.length ∧
    d.txGasPriceQueue.length + d.txGappedGasPriceQueue.length ≤ d.txHashDict.length :=
  dictInv_counts d (dictReach_inv d h)

/-- A concrete transaction for the C7 witness. -/
def witTxA : MPTxRequest := ⟨"sA", "alice", 0, 12, 0⟩

/-- C7 witness: the invariant evaluated on the state reached by adding one
gapped transaction to the empty dictionary (the gapped path runs no
queue-promotion loop, so the whole step evaluates by rfl). -/
theorem mempoolDict_size_invariant_witness :
    ∃ d : MPTxRequestDict, DictReach d ∧
      d.txHashDict.length = d.txSenderNonceDict.length ∧
      d.txGasPriceQueue.length + d.txGappedGasPriceQueue.length ≤ d.txHashDict.length := by
  have h0 : DictReach ⟨[], [], [], []⟩ := DictReach.init
  have hadd : dictAddTx ⟨[], [], [], []⟩ witTxA true =
      some ⟨[("sA", witTxA)], [(("alice", 0), witTxA)], [], [witTxA]⟩ := by rfl
  have h1 := DictReach.add _ _ witTxA true h0 hadd
  exact ⟨_, h1, mempoolDict_size_invariant _ h1⟩

/-! ### MPSenderTxPool — mempool_schedule.py, lines 158-325.

The per-sender pool: a nonce queue sorted by -nonce (so the Python top index
-1, the last element, holds the smallest nonce), the cached `_state` and
`_gas_price`, the `_heartbeat`, the `_state_tx_cnt` and the optional
`_processing_tx`. -/

/-- MPSenderTxPool.State. -/
inductive PoolState
  | Empty
  | Queued
  | Processing
  | Suspended
deriving DecidableEq, Repr

/-- The lt-key `-a.nonce` of the per-sender nonce queue. -/
def nonceLtKey (tx : MPTxRequest) : Int := -(tx.nonce : Int)

/-- The fields of MPSenderTxPool (`_state`, `_sender_address`, `_gas_price`,
`_heartbeat`, `_state_tx_cnt`, `_processing_tx`, `_tx_nonce_queue`). -/
structure MPSenderTxPool where
  stateF : PoolState
  senderAddress : String
  gasPriceF : Int
  heartbeatF : Nat
  stateTxCntF : Nat
  processingTx : Option MPTxRequest
  txNonceQueue : List MPTxRequest
deriving DecidableEq, Repr

/-- MPSenderTxPool.__init__(sender_address), with the current time passed
explicitly for int(time.time()). -/
def mkSenderTxPool (now : Nat) (senderAddress : String) : MPSenderTxPool :=
  ⟨PoolState.Empty, senderAddress, 0, now, 0, none, []⟩

/-- MPSenderTxPool.is_processing. -/
def MPSenderTxPool.isProcessing (p : MPSenderTxPool) : Bool :=
  p.processingTx.isSome

/-- MPSenderTxPool.top_tx: the element at the top index -1 of the nonce
queue. -/
def MPSenderTxPool.topTx (p : MPSenderTxPool) : Option MPTxRequest :=
  p.txNonceQueue.getLast?

/-- MPSenderTxPool._actual_state: Empty for an empty queue (is_empty is
equivalent to the absence of a last element), then Processing, then the
Suspended/Queued split on whether _state_tx_cnt reaches the top nonce. -/
def MPSenderTxPool.actualState (p : MPSenderTxPool) : PoolState :=
  match p.txNonceQueue.getLast? with
  | none => PoolState.Empty
  | some top =>
      if p.isProcessing then PoolState.Processing
      else if p.stateTxCntF ≠ top.nonce then PoolState.Suspended
      else PoolState.Queued

/-- MPSenderTxPool.sync_state: store the actual state, and refresh the
cached gas price from the top transaction (0 for an Empty state). -/
def MPSenderTxPool.syncState (p : MPSenderTxPool) : MPSenderTxPool :=
  let st := p.actualState
  { p with stateF := st,
           gasPriceF := if st ≠ PoolState.Empty
             then (p.topTx.map MPTxRequest.gasPrice).getD 0 else 0 }

/-- MPSenderTxPool.has_valid_state: the cached state matches the actual one
and, for a Queued pool, the cached gas price matches the top transaction
(an actual Queued state implies a non-empty queue, so the impossible
missing-top case answers false). -/
def MPSenderTxPool.hasValidState (p : MPSenderTxPool) : Bool :=
  let newState := p.actualState
  if newState ≠ p.stateF then false
  else if newState = PoolState.Queued then
    match p.topTx with
    | some top => decide (top.gasPrice = p.gasPriceF)
    | none => false
  else true

/-- MPSenderTxPool.add_tx: assert _state_tx_cnt <= tx.nonce, insert into the
nonce queue (whose add asserts freshness), refresh the heartbeat. -/
def MPSenderTxPool.addTx (now : Nat) (p : MPSenderTxPool) (tx : MPTxRequest) :
    Option MPSenderTxPool :=
  if ¬ (p.stateTxCntF ≤ tx.nonce) then none
  else
    match sqAdd nonceLtKey MPTxRequest.sig p.txNonceQueue tx with
    | none => none
    | some q2 => some { p with txNonceQueue := q2, heartbeatF := now }

/-- The loop of MPSenderTxPool.pending_nonce: iterate the queue in reversed
order (smallest nonce first) counting consecutive nonces. -/
def pendingNonceWalk : Nat → List MPTxRequest → Nat
  | n, [] => n
  | n, t :: rest => if t.nonce = n then pendingNonceWalk (n + 1) rest else n

/-- The MPSenderTxPool.pending_nonce property: None for a Suspended or Empty
cached state, otherwise _state_tx_cnt advanced over the consecutive top
nonces. -/
def MPSenderTxPool.pendingNonce (p : MPSenderTxPool) : Option Nat :=
  if p.stateF = PoolState.Suspended ∨ p.stateF = PoolState.Empty then none
  else some (pendingNonceWalk p.stateTxCntF p.txNonceQueue.reverse)

/-- The MPSenderTxPool.state_tx_cnt property: for a processing pool, assert
_state_tx_cnt == processing.nonce and answer processing.nonce + 1;
otherwise _state_tx_cnt. -/
def MPSenderTxPool.stateTxCntProp (p : MPSenderTxPool) : Option Nat :=
  match p.processingTx with
  | some ptx => if p.stateTxCntF = ptx.nonce then some (ptx.nonce + 1) else none
  | none => some p.stateTxCntF

/-- MPSenderTxPool.drop_tx: assert the dropped transaction is not the
processing one, then pop it from the nonce queue. -/
def MPSenderTxPool.dropTx (p : MPSenderTxPool) (tx : MPTxRequest) :
    Option MPSenderTxPool :=
  if (match p.processingTx with
      | some ptx => decide (tx.sig = ptx.sig)
      | none => false) then none
  else
    match sqPopItem nonceLtKey MPTxRequest.sig p.txNonceQueue tx with
    | none => none
    | some (_, q2) => some { p with txNonceQueue := q2 }

/-- Python `a or b` for an optional count a: both None and 0 are falsy and
fall through to b. -/
def pyOrNat : Option Nat → Nat → Nat
  | none, b => b
  | some 0, b => b
  | some (n + 1), _ => n + 1

/-! ### MPTxSchedule — mempool_schedule.py, lines 328-565.

The schedule keeps the sender pools in a dictionary keyed by sender
address.  Its two sorted queues (the heartbeat queue with lt-key
-heartbeat and the execution queue with lt-key gas_price, both with
eq-key sender_address) hold pool objects in Python; here each member is
represented by its (lt-key, eq-key) pair.  The scheduler pops a pool from a
queue before mutating the keyed attribute and re-adds it afterwards, so a
stored key always equals the member pool's current attribute, and the pool
object behind a queue member is recovered through the pool dictionary.
The suspended sender set holds NeonAddress values whose chain id is the
schedule's own, so the address string identifies a member. -/

/-- MPTxSendResultCode (mempool_api.py). -/
inductive MPTxSendResultCode
  | Success
  | NonceTooLow
  | Underprice
  | AlreadyKnown
  | NonceTooHigh
  | Unspecified
deriving DecidableEq, Repr

/-- MPTxSendResult (mempool_api.py). -/
structure MPTxSendResult where
  code : MPTxSendResultCode
  stateTxCnt : Option Nat
deriving DecidableEq, Repr

/-- The state of MPTxSchedule. -/
structure MPTxSchedule where
  capacity : Nat
  capacityHighWatermark : Nat
  chainId : Nat
  txDict : MPTxRequestDict
  senderPoolDict : List (String × MPSenderTxPool)
  senderPoolHeartbeatQueue : List (Int × String)
  senderPoolQueue : List (Int × String)
  suspendedSenderSet : List String
deriving DecidableEq, Repr

/-- Write back a sender pool object: the Python call sites mutate the pool
in place, so a pool stored in the dictionary is updated there, and a pool
not stored (a fresh pool, or one already removed) leaves the dictionary
untouched. -/
def schedUpdPool (s : MPTxSchedule) (p : MPSenderTxPool) : MPTxSchedule :=
  if (dlookup s.senderPoolDict p.senderAddress).isSome then
    { s with senderPoolDict := dset s.senderPoolDict p.senderAddress p }
  else s

/-- MPTxSchedule._drop_tx_from_sender_pool: pool.drop_tx, then
tx_dict.pop_tx. -/
def schedDropTxFromSenderPool (s : MPTxSchedule) (p : MPSenderTxPool)
    (tx : MPTxRequest) : Option (MPSenderTxPool × MPTxSchedule) :=
  match p.dropTx tx with
  | none => none
  | some p2 =>
      let s2 := schedUpdPool s p2
      match dictPopTx s2.txDict tx with
      | none => none
      | some d2 => some (p2, { s2 with txDict := d2 })

/-- MPTxSchedule._sync_sender_state: nothing for a valid cached state;
otherwise leave the old state (remove the sender from the suspended set, or
pop the pool from the execution queue), recompute the pool state with
sync_state, and enter the new one (pop an Empty pool from the dictionary —
a KeyError for an absent key — and from the heartbeat queue; record a
Suspended sender; enqueue a Queued pool). -/
def schedSyncSenderState (s : MPTxSchedule) (p : MPSenderTxPool) :
    Option (MPSenderTxPool × MPTxSchedule) :=
  if p.hasValidState then some (p, s)
  else
    match (match p.stateF with
      | PoolState.Suspended =>
          if p.senderAddress ∈ s.suspendedSenderSet then
            some { s with suspendedSenderSet :=
              s.suspendedSenderSet.erase p.senderAddress }
          else none
      | PoolState.Queued =>
          match sqPopItem Prod.fst Prod.snd s.senderPoolQueue
              (p.gasPriceF, p.senderAddress) with
          | none => none
          | some (_, pq2) => some { s with senderPoolQueue := pq2 }
      | _ => some s) with
    | none => none
    | some s2 =>
        let p2 := p.syncState
        let s3 := schedUpdPool s2 p2
        match p2.stateF with
        | PoolState.Empty =>
            if (dlookup s3.senderPoolDict p2.senderAddress).isSome then
              match sqPopItem Prod.fst Prod.snd s3.senderPoolHeartbeatQueue
                  (-(p2.heartbeatF : Int), p2.senderAddress) with
              | none => none
              | some (_, hq2) =>
                  some (p2, { s3 with
                    senderPoolDict := derase s3.senderPoolDict p2.senderAddress,
                    senderPoolHeartbeatQueue := hq2 })
            else none
        | PoolState.Suspended =>
            some (p2, { s3 with suspendedSenderSet :=
              if p2.senderAddress ∈ s3.suspendedSenderSet then
                s3.suspendedSenderSet
              else s3.suspendedSenderSet ++ [p2.senderAddress] })
        | PoolState.Queued =>
            match sqAdd Prod.fst Prod.snd s3.senderPoolQueue
                (p2.gasPriceF, p2.senderAddress) with
            | none => none
            | some pq2 => some (p2, { s3 with senderPoolQueue := pq2 })
        | PoolState.Processing => some (p2, s3)

/-- The drop loop of MPTxSchedule._set_sender_tx_cnt: while the pool is not
empty and its top nonce is below the target counter, drop the top
transaction.  Each executed step removes one element from the nonce queue,
so the fuel queue-length + 1 makes the zero case unreachable. -/
def schedSetSenderTxCntLoop :
    Nat → MPTxSchedule → MPSenderTxPool → Nat →
    Option (MPSenderTxPool × MPTxSchedule)
  | 0, _, _, _ => none
  | fuel + 1, s, p, stateTxCnt =>
      match p.txNonceQueue.getLast? with
      | none => some (p, s)
      | some topTx =>
          if topTx.nonce ≥ stateTxCnt then some (p, s)
          else
            match schedDropTxFromSenderPool s p topTx with
            | none => none
            | some (p2, s2) => schedSetSenderTxCntLoop fuel s2 p2 stateTxCnt

/-- MPTxSchedule._set_sender_tx_cnt: nothing when the pool's state_tx_cnt
property already matches, or when the pool is processing; otherwise drop
the transactions with nonces below the counter and store it. -/
def schedSetSenderTxCnt (s : MPTxSchedule) (p : MPSenderTxPool)
    (stateTxCnt : Nat) : Option (MPSenderTxPool × MPTxSchedule) :=
  match p.stateTxCntProp with
  | none => none
  | some cur =>
      if cur = stateTxCnt then some (p, s)
      else if p.isProcessing then some (p, s)
      else
        match schedSetSenderTxCntLoop (p.txNonceQueue.length + 1) s p
            stateTxCnt with
        | none => none
        | some (p2, s2) =>
            let p3 := { p2 with stateTxCntF := stateTxCnt }
            some (p3, schedUpdPool s2 p3)

/-- MPTxSchedule._schedule_sender_pool: _set_sender_tx_cnt, then
_sync_sender_state. -/
def schedScheduleSenderPool (s : MPTxSchedule) (p : MPSenderTxPool)
    (stateTxCnt : Nat) : Option (MPSenderTxPool × MPTxSchedule) :=
  match schedSetSenderTxCnt s p stateTxCnt with
  | none => none
  | some (p2, s2) => schedSyncSenderState s2 p2

/-- MPTxSchedule._add_tx_to_sender_pool: pop the heartbeat entry of an
existing pool, add the transaction to the pool and to the index dictionary,
store a new pool in the dictionary, enqueue the refreshed heartbeat. -/
def schedAddTxToSenderPool (now : Nat) (s : MPTxSchedule)
    (p : MPSenderTxPool) (tx : MPTxRequest) (isGappedTx : Bool) :
    Option (MPSenderTxPool × MPTxSchedule) :=
  let isNewPool := p.stateF = PoolState.Empty
  match (if isNewPool then some s
    else
      match sqPopItem Prod.fst Prod.snd s.senderPoolHeartbeatQueue
          (-(p.heartbeatF : Int), p.senderAddress) with
      | none => none
      | some (_, hq2) => some { s with senderPoolHeartbeatQueue := hq2 }) with
  | none => none
  | some s2 =>
      match p.addTx now tx with
      | none => none
      | some p2 =>
          match dictAddTx s2.txDict tx isGappedTx with
          | none => none
          | some d2 =>
              let s3 := { s2 with txDict := d2 }
              let sd4 := dset s3.senderPoolDict p2.senderAddress p2
              let s4 := if isNewPool
                then { s3 with senderPoolDict := sd4 }
                else schedUpdPool s3 p2
              match sqAdd Prod.fst Prod.snd s4.senderPoolHeartbeatQueue
                  (-(p2.heartbeatF : Int), p2.senderAddress) with
              | none => none
              | some hq2 =>
                  some (p2, { s4 with senderPoolHeartbeatQueue := hq2 })

/-- MPTxRequestDict.peek_gapped_lower_tx: the last element of the gapped
queue. -/
def dictPeekGappedLowerTx (d : MPTxRequestDict) : Option MPTxRequest :=
  d.txGappedGasPriceQueue.getLast?

/-- MPTxRequestDict.peek_pending_lower_tx: the last element of the
gas-price queue. -/
def dictPeekPendingLowerTx (d : MPTxRequestDict) : Option MPTxRequest :=
  d.txGasPriceQueue.getLast?

/-- MPTxRequestDict.peek_lower_tx: the Python `or` of the two peeks. -/
def dictPeekLowerTx (d : MPTxRequestDict) : Option MPTxRequest :=
  match dictPeekGappedLowerTx d with
  | some t => some t
  | none => dictPeekPendingLowerTx d

/-- The eviction loop of MPTxSchedule._check_oversized_and_reduce: up to
tx_cnt_to_remove times, peek the cheapest transaction (gapped queue first),
stop on an empty peek or on reaching the newly added transaction, otherwise
drop it from its sender pool (_get_sender_pool asserts the pool exists) and
collect the sender into the changed set. -/
def schedOversizeLoop :
    Nat → MPTxSchedule → String → List String →
    Option (MPTxSchedule × List String)
  | 0, s, _, changed => some (s, changed)
  | k + 1, s, newTxSig, changed =>
      match dictPeekLowerTx s.txDict with
      | none => some (s, changed)
      | some lowerTx =>
          if lowerTx.sig = newTxSig then some (s, changed)
          else
            match dlookup s.senderPoolDict lowerTx.senderAddress with
            | none => none
            | some p =>
                match schedDropTxFromSenderPool s p lowerTx with
                | none => none
                | some (_, s2) =>
                    schedOversizeLoop k s2 newTxSig
                      (if lowerTx.senderAddress ∈ changed then changed
                       else changed ++ [lowerTx.senderAddress])

/-- The closing loop of _check_oversized_and_reduce: sync the state of every
changed sender pool. -/
def schedSyncChangedLoop : List String → MPTxSchedule → Option MPTxSchedule
  | [], s => some s
  | a :: rest, s =>
      match dlookup s.senderPoolDict a with
      | none => none
      | some p =>
          match schedSyncSenderState s p with
          | none => none
          | some (_, s2) => schedSyncChangedLoop rest s2

/-- MPTxSchedule._check_oversized_and_reduce: nothing while the transaction
count does not exceed the capacity; otherwise evict up to the excess count
of cheapest transactions and sync the changed pools. -/
def schedCheckOversizedAndReduce (s : MPTxSchedule) (newTx : MPTxRequest) :
    Option MPTxSchedule :=
  if s.txDict.txHashDict.length ≤ s.capacity then some s
  else
    match schedOversizeLoop (s.txDict.txHashDict.length - s.capacity) s
        newTx.sig [] with
    | none => none
    | some (s2, changed) => schedSyncChangedLoop changed s2

/-- The tail of MPTxSchedule.add_tx behind all early returns: drop the
replaced transaction, _add_tx_to_sender_pool, _schedule_sender_pool,
_check_oversized_and_reduce, Success. -/
def schedAddTxDropOld (s : MPTxSchedule) (senderPool : MPSenderTxPool) :
    Option MPTxRequest → Option (MPSenderTxPool × MPTxSchedule)
  | some old => schedDropTxFromSenderPool s senderPool old
  | none => some (senderPool, s)

def schedAddTxFinish (now : Nat) (s : MPTxSchedule) (tx : MPTxRequest)
    (senderPool : MPSenderTxPool) (oldTx : Option MPTxRequest)
    (stateTxCnt : Nat) (isGappedTx : Bool) :
    Option (MPTxSendResult × MPTxSchedule) :=
  match schedAddTxDropOld s senderPool oldTx with
  | none => none
  | some (p2, s2) =>
      match schedAddTxToSenderPool now s2 p2 tx isGappedTx with
      | none => none
      | some (p3, s3) =>
          match schedScheduleSenderPool s3 p3 stateTxCnt with
          | none => none
          | some (_, s4) =>
              match schedCheckOversizedAndReduce s4 tx with
              | none => none
              | some s5 => some (⟨MPTxSendResultCode.Success, none⟩, s5)

/-- The nonce checks of MPTxSchedule.add_tx: a Processing pool whose top
(processing) transaction carries the same nonce answers NonceTooLow with
top.nonce + 1; a state counter above the nonce answers NonceTooLow with the
counter; otherwise the replacement tail runs. -/
def schedAddTxNonceChecks (now : Nat) (s : MPTxSchedule) (tx : MPTxRequest)
    (senderPool : MPSenderTxPool) (oldTx : Option MPTxRequest)
    (stateTxCnt : Nat) (isGappedTx : Bool) :
    Option (MPTxSendResult × MPTxSchedule) :=
  if senderPool.stateF = PoolState.Processing then
    match senderPool.topTx with
    | none => none
    | some topTx =>
        if topTx.nonce = tx.nonce then
          some (⟨MPTxSendResultCode.NonceTooLow, some (topTx.nonce + 1)⟩, s)
        else if stateTxCnt > tx.nonce then
          some (⟨MPTxSendResultCode.NonceTooLow, some stateTxCnt⟩, s)
        else schedAddTxFinish now s tx senderPool oldTx stateTxCnt isGappedTx
  else if stateTxCnt > tx.nonce then
    some (⟨MPTxSendResultCode.NonceTooLow, some stateTxCnt⟩, s)
  else schedAddTxFinish now s tx senderPool oldTx stateTxCnt isGappedTx

/-- MPTxSchedule.add_tx (mempool_schedule.py, lines 461-519): hash
deduplication; Underprice against an existing (sender, nonce) entry of
higher-or-equal gas price; above the capacity high watermark, the gapped /
full-capacity gas-price admission checks; then the nonce checks and the
replacement tail. -/
def schedAddTx (now : Nat) (s : MPTxSchedule) (tx : MPTxRequest) :
    Option (MPTxSendResult × MPTxSchedule) :=
  if (dlookup s.txDict.txHashDict tx.sig).isSome then
    some (⟨MPTxSendResultCode.AlreadyKnown, none⟩, s)
  else
    let oldTx := dlookup s.txDict.txSenderNonceDict (tx.senderAddress, tx.nonce)
    if (match oldTx with
        | some old => decide (old.gasPrice ≥ tx.gasPrice)
        | none => false) then
      some (⟨MPTxSendResultCode.Underprice, none⟩, s)
    else
      let senderPool := (dlookup s.senderPoolDict tx.senderAddress).getD
        (mkSenderTxPool now tx.senderAddress)
      match senderPool.stateTxCntProp with
      | none => none
      | some poolStateTxCnt =>
          let stateTxCnt := max tx.cfgStateTxCnt poolStateTxCnt
          let isGappedTx :=
            decide (pyOrNat senderPool.pendingNonce stateTxCnt < tx.nonce)
          if s.txDict.txHashDict.length ≥ s.capacityHighWatermark then
            if isGappedTx then
              match dictPeekGappedLowerTx s.txDict with
              | none =>
                  some (⟨MPTxSendResultCode.NonceTooHigh, some stateTxCnt⟩, s)
              | some lowerTx =>
                  if tx.gasPrice < lowerTx.gasPrice then
                    some (⟨MPTxSendResultCode.Underprice, none⟩, s)
                  else
                    schedAddTxNonceChecks now s tx senderPool oldTx
                      stateTxCnt isGappedTx
            else
              if s.txDict.txHashDict.length ≥ s.capacity ∧
                  dictPeekGappedLowerTx s.txDict = none then
                match dictPeekPendingLowerTx s.txDict with
                | some lowerTx =>
                    if tx.gasPrice < lowerTx.gasPrice then
                      some (⟨MPTxSendResultCode.Underprice, none⟩, s)
                    else
                      schedAddTxNonceChecks now s tx senderPool oldTx
                        stateTxCnt isGappedTx
                | none =>
                    schedAddTxNonceChecks now s tx senderPool oldTx
                      stateTxCnt isGappedTx
              else
                schedAddTxNonceChecks now s tx senderPool oldTx
                  stateTxCnt isGappedTx
          else
            schedAddTxNonceChecks now s tx senderPool oldTx
              stateTxCnt isGappedTx

/-- The inner loop of MPTxSchedule.drop_expired_sender_pools: drop the top
transaction of the pool until it is empty.  Each executed step removes one
queue element, so the fuel queue-length + 1 makes the zero case
unreachable. -/
def schedDropPoolTxsLoop :
    Nat → MPTxSchedule → MPSenderTxPool →
    Option (MPSenderTxPool × MPTxSchedule)
  | 0, _, _ => none
  | fuel + 1, s, p =>
      match p.txNonceQueue.getLast? with
      | none => some (p, s)
      | some topTx =>
          match schedDropTxFromSenderPool s p topTx with
          | none => none
          | some (p2, s2) => schedDropPoolTxsLoop fuel s2 p2

/-- The outer loop of MPTxSchedule.drop_expired_sender_pools: look at the
oldest pool — the top of the heartbeat queue, recovered through the pool
dictionary; stop when it is fresh enough or processing; otherwise drop all
its transactions and sync its state, which removes the emptied pool from
the dictionary and from the heartbeat queue.  Every productive iteration
shortens the heartbeat queue and an unproductive one repeats the same
configuration forever, so the fuel queue-length + 1 turns a non-terminating
run into none. -/
def schedDropExpiredLoop : Nat → MPTxSchedule → Int → Option MPTxSchedule
  | 0, _, _ => none
  | fuel + 1, s, threshold =>
      match s.senderPoolHeartbeatQueue.getLast? with
      | none => some s
      | some e =>
          match dlookup s.senderPoolDict e.2 with
          | none => none
          | some p =>
              if threshold < (p.heartbeatF : Int) ∨ p.isProcessing = true then
                some s
              else
                match schedDropPoolTxsLoop (p.txNonceQueue.length + 1) s p with
                | none => none
                | some (p2, s2) =>
                    match schedSyncSenderState s2 p2 with
                    | none => none
                    | some (_, s3) => schedDropExpiredLoop fuel s3 threshold

/-- MPTxSchedule.drop_expired_sender_pools(eviction_timeout_sec): the
threshold int(time.time()) - eviction_timeout_sec, then the eviction loop
over the heartbeat queue. -/
def schedDropExpiredSenderPools (now : Nat) (s : MPTxSchedule)
    (evictionTimeoutSec : Nat) : Option MPTxSchedule :=
  schedDropExpiredLoop (s.senderPoolHeartbeatQueue.length + 1) s
    ((now : Int) - evictionTimeoutSec)

/-! ### C5 — add_tx replacement behaviour. -/

/-- A transaction being processed for sender "s" at nonce 5. -/
def exTxOld : MPTxRequest := ⟨"t0", "s", 5, 10, 5⟩

/-- A replacement for the same (sender, nonce) with a higher gas price. -/
def exTxNew : MPTxRequest := ⟨"t1", "s", 5, 20, 0⟩

/-- The sender pool of "s" while exTxOld is being processed. -/
def exPoolS : MPSenderTxPool :=
  ⟨PoolState.Processing, "s", 10, 100, 5, some exTxOld, [exTxOld]⟩

/-- A schedule holding only exTxOld, whose pool is Processing (the
processing transaction sits in neither gas-price queue). -/
def exC5 : MPTxSchedule :=
  ⟨1000, 800, 1,
   ⟨[("t0", exTxOld)], [(("s", 5), exTxOld)], [], []⟩,
   [("s", exPoolS)], [(-100, "s")], [], []⟩

/-- C5 counterexample: the (sender, nonce) slot of the new transaction is
occupied by exTxOld whose gas price 10 is strictly lower than the new 20,
yet add_tx does not replace it: the sender pool is Processing exTxOld at
that very nonce, so the call answers NonceTooLow (with counter 6) and
leaves the mempool untouched — against the claim that a strictly cheaper
existing transaction is dropped and the new one inserted in its place. -/
theorem schedAddTx_processing_counterexample :
    dlookup exC5.txDict.txSenderNonceDict (exTxNew.senderAddress, exTxNew.nonce)
      = some exTxOld ∧
    exTxOld.gasPrice < exTxNew.gasPrice ∧
    schedAddTx 200 exC5 exTxNew
      = some (⟨MPTxSendResultCode.NonceTooLow, some 6⟩, exC5) :=
  ⟨rfl, by decide, rfl⟩

/-- derase never lengthens the list. -/
theorem derase_length_le {κ β : Type} [DecidableEq κ] (l : List (κ × β))
    (k : κ) : (derase l k).length ≤ l.length :=
  (List.filter_sublist l).length_le

/-- derase of a present key strictly shrinks the list (no key-distinctness
needed). -/
theorem derase_length_lt {κ β : Type} [DecidableEq κ] :
    ∀ (l : List (κ × β)) (k : κ), (dlookup l k).isSome →
      (derase l k).length < l.length := by
  intro l
  induction l with
  | nil => intro k h; simp [dlookup_nil] at h
  | cons p t ih =>
      intro k hk
      by_cases h : p.1 = k
      · have hstep : derase (p :: t) k = derase t k := by simp [derase, h]
        rw [hstep]
        have := derase_length_le t k
        simp only [List.length_cons]
        omega
      · have hstep : derase (p :: t) k = p :: derase t k := by
          simp [derase, h]
        have hkt : (dlookup t k).isSome := by
          rw [dlookup_cons, if_neg h] at hk
          exact hk
        have := ih k hkt
        rw [hstep]
        simp only [List.length_cons]
        omega

/-- A successful lookup yields a member entry. -/
theorem dlookup_mem {κ β : Type} [DecidableEq κ] (l : List (κ × β)) (k : κ)
    (v : β) (h : dlookup l k = some v) : (k, v) ∈ l := by
  rw [dlookup] at h
  rcases hf : l.find? (fun p => decide (p.1 = k)) with _ | p
  · rw [hf] at h; exact Option.noConfusion h
  · rw [hf] at h
    have hp := List.mem_of_find?_eq_some hf
    have hk := List.find?_some hf
    simp only [decide_eq_true_eq] at hk
    simp only [Option.map_some'] at h
    have hkv : (k, v) = p := by
      cases p
      cases h
      simp_all
    rw [hkv]
    exact hp

/-- A successful MPTxRequestDict.pop_tx passed its presence assertion. -/
theorem dictPopTx_present (d d2 : MPTxRequestDict) (tx : MPTxRequest)
    (h : dictPopTx d tx = some d2) :
    (dlookup d.txHashDict tx.sig).isSome := by
  rw [dictPopTx] at h
  by_cases h1 : (dlookup d.txHashDict tx.sig).isSome
  · exact h1
  · rw [if_pos h1] at h
    exact Option.noConfusion h

/-- Shape of a successful MPTxRequestDict.pop_tx: the two dictionaries lose
exactly the popped keys. -/
theorem dictPopTx_dicts (d d2 : MPTxRequestDict) (tx : MPTxRequest)
    (h : dictPopTx d tx = some d2) :
    d2.txHashDict = derase d.txHashDict tx.sig ∧
    d2.txSenderNonceDict = derase d.txSenderNonceDict tx.snKey := by
  unfold dictPopTx at h
  split at h
  · exact Option.noConfusion h
  split at h
  · exact Option.noConfusion h
  split at h
  · cases h; exact ⟨rfl, rfl⟩
  · split at h
    · exact Option.noConfusion h
    · split at h
      · exact Option.noConfusion h
      · cases h; exact ⟨rfl, rfl⟩

/-- Shape of a successful MPTxRequestDict.add_tx (through the core): the two
dictionaries gain exactly the inserted keys. -/
theorem dictAddTxCore_dicts (d d2 : MPTxRequestDict) (tx : MPTxRequest)
    (g : Bool) (h : dictAddTxCore d tx g = some d2) :
    d2.txHashDict = dset d.txHashDict tx.sig tx ∧
    d2.txSenderNonceDict = dset d.txSenderNonceDict tx.snKey tx := by
  rw [dictAddTxCore] at h
  by_cases h1 : (dlookup d.txHashDict tx.sig).isSome
  · rw [if_pos h1] at h; cases h
  rw [if_neg h1] at h
  by_cases h2 : (dlookup d.txSenderNonceDict tx.snKey).isSome
  · rw [if_pos h2] at h; cases h
  rw [if_neg h2] at h
  by_cases h3 : (sqFind gasLtKey MPTxRequest.sig d.txGasPriceQueue tx).isSome
  · rw [if_pos h3] at h; cases h
  rw [if_neg h3] at h
  by_cases h4 : (sqFind gasLtKey MPTxRequest.sig d.txGappedGasPriceQueue tx).isSome
  · rw [if_pos h4] at h; cases h
  rw [if_neg h4] at h
  simp only [] at h
  split at h
  · split at h
    · exact Option.noConfusion h
    · cases h; exact ⟨rfl, rfl⟩
  · split at h
    · exact Option.noConfusion h
    · split at h
      · exact Option.noConfusion h
      · cases h; exact ⟨rfl, rfl⟩

/-- Same shape through the closing assertion of add_tx. -/
theorem dictAddTx_dicts (d d2 : MPTxRequestDict) (tx : MPTxRequest)
    (g : Bool) (h : dictAddTx d tx g = some d2) :
    d2.txHashDict = dset d.txHashDict tx.sig tx ∧
    d2.txSenderNonceDict = dset d.txSenderNonceDict tx.snKey tx := by
  rw [dictAddTx] at h
  rcases hc : dictAddTxCore d tx g with _ | d3
  · rw [hc] at h; exact Option.noConfusion h
  · simp only [hc] at h
    split at h
    · cases h; exact dictAddTxCore_dicts d _ tx g hc
    · exact Option.noConfusion h

/-- A successful pool drop_tx keeps every field but the nonce queue, which
loses one member. -/
theorem poolDropTx_parts (p p2 : MPSenderTxPool) (tx : MPTxRequest)
    (h : p.dropTx tx = some p2) :
    p2.senderAddress = p.senderAddress ∧ p2.stateF = p.stateF ∧
    p2.heartbeatF = p.heartbeatF ∧ p2.stateTxCntF = p.stateTxCntF ∧
    p2.processingTx = p.processingTx ∧
    (∀ t ∈ p2.txNonceQueue, t ∈ p.txNonceQueue) ∧
    p2.txNonceQueue.length < p.txNonceQueue.length := by
  unfold MPSenderTxPool.dropTx at h
  split at h
  · exact Option.noConfusion h
  rcases hpop : sqPopItem nonceLtKey MPTxRequest.sig p.txNonceQueue tx with _ | pr
  · rw [hpop] at h; exact Option.noConfusion h
  · obtain ⟨a, q2⟩ := pr
    rw [hpop] at h
    cases h
    obtain ⟨_, _, l1, l2, hxs, hys⟩ := sqPopItem_some_spec _ _ _ _ hpop
    refine ⟨rfl, rfl, rfl, rfl, rfl, ?_, sqPopItem_some_length hpop⟩
    intro t ht
    simp only [hys, List.mem_append] at ht
    simp only [hxs, List.mem_append, List.mem_cons]
    tauto

/-- schedUpdPool: everything but the pool dictionary is unchanged; other
keys of the pool dictionary are unchanged; a stored pool is looked up
afterwards; an absent pool leaves the schedule untouched. -/
theorem schedUpdPool_parts (s : MPTxSchedule) (p : MPSenderTxPool) :
    (schedUpdPool s p).txDict = s.txDict ∧
    (schedUpdPool s p).senderPoolHeartbeatQueue = s.senderPoolHeartbeatQueue ∧
    (schedUpdPool s p).senderPoolQueue = s.senderPoolQueue ∧
    (schedUpdPool s p).suspendedSenderSet = s.suspendedSenderSet ∧
    (schedUpdPool s p).capacity = s.capacity ∧
    (schedUpdPool s p).capacityHighWatermark = s.capacityHighWatermark ∧
    (∀ a, a ≠ p.senderAddress →
      dlookup (schedUpdPool s p).senderPoolDict a = dlookup s.senderPoolDict a) ∧
    ((dlookup s.senderPoolDict p.senderAddress).isSome →
      dlookup (schedUpdPool s p).senderPoolDict p.senderAddress = some p) ∧
    (dlookup s.senderPoolDict p.senderAddress = none → schedUpdPool s p = s) := by
  unfold schedUpdPool
  split
  · refine ⟨rfl, rfl, rfl, rfl, rfl, rfl, ?_, ?_, ?_⟩
    · intro a ha
      simp only []
      rw [dlookup_dset, if_neg ha]
    · intro _
      simp only []
      rw [dlookup_dset, if_pos rfl]
    · intro hnone
      rename_i hs
      rw [hnone] at hs
      exact absurd hs (by simp)
  · exact ⟨rfl, rfl, rfl, rfl, rfl, rfl, fun a _ => rfl, fun hs => by
      rename_i hn; exact absurd hs hn, fun _ => rfl⟩

/-- Shape of a successful _drop_tx_from_sender_pool: the pool comes from
drop_tx, the index dictionaries lose the dropped keys, everything else of
the schedule but the pool dictionary (updated at the pool's address) is
unchanged. -/
theorem schedDropTx_parts (s s2 : MPTxSchedule) (p p2 : MPSenderTxPool)
    (tx : MPTxRequest) (h : schedDropTxFromSenderPool s p tx = some (p2, s2)) :
    p.dropTx tx = some p2 ∧
    s2.txDict.txHashDict = derase s.txDict.txHashDict tx.sig ∧
    s2.txDict.txSenderNonceDict = derase s.txDict.txSenderNonceDict tx.snKey ∧
    s2.senderPoolHeartbeatQueue = s.senderPoolHeartbeatQueue ∧
    s2.senderPoolQueue = s.senderPoolQueue ∧
    s2.suspendedSenderSet = s.suspendedSenderSet ∧
    s2.capacity = s.capacity ∧
    s2.capacityHighWatermark = s.capacityHighWatermark ∧
    s2.senderPoolDict = (schedUpdPool s p2).senderPoolDict ∧
    (dlookup s.txDict.txHashDict tx.sig).isSome := by
  rw [schedDropTxFromSenderPool] at h
  rcases hd : p.dropTx tx with _ | p3
  · rw [hd] at h; exact Option.noConfusion h
  simp only [hd] at h
  rcases hp : dictPopTx (schedUpdPool s p3).txDict tx with _ | d2
  · rw [hp] at h; exact Option.noConfusion h
  simp only [hp] at h
  obtain ⟨hu1, hu2, hu3, hu4, hu5, hu6, _, _, _⟩ := schedUpdPool_parts s p3
  obtain ⟨hh, hsn⟩ := dictPopTx_dicts _ _ _ hp
  rw [hu1] at hh hsn
  have hpres : (dlookup s.txDict.txHashDict tx.sig).isSome := by
    have := dictPopTx_present _ _ _ hp
    rw [hu1] at this
    exact this
  cases h
  exact ⟨rfl, hh, hsn, hu2, hu3, hu4, hu5, hu6, rfl, hpres⟩


/-- _sync_sender_state never touches the index dictionary or the capacity
configuration. -/
theorem schedSync_txDict (s s2 : MPTxSchedule) (p p2 : MPSenderTxPool)
    (h : schedSyncSenderState s p = some (p2, s2)) :
    s2.txDict = s.txDict ∧ s2.capacity = s.capacity ∧
    s2.capacityHighWatermark = s.capacityHighWatermark := by
  rw [schedSyncSenderState] at h
  split at h
  · cases h; exact ⟨rfl, rfl, rfl⟩
  rcases hold : (match p.stateF with
      | PoolState.Suspended =>
          if p.senderAddress ∈ s.suspendedSenderSet then
            some { s with suspendedSenderSet :=
              s.suspendedSenderSet.erase p.senderAddress }
          else none
      | PoolState.Queued =>
          match sqPopItem Prod.fst Prod.snd s.senderPoolQueue
              (p.gasPriceF, p.senderAddress) with
          | none => none
          | some (_, pq2) => some { s with senderPoolQueue := pq2 }
      | _ => some s) with _ | s2a
  · rw [hold] at h; exact Option.noConfusion h
  have hs2a : s2a.txDict = s.txDict ∧ s2a.capacity = s.capacity ∧
      s2a.capacityHighWatermark = s.capacityHighWatermark ∧
      s2a.senderPoolHeartbeatQueue = s.senderPoolHeartbeatQueue ∧
      s2a.senderPoolDict = s.senderPoolDict := by
    rcases hst : p.stateF with _ | _ | _ | _
    · simp only [hst] at hold
      cases hold; exact ⟨rfl, rfl, rfl, rfl, rfl⟩
    · simp only [hst] at hold
      rcases hpq : sqPopItem Prod.fst Prod.snd s.senderPoolQueue
          (p.gasPriceF, p.senderAddress) with _ | pr
      · rw [hpq] at hold; exact Option.noConfusion hold
      · obtain ⟨b, pq2⟩ := pr
        rw [hpq] at hold
        cases hold
        exact ⟨rfl, rfl, rfl, rfl, rfl⟩
    · simp only [hst] at hold
      cases hold; exact ⟨rfl, rfl, rfl, rfl, rfl⟩
    · simp only [hst] at hold
      split at hold
      · cases hold; exact ⟨rfl, rfl, rfl, rfl, rfl⟩
      · exact Option.noConfusion hold
  rw [hold] at h
  obtain ⟨ha1, ha2, ha3, _, _⟩ := hs2a
  obtain ⟨hb1, hb2, hb3, hb4, hb5, hb6, _, _, _⟩ :=
    schedUpdPool_parts s2a p.syncState
  simp only [] at h
  split at h
  · split at h
    · rcases hhq : sqPopItem Prod.fst Prod.snd
          (schedUpdPool s2a p.syncState).senderPoolHeartbeatQueue
          (-(p.syncState.heartbeatF : Int), p.syncState.senderAddress)
          with _ | pr2
      · rw [hhq] at h; exact Option.noConfusion h
      · obtain ⟨b2, hq2⟩ := pr2
        rw [hhq] at h
        cases h
        exact ⟨by rw [hb1, ha1], by rw [hb5, ha2], by rw [hb6, ha3]⟩
    · exact Option.noConfusion h
  · cases h
    exact ⟨by rw [hb1, ha1], by rw [hb5, ha2], by rw [hb6, ha3]⟩
  · rcases hadd : sqAdd Prod.fst Prod.snd
        (schedUpdPool s2a p.syncState).senderPoolQueue
        (p.syncState.gasPriceF, p.syncState.senderAddress) with _ | pq3
    · rw [hadd] at h; exact Option.noConfusion h
    · rw [hadd] at h
      cases h
      exact ⟨by rw [hb1, ha1], by rw [hb5, ha2], by rw [hb6, ha3]⟩
  · cases h
    exact ⟨by rw [hb1, ha1], by rw [hb5, ha2], by rw [hb6, ha3]⟩

/-- The last element of a list is a member. -/
theorem mem_of_getLast_some {γ : Type} {l : List γ} {a : γ}
    (h : l.getLast? = some a) : a ∈ l := by
  have hx : a ∈ l.getLast? := h
  obtain ⟨hne, he⟩ := List.mem_getLast?_eq_getLast hx
  rw [he]
  exact List.getLast_mem hne

/-- Through the drop loop of _set_sender_tx_cnt, dictionary keys not carried
by a droppable pool transaction (nonce below the counter) are preserved,
absent hash keys stay absent, and the hash dictionary never grows. -/
theorem schedSetLoop_pres :
    ∀ (fuel : Nat) (s : MPTxSchedule) (p : MPSenderTxPool) (cnt : Nat)
      (p2 : MPSenderTxPool) (s2 : MPTxSchedule),
      schedSetSenderTxCntLoop fuel s p cnt = some (p2, s2) →
      (∀ k, (∀ t ∈ p.txNonceQueue, t.nonce < cnt → t.sig ≠ k) →
        dlookup s2.txDict.txHashDict k = dlookup s.txDict.txHashDict k) ∧
      (∀ kn, (∀ t ∈ p.txNonceQueue, t.nonce < cnt → t.snKey ≠ kn) →
        dlookup s2.txDict.txSenderNonceDict kn =
          dlookup s.txDict.txSenderNonceDict kn) ∧
      (∀ k, dlookup s.txDict.txHashDict k = none →
        dlookup s2.txDict.txHashDict k = none) ∧
      s2.txDict.txHashDict.length ≤ s.txDict.txHashDict.length ∧
      s2.capacity = s.capacity := by
  intro fuel
  induction fuel with
  | zero => intro s p cnt p2 s2 h; exact Option.noConfusion h
  | succ fuel ih =>
      intro s p cnt p2 s2 h
      rw [schedSetSenderTxCntLoop] at h
      rcases hlast : p.txNonceQueue.getLast? with _ | topTx
      · rw [hlast] at h
        cases h
        exact ⟨fun k _ => rfl, fun kn _ => rfl, fun k hk => hk, le_refl _, rfl⟩
      simp only [hlast] at h
      split at h
      · cases h
        exact ⟨fun k _ => rfl, fun kn _ => rfl, fun k hk => hk, le_refl _, rfl⟩
      · rename_i hge
        rcases hdrop : schedDropTxFromSenderPool s p topTx with _ | pr
        · rw [hdrop] at h; exact Option.noConfusion h
        obtain ⟨p3, s3⟩ := pr
        rw [hdrop] at h
        obtain ⟨hd, hh, hsn, _, _, _, hcap, _, _, _⟩ :=
          schedDropTx_parts _ _ _ _ _ hdrop
        obtain ⟨_, _, _, _, _, hmem, _⟩ := poolDropTx_parts _ _ _ hd
        have htop : topTx ∈ p.txNonceQueue := mem_of_getLast_some hlast
        have htoplt : topTx.nonce < cnt := by omega
        obtain ⟨ih1, ih2, ih3, ih4, ih5⟩ := ih s3 p3 cnt p2 s2 h
        refine ⟨?_, ?_, ?_, ?_, by rw [ih5, hcap]⟩
        · intro k hk
          rw [ih1 k (fun t ht hlt => hk t (hmem t ht) hlt), hh,
            dlookup_derase, if_neg ?_]
          exact fun he => hk topTx htop htoplt he.symm
        · intro kn hkn
          rw [ih2 kn (fun t ht hlt => hkn t (hmem t ht) hlt), hsn,
            dlookup_derase, if_neg ?_]
          exact fun he => hkn topTx htop htoplt he.symm
        · intro k hk
          refine ih3 k ?_
          rw [hh, dlookup_derase]
          split
          · rfl
          · exact hk
        · have : s3.txDict.txHashDict.length ≤ s.txDict.txHashDict.length := by
            rw [hh]; exact derase_length_le _ _
          omega

/-- The same preservation through _set_sender_tx_cnt. -/
theorem schedSetSenderTxCnt_pres (s : MPTxSchedule) (p : MPSenderTxPool)
    (cnt : Nat) (p2 : MPSenderTxPool) (s2 : MPTxSchedule)
    (h : schedSetSenderTxCnt s p cnt = some (p2, s2)) :
    (∀ k, (∀ t ∈ p.txNonceQueue, t.nonce < cnt → t.sig ≠ k) →
      dlookup s2.txDict.txHashDict k = dlookup s.txDict.txHashDict k) ∧
    (∀ kn, (∀ t ∈ p.txNonceQueue, t.nonce < cnt → t.snKey ≠ kn) →
      dlookup s2.txDict.txSenderNonceDict kn =
        dlookup s.txDict.txSenderNonceDict kn) ∧
    (∀ k, dlookup s.txDict.txHashDict k = none →
      dlookup s2.txDict.txHashDict k = none) ∧
    s2.txDict.txHashDict.length ≤ s.txDict.txHashDict.length ∧
    s2.capacity = s.capacity := by
  rw [schedSetSenderTxCnt] at h
  rcases hstc : p.stateTxCntProp with _ | cur
  · rw [hstc] at h; exact Option.noConfusion h
  simp only [hstc] at h
  split at h
  · cases h
    exact ⟨fun k _ => rfl, fun kn _ => rfl, fun k hk => hk, le_refl _, rfl⟩
  split at h
  · cases h
    exact ⟨fun k _ => rfl, fun kn _ => rfl, fun k hk => hk, le_refl _, rfl⟩
  rcases hloop : schedSetSenderTxCntLoop (p.txNonceQueue.length + 1) s p cnt
      with _ | pr
  · rw [hloop] at h; exact Option.noConfusion h
  obtain ⟨p3, s3⟩ := pr
  simp only [hloop] at h
  obtain ⟨ih1, ih2, ih3, ih4, ih5⟩ := schedSetLoop_pres _ _ _ _ _ _ hloop
  obtain ⟨hu1, _, _, _, hu5, _, _, _, _⟩ :=
    schedUpdPool_parts s3 { p3 with stateTxCntF := cnt }
  cases h
  refine ⟨?_, ?_, ?_, ?_, ?_⟩
  · intro k hk
    rw [hu1]
    exact ih1 k hk
  · intro kn hkn
    rw [hu1]
    exact ih2 kn hkn
  · intro k hk
    rw [hu1]
    exact ih3 k hk
  · rw [hu1]
    exact ih4
  · rw [hu5, ih5]

/-- The same preservation through _schedule_sender_pool (whose closing
_sync_sender_state leaves the index dictionary alone). -/
theorem schedSchedulePool_pres (s : MPTxSchedule) (p : MPSenderTxPool)
    (cnt : Nat) (p2 : MPSenderTxPool) (s2 : MPTxSchedule)
    (h : schedScheduleSenderPool s p cnt = some (p2, s2)) :
    (∀ k, (∀ t ∈ p.txNonceQueue, t.nonce < cnt → t.sig ≠ k) →
      dlookup s2.txDict.txHashDict k = dlookup s.txDict.txHashDict k) ∧
    (∀ kn, (∀ t ∈ p.txNonceQueue, t.nonce < cnt → t.snKey ≠ kn) →
      dlookup s2.txDict.txSenderNonceDict kn =
        dlookup s.txDict.txSenderNonceDict kn) ∧
    (∀ k, dlookup s.txDict.txHashDict k = none →
      dlookup s2.txDict.txHashDict k = none) ∧
    s2.txDict.txHashDict.length ≤ s.txDict.txHashDict.length ∧
    s2.capacity = s.capacity := by
  rw [schedScheduleSenderPool] at h
  rcases hset : schedSetSenderTxCnt s p cnt with _ | pr
  · rw [hset] at h; exact Option.noConfusion h
  obtain ⟨p3, s3⟩ := pr
  simp only [hset] at h
  obtain ⟨ih1, ih2, ih3, ih4, ih5⟩ := schedSetSenderTxCnt_pres _ _ _ _ _ hset
  obtain ⟨hsy1, hsy2, _⟩ := schedSync_txDict _ _ _ _ h
  refine ⟨?_, ?_, ?_, ?_, ?_⟩
  · intro k hk
    rw [hsy1]
    exact ih1 k hk
  · intro kn hkn
    rw [hsy1]
    exact ih2 kn hkn
  · intro k hk
    rw [hsy1]
    exact ih3 k hk
  · rw [hsy1]
    exact ih4
  · rw [hsy2, ih5]

/-- A successful pool add_tx keeps the counter, address, processing slot and
cached state, and extends the queue members by the new transaction. -/
theorem poolAddTx_parts (now : Nat) (p p2 : MPSenderTxPool) (tx : MPTxRequest)
    (h : p.addTx now tx = some p2) :
    (∀ t ∈ p2.txNonceQueue, t = tx ∨ t ∈ p.txNonceQueue) ∧
    p2.stateTxCntF = p.stateTxCntF ∧ p2.senderAddress = p.senderAddress ∧
    p2.processingTx = p.processingTx ∧ p2.stateF = p.stateF := by
  rw [MPSenderTxPool.addTx] at h
  split at h
  · exact Option.noConfusion h
  rcases hadd : sqAdd nonceLtKey MPTxRequest.sig p.txNonceQueue tx with _ | q2
  · rw [hadd] at h; exact Option.noConfusion h
  rw [hadd] at h
  cases h
  have hperm := sqAdd_some_perm _ _ _ hadd
  refine ⟨?_, rfl, rfl, rfl, rfl⟩
  intro t ht
  have := hperm.mem_iff.mp ht
  simpa using this

/-- Shape of a successful _add_tx_to_sender_pool: the index dictionaries
gain exactly the inserted keys, the pool queue members extend the old ones
by the new transaction, and the pool's counter is unchanged. -/
theorem schedAddPool_parts (now : Nat) (s : MPTxSchedule) (p : MPSenderTxPool)
    (tx : MPTxRequest) (g : Bool) (p2 : MPSenderTxPool) (s2 : MPTxSchedule)
    (h : schedAddTxToSenderPool now s p tx g = some (p2, s2)) :
    s2.txDict.txHashDict = dset s.txDict.txHashDict tx.sig tx ∧
    s2.txDict.txSenderNonceDict = dset s.txDict.txSenderNonceDict tx.snKey tx ∧
    (∀ t ∈ p2.txNonceQueue, t = tx ∨ t ∈ p.txNonceQueue) ∧
    p2.stateTxCntF = p.stateTxCntF ∧ s2.capacity = s.capacity := by
  rw [schedAddTxToSenderPool] at h
  simp only [] at h
  rcases hs2 : (if p.stateF = PoolState.Empty then some s
    else
      match sqPopItem Prod.fst Prod.snd s.senderPoolHeartbeatQueue
          (-(p.heartbeatF : Int), p.senderAddress) with
      | none => none
      | some (_, hq2) =>
          some { s with senderPoolHeartbeatQueue := hq2 }) with _ | s2a
  · rw [hs2] at h; exact Option.noConfusion h
  have hs2a : s2a.txDict = s.txDict ∧ s2a.capacity = s.capacity := by
    split at hs2
    · cases hs2; exact ⟨rfl, rfl⟩
    · rcases hpq : sqPopItem Prod.fst Prod.snd s.senderPoolHeartbeatQueue
          (-(p.heartbeatF : Int), p.senderAddress) with _ | pr
      · rw [hpq] at hs2; exact Option.noConfusion hs2
      · obtain ⟨b, hq2⟩ := pr
        rw [hpq] at hs2
        cases hs2
        exact ⟨rfl, rfl⟩
  rw [hs2] at h
  rcases haddp : p.addTx now tx with _ | p3
  · rw [haddp] at h; exact Option.noConfusion h
  simp only [haddp] at h
  rcases hda : dictAddTx s2a.txDict tx g with _ | d2
  · rw [hda] at h; exact Option.noConfusion h
  simp only [hda] at h
  split at h
  · exact Option.noConfusion h
  · rename_i hq3 hadd2
    cases h
    obtain ⟨hp1, hp2, _, _, _⟩ := poolAddTx_parts now p p2 tx haddp
    obtain ⟨hdh, hdsn⟩ := dictAddTx_dicts _ _ _ _ hda
    rw [hs2a.1] at hdh hdsn
    constructor
    · show (if p.stateF = PoolState.Empty then _ else schedUpdPool _ p2).txDict.txHashDict = _
      split
      · exact hdh
      · rw [(schedUpdPool_parts _ p2).1]
        exact hdh
    constructor
    · show (if p.stateF = PoolState.Empty then _ else schedUpdPool _ p2).txDict.txSenderNonceDict = _
      split
      · exact hdsn
      · rw [(schedUpdPool_parts _ p2).1]
        exact hdsn
    refine ⟨hp1, hp2, ?_⟩
    show (if p.stateF = PoolState.Empty then _ else schedUpdPool _ p2).capacity = _
    split
    · exact hs2a.2
    · rw [(schedUpdPool_parts _ p2).2.2.2.2.1]
      exact hs2a.2

/-- A successful replacement tail always answers Success. -/
theorem schedAddTxFinish_code (now : Nat) (s : MPTxSchedule)
    (tx : MPTxRequest) (sp : MPSenderTxPool) (oldTx : Option MPTxRequest)
    (cnt : Nat) (g : Bool) (r : MPTxSendResult) (s2 : MPTxSchedule)
    (h : schedAddTxFinish now s tx sp oldTx cnt g = some (r, s2)) :
    r = ⟨MPTxSendResultCode.Success, none⟩ := by
  rw [schedAddTxFinish.eq_def] at h
  rcases h1 : schedAddTxDropOld s sp oldTx with _ | pr
  · rw [h1] at h; exact Option.noConfusion h
  obtain ⟨p2, s2a⟩ := pr
  simp only [h1] at h
  rcases h2 : schedAddTxToSenderPool now s2a p2 tx g with _ | pr2
  · rw [h2] at h; exact Option.noConfusion h
  obtain ⟨p3, s3⟩ := pr2
  simp only [h2] at h
  rcases h3 : schedScheduleSenderPool s3 p3 cnt with _ | pr3
  · rw [h3] at h; exact Option.noConfusion h
  obtain ⟨p4, s4⟩ := pr3
  simp only [h3] at h
  rcases h4 : schedCheckOversizedAndReduce s4 tx with _ | s5
  · rw [h4] at h; exact Option.noConfusion h
  simp only [h4] at h
  cases h
  rfl

/-- A non-Success answer of the nonce checks leaves the schedule
untouched. -/
theorem schedAddTxNonceChecks_nonsuccess (now : Nat) (s : MPTxSchedule)
    (tx : MPTxRequest) (sp : MPSenderTxPool) (oldTx : Option MPTxRequest)
    (cnt : Nat) (g : Bool) (r : MPTxSendResult) (s2 : MPTxSchedule)
    (h : schedAddTxNonceChecks now s tx sp oldTx cnt g = some (r, s2))
    (hr : r.code ≠ MPTxSendResultCode.Success) : s2 = s := by
  rw [schedAddTxNonceChecks] at h
  by_cases hproc : sp.stateF = PoolState.Processing
  · rw [if_pos hproc] at h
    rcases htop : sp.topTx with _ | topTx
    · rw [htop] at h; exact Option.noConfusion h
    simp only [htop] at h
    by_cases hnn : topTx.nonce = tx.nonce
    · rw [if_pos hnn] at h; cases h; rfl
    rw [if_neg hnn] at h
    by_cases hgt : cnt > tx.nonce
    · rw [if_pos hgt] at h; cases h; rfl
    rw [if_neg hgt] at h
    exact absurd (congrArg MPTxSendResult.code
      (schedAddTxFinish_code _ _ _ _ _ _ _ _ _ h)) hr
  · rw [if_neg hproc] at h
    by_cases hgt : cnt > tx.nonce
    · rw [if_pos hgt] at h; cases h; rfl
    rw [if_neg hgt] at h
    exact absurd (congrArg MPTxSendResult.code
      (schedAddTxFinish_code _ _ _ _ _ _ _ _ _ h)) hr

/-- Below the capacity the oversize reduction is a no-op. -/
theorem schedCheckOversized_le (s : MPTxSchedule) (tx : MPTxRequest)
    (hle : s.txDict.txHashDict.length ≤ s.capacity) :
    schedCheckOversizedAndReduce s tx = some s := by
  rw [schedCheckOversizedAndReduce, if_pos hle]

/-- Any non-Success answer of add_tx leaves the schedule untouched. -/
theorem schedAddTx_nonsuccess (now : Nat) (s : MPTxSchedule)
    (tx : MPTxRequest) (r : MPTxSendResult) (s2 : MPTxSchedule)
    (h : schedAddTx now s tx = some (r, s2))
    (hr : r.code ≠ MPTxSendResultCode.Success) : s2 = s := by
  rw [schedAddTx] at h
  split at h
  · cases h; rfl
  simp only [] at h
  split at h
  · cases h; rfl
  rcases hstc : ((dlookup s.senderPoolDict tx.senderAddress).getD
      (mkSenderTxPool now tx.senderAddress)).stateTxCntProp with _ | poolStc
  · rw [hstc] at h; exact Option.noConfusion h
  simp only [hstc] at h
  split at h
  · split at h
    · split at h
      · cases h; rfl
      · split at h
        · cases h; rfl
        · exact schedAddTxNonceChecks_nonsuccess _ _ _ _ _ _ _ _ _ h hr
    · split at h
      · split at h
        · split at h
          · cases h; rfl
          · exact schedAddTxNonceChecks_nonsuccess _ _ _ _ _ _ _ _ _ h hr
        · exact schedAddTxNonceChecks_nonsuccess _ _ _ _ _ _ _ _ _ h hr
      · exact schedAddTxNonceChecks_nonsuccess _ _ _ _ _ _ _ _ _ h hr
  · exact schedAddTxNonceChecks_nonsuccess _ _ _ _ _ _ _ _ _ h hr

/-- The Success conclusions of the replacement tail of add_tx: the new
transaction is stored under both keys, the replaced one is gone from the
hash dictionary. -/
theorem schedAddTxFinish_success (now : Nat) (s : MPTxSchedule)
    (tx old : MPTxRequest) (P : MPSenderTxPool) (cnt : Nat) (g : Bool)
    (res : MPTxSendResult) (s2 : MPTxSchedule)
    (h0 : dlookup s.txDict.txHashDict tx.sig = none)
    (hsig : old.sig ≠ tx.sig)
    (hcap : s.txDict.txHashDict.length ≤ s.capacity)
    (hpq : ∀ t ∈ P.txNonceQueue, dlookup s.txDict.txHashDict t.sig = some t)
    (hcnt : cnt ≤ tx.nonce)
    (h : schedAddTxFinish now s tx P (some old) cnt g = some (res, s2)) :
    dlookup s2.txDict.txHashDict tx.sig = some tx ∧
    dlookup s2.txDict.txSenderNonceDict (tx.senderAddress, tx.nonce) = some tx ∧
    dlookup s2.txDict.txHashDict old.sig = none := by
  rw [schedAddTxFinish.eq_def] at h
  rcases hdrop : schedAddTxDropOld s P (some old) with _ | pr
  · rw [hdrop] at h; exact Option.noConfusion h
  obtain ⟨p2, s2a⟩ := pr
  simp only [hdrop] at h
  have hdrop2 : schedDropTxFromSenderPool s P old = some (p2, s2a) := hdrop
  obtain ⟨hd, hh2, hsn2, _, _, _, hcap2, _, _, hpres⟩ :=
    schedDropTx_parts _ _ _ _ _ hdrop2
  obtain ⟨_, _, _, _, _, hmem2, _⟩ := poolDropTx_parts _ _ _ hd
  rcases hadd : schedAddTxToSenderPool now s2a p2 tx g with _ | pr2
  · rw [hadd] at h; exact Option.noConfusion h
  obtain ⟨p3, s3⟩ := pr2
  simp only [hadd] at h
  obtain ⟨hh3, hsn3, hmem3, hstc3, hcap3⟩ := schedAddPool_parts _ _ _ _ _ _ _ hadd
  rcases hsch : schedScheduleSenderPool s3 p3 cnt with _ | pr3
  · rw [hsch] at h; exact Option.noConfusion h
  obtain ⟨p4, s4⟩ := pr3
  simp only [hsch] at h
  obtain ⟨hk1, hk2, hk3, hk4, hk5⟩ := schedSchedulePool_pres _ _ _ _ _ hsch
  have hlen2 : s2a.txDict.txHashDict.length < s.txDict.txHashDict.length := by
    rw [hh2]
    exact derase_length_lt _ _ hpres
  have hfresh3 : dlookup s2a.txDict.txHashDict tx.sig = none := by
    rw [hh2, dlookup_derase, if_neg (fun he => hsig he.symm)]
    exact h0
  have hlen3 : s3.txDict.txHashDict.length ≤ s.txDict.txHashDict.length := by
    rw [hh3, dset_fresh_append _ _ _ (by rw [hfresh3]; simp)]
    simp only [List.length_append, List.length_singleton]
    omega
  have hover : schedCheckOversizedAndReduce s4 tx = some s4 :=
    schedCheckOversized_le _ _ (by
      rw [hk5, hcap3, hcap2]
      exact le_trans (le_trans hk4 hlen3) hcap)
  simp only [hover] at h
  cases h
  have hcond1 : ∀ t ∈ p3.txNonceQueue, t.nonce < cnt → t.sig ≠ tx.sig := by
    intro t ht hlt he
    rcases hmem3 t ht with rfl | htP2
    · omega
    · have hl := hpq t (hmem2 t htP2)
      rw [he, h0] at hl
      exact Option.noConfusion hl
  have hcond2 : ∀ t ∈ p3.txNonceQueue, t.nonce < cnt →
      t.snKey ≠ (tx.senderAddress, tx.nonce) := by
    intro t ht hlt he
    rcases hmem3 t ht with rfl | htP2
    · omega
    · have := congrArg Prod.snd he
      dsimp [MPTxRequest.snKey] at this
      omega
  refine ⟨?_, ?_, ?_⟩
  · rw [hk1 tx.sig hcond1, hh3, dlookup_dset, if_pos rfl]
  · rw [hk2 (tx.senderAddress, tx.nonce) hcond2, hsn3, dlookup_dset,
      if_pos (show (tx.senderAddress, tx.nonce) = tx.snKey from rfl)]
  · refine hk3 old.sig ?_
    rw [hh3, dlookup_dset, if_neg hsig, hh2, dlookup_derase, if_pos rfl]

/-- C5 (amended): when add_tx is called with a transaction whose hash is
unknown and whose (sender, nonce) pair is occupied by an existing
transaction, then (1) if the existing gas price is greater or equal, the
call answers Underprice and the schedule is unchanged; (2) every
non-Success answer leaves the schedule unchanged; and (3) whenever the call
answers Success — which requires passing the capacity admission checks and
the nonce checks (no processing transaction at the same nonce, state
counter not above the nonce) — the new transaction is stored under its hash
and its (sender, nonce) key and the replaced transaction's hash is gone,
under the consistency hypothesis that the sender pool's queued transactions
are the hash-dictionary entries of their signatures. -/
theorem schedAddTx_replace_spec (now : Nat) (s : MPTxSchedule)
    (tx old : MPTxRequest)
    (h0 : dlookup s.txDict.txHashDict tx.sig = none)
    (h1 : dlookup s.txDict.txSenderNonceDict (tx.senderAddress, tx.nonce)
      = some old) :
    (old.gasPrice ≥ tx.gasPrice →
      schedAddTx now s tx = some (⟨MPTxSendResultCode.Underprice, none⟩, s)) ∧
    (∀ res s2, schedAddTx now s tx = some (res, s2) →
      res.code ≠ MPTxSendResultCode.Success → s2 = s) ∧
    (old.sig ≠ tx.sig →
      s.txDict.txHashDict.length ≤ s.capacity →
      (∀ p, dlookup s.senderPoolDict tx.senderAddress = some p →
        ∀ t ∈ p.txNonceQueue, dlookup s.txDict.txHashDict t.sig = some t) →
      ∀ res s2, schedAddTx now s tx = some (res, s2) →
        res.code = MPTxSendResultCode.Success →
        dlookup s2.txDict.txHashDict tx.sig = some tx ∧
        dlookup s2.txDict.txSenderNonceDict (tx.senderAddress, tx.nonce)
          = some tx ∧
        dlookup s2.txDict.txHashDict old.sig = none) := by
  have hnotsome : ¬ (dlookup s.txDict.txHashDict tx.sig).isSome = true := by
    rw [h0]; simp
  refine ⟨?_, ?_, ?_⟩
  · intro hge
    rw [schedAddTx, if_neg hnotsome]
    simp only [h1]
    rw [if_pos (decide_eq_true hge)]
  · intro res s2 hrun hr
    exact schedAddTx_nonsuccess now s tx res s2 hrun hr
  · intro hsig hcap hpool res s2 hrun hres
    rw [schedAddTx, if_neg hnotsome] at hrun
    simp only [h1] at hrun
    by_cases hge : old.gasPrice ≥ tx.gasPrice
    · rw [if_pos (decide_eq_true hge)] at hrun
      cases hrun
      exact MPTxSendResultCode.noConfusion hres
    rw [if_neg (by simp [hge])] at hrun
    rcases hstc : ((dlookup s.senderPoolDict tx.senderAddress).getD
        (mkSenderTxPool now tx.senderAddress)).stateTxCntProp with _ | poolStc
    · rw [hstc] at hrun; exact Option.noConfusion hrun
    simp only [hstc] at hrun
    have hpq : ∀ t ∈ ((dlookup s.senderPoolDict tx.senderAddress).getD
        (mkSenderTxPool now tx.senderAddress)).txNonceQueue,
        dlookup s.txDict.txHashDict t.sig = some t := by
      rcases hfind : dlookup s.senderPoolDict tx.senderAddress with _ | p0
      · intro t ht
        simp [mkSenderTxPool] at ht
      · intro t ht
        exact hpool p0 hfind t ht
    have hnc : schedAddTxNonceChecks now s tx
        ((dlookup s.senderPoolDict tx.senderAddress).getD
          (mkSenderTxPool now tx.senderAddress)) (some old)
        (max tx.cfgStateTxCnt poolStc)
        (decide (pyOrNat ((dlookup s.senderPoolDict tx.senderAddress).getD
            (mkSenderTxPool now tx.senderAddress)).pendingNonce
          (max tx.cfgStateTxCnt poolStc) < tx.nonce)) = some (res, s2) := by
      split at hrun
      · split at hrun
        · split at hrun
          · cases hrun; exact MPTxSendResultCode.noConfusion hres
          · split at hrun
            · cases hrun; exact MPTxSendResultCode.noConfusion hres
            · exact hrun
        · split at hrun
          · split at hrun
            · split at hrun
              · cases hrun; exact MPTxSendResultCode.noConfusion hres
              · exact hrun
            · exact hrun
          · exact hrun
      · exact hrun
    rw [schedAddTxNonceChecks] at hnc
    by_cases hproc : ((dlookup s.senderPoolDict tx.senderAddress).getD
        (mkSenderTxPool now tx.senderAddress)).stateF = PoolState.Processing
    · rw [if_pos hproc] at hnc
      rcases htop : ((dlookup s.senderPoolDict tx.senderAddress).getD
          (mkSenderTxPool now tx.senderAddress)).topTx with _ | topTx
      · rw [htop] at hnc; exact Option.noConfusion hnc
      simp only [htop] at hnc
      by_cases hnn : topTx.nonce = tx.nonce
      · rw [if_pos hnn] at hnc; cases hnc; exact MPTxSendResultCode.noConfusion hres
      rw [if_neg hnn] at hnc
      by_cases hgt : max tx.cfgStateTxCnt poolStc > tx.nonce
      · rw [if_pos hgt] at hnc; cases hnc; exact MPTxSendResultCode.noConfusion hres
      rw [if_neg hgt] at hnc
      exact schedAddTxFinish_success _ _ _ _ _ _ _ _ _ h0 hsig hcap hpq
        (le_of_not_lt hgt) hnc
    · rw [if_neg hproc] at hnc
      by_cases hgt : max tx.cfgStateTxCnt poolStc > tx.nonce
      · rw [if_pos hgt] at hnc; cases hnc; exact MPTxSendResultCode.noConfusion hres
      rw [if_neg hgt] at hnc
      exact schedAddTxFinish_success _ _ _ _ _ _ _ _ _ h0 hsig hcap hpq
        (le_of_not_lt hgt) hnc

/-- A queued transaction to be replaced in the C5 witness. -/
def exTxRepOld : MPTxRequest := ⟨"o1", "w", 0, 5, 0⟩

/-- The replacing transaction with a higher gas price. -/
def exTxRepNew : MPTxRequest := ⟨"n1", "w", 0, 9, 0⟩

/-- The queued sender pool of "w". -/
def exPoolW : MPSenderTxPool :=
  ⟨PoolState.Queued, "w", 5, 50, 0, none, [exTxRepOld]⟩

/-- A consistent one-transaction schedule for the C5 witness. -/
def exC5w : MPTxSchedule :=
  ⟨10, 8, 1,
   ⟨[("o1", exTxRepOld)], [(("w", 0), exTxRepOld)], [exTxRepOld], []⟩,
   [("w", exPoolW)], [(-50, "w")], [(5, "w")], []⟩

/-- C5 witness: replacing the queued cheap transaction succeeds and the
spec theorem's conclusions evaluate on the concrete run. -/
theorem schedAddTx_replace_spec_witness :
    ∃ res s2, schedAddTx 60 exC5w exTxRepNew = some (res, s2) ∧
      res.code = MPTxSendResultCode.Success ∧
      dlookup s2.txDict.txHashDict exTxRepNew.sig = some exTxRepNew ∧
      dlookup s2.txDict.txSenderNonceDict
        (exTxRepNew.senderAddress, exTxRepNew.nonce) = some exTxRepNew ∧
      dlookup s2.txDict.txHashDict exTxRepOld.sig = none := by
  have happ := (schedAddTx_replace_spec 60 exC5w exTxRepNew exTxRepOld
      rfl rfl).2.2
    (by decide) (by decide)
    (fun p hp => by
      have hp2 : exPoolW = p := Option.some.inj hp
      intro t ht
      rw [← hp2] at ht
      have ht2 : t = exTxRepOld := by simpa [exPoolW] using ht
      rw [ht2]
      rfl)
  refine ⟨_, _, rfl, rfl, ?_, ?_, ?_⟩
  · exact (happ _ _ rfl rfl).1
  · exact (happ _ _ rfl rfl).2.1
  · exact (happ _ _ rfl rfl).2.2

/-! ### C2 — drop_expired_sender_pools. -/

/-- A transaction being processed by sender "P". -/
def exTxP : MPTxRequest := ⟨"tP", "P", 0, 9, 0⟩

/-- A queued transaction of the expired sender "B". -/
def exTxB : MPTxRequest := ⟨"tB", "B", 1, 8, 0⟩

/-- The Processing pool of "P" with the oldest heartbeat 0. -/
def exPoolP : MPSenderTxPool :=
  ⟨PoolState.Processing, "P", 9, 0, 0, some exTxP, [exTxP]⟩

/-- The Queued pool of "B" with heartbeat 5, far below the threshold. -/
def exPoolB : MPSenderTxPool :=
  ⟨PoolState.Queued, "B", 8, 5, 1, none, [exTxB]⟩

/-- A schedule where the oldest pool is Processing and a younger expired
pool stands behind it in the heartbeat queue. -/
def exC2 : MPTxSchedule :=
  ⟨100, 80, 1,
   ⟨[("tP", exTxP), ("tB", exTxB)], [(("P", 0), exTxP), (("B", 1), exTxB)],
    [exTxB], []⟩,
   [("P", exPoolP), ("B", exPoolB)],
   [(-5, "B"), (0, "P")], [(8, "B")], []⟩

/-- C2 counterexample: with now = 100 and eviction timeout 10 the threshold
is 90; pool "B" (heartbeat 5) is expired and not Processing, but the
eviction loop inspects the oldest pool "P" first, which is Processing, and
breaks immediately: the call returns the schedule unchanged and the expired
pool "B" survives — against the claim that every expired non-Processing
pool is removed. -/
theorem schedDropExpired_processing_blocks :
    schedDropExpiredSenderPools 100 exC2 10 = some exC2 ∧
    dlookup exC2.senderPoolDict "B" = some exPoolB ∧
    (exPoolB.heartbeatF : Int) < (100 : Int) - 10 ∧
    exPoolB.isProcessing = false :=
  ⟨rfl, rfl, by decide, rfl⟩

/-- A heartbeat-queue entry is droppable when its pool exists, is not fresh
(heartbeat not above the threshold) and is not processing. -/
def schedPoolDroppable (s : MPTxSchedule) (threshold : Int)
    (e : Int × String) : Bool :=
  match dlookup s.senderPoolDict e.2 with
  | some p => !(decide (threshold < (p.heartbeatF : Int))) && !p.isProcessing
  | none => false

/-- Well-formedness used for the eviction characterisation: the heartbeat
queue is sorted with pairwise distinct senders and every entry carries the
current -heartbeat of its pool; every stored pool carries its key as sender
address, a sorted nonce queue with pairwise distinct (key, signature)
pairs, and transactions that belong to the sender and are the
hash-dictionary entries of their signatures. -/
def DropWF (s : MPTxSchedule) : Prop :=
  SqSorted Prod.fst s.senderPoolHeartbeatQueue ∧
  (s.senderPoolHeartbeatQueue.map Prod.snd).Nodup ∧
  (∀ e ∈ s.senderPoolHeartbeatQueue,
    (match dlookup s.senderPoolDict e.2 with
     | some p => decide (e.1 = -(p.heartbeatF : Int))
     | none => false) = true) ∧
  (∀ pr ∈ s.senderPoolDict, dlookup s.senderPoolDict pr.1 = some pr.2 →
    pr.2.senderAddress = pr.1 ∧
    SqSorted nonceLtKey pr.2.txNonceQueue ∧
    (pr.2.txNonceQueue.map fun t => (nonceLtKey t, t.sig)).Nodup ∧
    ∀ t ∈ pr.2.txNonceQueue, t.senderAddress = pr.1 ∧
      dlookup s.txDict.txHashDict t.sig = some t)

/-- The pool facts of DropWF, through a lookup. -/
theorem dropWF_pool {s : MPTxSchedule} (h : DropWF s) (a : String)
    (p : MPSenderTxPool) (hp : dlookup s.senderPoolDict a = some p) :
    p.senderAddress = a ∧ SqSorted nonceLtKey p.txNonceQueue ∧
    (p.txNonceQueue.map fun t => (nonceLtKey t, t.sig)).Nodup ∧
    ∀ t ∈ p.txNonceQueue, t.senderAddress = a ∧
      dlookup s.txDict.txHashDict t.sig = some t :=
  h.2.2.2 (a, p) (dlookup_mem _ _ _ hp) hp

/-- Popping the last element of a sorted queue whose (lt-key, eq-key) pairs
are pairwise distinct removes exactly that last element. -/
theorem sqPopItem_last {α κ ε : Type} [LinearOrder κ] [DecidableEq ε]
    {ltKey : α → κ} {eqKey : α → ε} (xs : List α) (x : α)
    (hs : SqSorted ltKey xs) (hlast : xs.getLast? = some x)
    (hkeys : (xs.map fun y => (ltKey y, eqKey y)).Nodup) :
    ∃ a, sqPopItem ltKey eqKey xs x = some (a, xs.dropLast) := by
  have hmem : x ∈ xs := mem_of_getLast_some hlast
  have hfs := @sqFind_isSome_of_mem α κ _ ε _ ltKey eqKey xs x x hs hmem rfl rfl
  rcases hf : sqFind ltKey eqKey xs x with _ | i
  · rw [hf] at hfs; exact Bool.noConfusion hfs
  obtain ⟨l1, b, l2, hxs, hbk, hbe, hdel⟩ := sqFind_some_spec hf
  have hbx : b = x := by
    have hbmem : b ∈ xs := by rw [hxs]; simp
    exact List.inj_on_of_nodup_map hkeys hbmem hmem (by rw [hbk, hbe])
  subst hbx
  rcases l2 with _ | ⟨c, l3⟩
  · have hne : ¬ xs.length = 0 := by rw [hxs]; simp
    have hilt : i < xs.length := by
      by_contra hge
      push_neg at hge
      have h1 : xs.eraseIdx i = xs := by
        rw [List.eraseIdx_eq_take_drop_succ, List.take_of_length_le hge,
          List.drop_eq_nil_of_le (by omega)]
        simp
      rw [h1, hxs] at hdel
      have := congrArg List.length hdel
      simp at this
    have hdrop : xs.dropLast = l1 := by
      rw [hxs]
      simpa using List.dropLast_concat l1 x
    refine ⟨xs[i], ?_⟩
    rw [sqPopItem, if_neg hne]
    simp only [hf]
    rw [List.getElem?_eq_getElem hilt]
    rw [hdel, hdrop]
    simp
  · exfalso
    have hlast2 : xs.getLast? = (c :: l3).getLast? := by
      rw [hxs, List.getLast?_append_cons, List.getLast?_cons_cons]
    have hxin : (c :: l3).getLast? = some b := by rw [← hlast2]; exact hlast
    have hxl3 : b ∈ c :: l3 := mem_of_getLast_some hxin
    have h2 : ((l1 ++ b :: c :: l3).map fun y => (ltKey y, eqKey y)).Nodup := by
      rw [← hxs]; exact hkeys
    rw [List.map_append] at h2
    have h3 := (List.nodup_append.mp h2).2.1
    rw [List.map_cons] at h3
    exact (List.nodup_cons.mp h3).1 (List.mem_map_of_mem _ hxl3)

/-- takeWhile only looks at the values of the predicate on the list. -/
theorem list_takeWhile_congr {γ : Type} (P Q : γ → Bool) :
    ∀ l : List γ, (∀ x ∈ l, P x = Q x) → l.takeWhile P = l.takeWhile Q := by
  intro l
  induction l with
  | nil => intro _; rfl
  | cons a t ih =>
      intro h
      rw [List.takeWhile_cons, List.takeWhile_cons, h a (by simp),
        ih (fun x hx => h x (by simp [hx]))]

/-- dropWhile only looks at the values of the predicate on the list. -/
theorem list_dropWhile_congr {γ : Type} (P Q : γ → Bool) :
    ∀ l : List γ, (∀ x ∈ l, P x = Q x) → l.dropWhile P = l.dropWhile Q := by
  intro l
  induction l with
  | nil => intro _; rfl
  | cons a t ih =>
      intro h
      rw [List.dropWhile_cons, List.dropWhile_cons, h a (by simp),
        ih (fun x hx => h x (by simp [hx]))]

/-- In a list with pairwise distinct images whose last element is e, no
earlier element shares e's image. -/
theorem map_nodup_last_ne {γ δ : Type} (f : γ → δ) (l : List γ) (e : γ)
    (h : ((l ++ [e]).map f).Nodup) : ∀ x ∈ l, f x ≠ f e := by
  intro x hx he
  rw [List.map_append] at h
  have hdisj := (List.nodup_append.mp h).2.2
  exact hdisj (List.mem_map_of_mem f hx) (by simp [he])

/-- Dropping the top (last) transaction of a sorted, duplicate-free,
non-processing pool removes exactly the last queue element. -/
theorem poolDropTx_last (p : MPSenderTxPool) (topTx : MPTxRequest)
    (hlast : p.txNonceQueue.getLast? = some topTx)
    (hs : SqSorted nonceLtKey p.txNonceQueue)
    (hnd : (p.txNonceQueue.map fun t => (nonceLtKey t, t.sig)).Nodup)
    (hnp : p.processingTx = none) :
    p.dropTx topTx =
      some { p with txNonceQueue := p.txNonceQueue.dropLast } := by
  obtain ⟨a, hpop⟩ := sqPopItem_last p.txNonceQueue topTx hs hlast hnd
  rw [MPSenderTxPool.dropTx]
  simp [hnp, hpop]

/-- The inner drop loop of the eviction: a successful run empties the pool
(keeping its other fields), erases exactly the pool transactions' hash
entries, and touches nothing else of the schedule but the pool dictionary
entry of the pool's own sender. -/
theorem schedDropPoolTxs_spec :
    ∀ (fuel : Nat) (s : MPTxSchedule) (p p2 : MPSenderTxPool)
      (s2 : MPTxSchedule),
      schedDropPoolTxsLoop fuel s p = some (p2, s2) →
      SqSorted nonceLtKey p.txNonceQueue →
      (p.txNonceQueue.map fun t => (nonceLtKey t, t.sig)).Nodup →
      p.processingTx = none →
      dlookup s.senderPoolDict p.senderAddress = some p →
      p2.txNonceQueue = [] ∧ p2.senderAddress = p.senderAddress ∧
      p2.stateF = p.stateF ∧ p2.heartbeatF = p.heartbeatF ∧
      p2.stateTxCntF = p.stateTxCntF ∧ p2.processingTx = none ∧
      (∀ a, a ≠ p.senderAddress →
        dlookup s2.senderPoolDict a = dlookup s.senderPoolDict a) ∧
      (∀ k, (∀ t ∈ p.txNonceQueue, t.sig ≠ k) →
        dlookup s2.txDict.txHashDict k = dlookup s.txDict.txHashDict k) ∧
      (∀ t ∈ p.txNonceQueue, dlookup s2.txDict.txHashDict t.sig = none) ∧
      (∀ k, dlookup s.txDict.txHashDict k = none →
        dlookup s2.txDict.txHashDict k = none) ∧
      s2.senderPoolHeartbeatQueue = s.senderPoolHeartbeatQueue ∧
      s2.senderPoolQueue = s.senderPoolQueue ∧
      s2.suspendedSenderSet = s.suspendedSenderSet ∧
      dlookup s2.senderPoolDict p.senderAddress = some p2 := by
  intro fuel
  induction fuel with
  | zero => intro s p p2 s2 h; exact Option.noConfusion h
  | succ fuel ih =>
      intro s p p2 s2 h hs hnd hnp hstored
      rw [schedDropPoolTxsLoop] at h
      rcases hlast : p.txNonceQueue.getLast? with _ | topTx
      · rw [hlast] at h
        cases h
        have hq0 : p.txNonceQueue = [] := List.getLast?_eq_none_iff.mp hlast
        exact ⟨hq0, rfl, rfl, rfl, rfl, hnp, fun a _ => rfl, fun k _ => rfl,
          by rw [hq0]; intro t ht; simp at ht, fun k hk => hk, rfl, rfl, rfl,
          hstored⟩
      · simp only [hlast] at h
        rcases hdrop : schedDropTxFromSenderPool s p topTx with _ | pr
        · rw [hdrop] at h; exact Option.noConfusion h
        obtain ⟨p3, s3⟩ := pr
        simp only [hdrop] at h
        obtain ⟨hd, hh, hsn, hhq1, hpq1, hss1, _, _, hpd, _⟩ :=
          schedDropTx_parts _ _ _ _ _ hdrop
        have hp3 : p3 = { p with txNonceQueue := p.txNonceQueue.dropLast } :=
          Option.some.inj
            ((poolDropTx_last p topTx hlast hs hnd hnp).symm.trans hd).symm
        have htopmem : topTx ∈ p.txNonceQueue := mem_of_getLast_some hlast
        have hqdec : p.txNonceQueue.dropLast ++ [topTx] = p.txNonceQueue :=
          List.dropLast_append_getLast? topTx hlast
        have hsubmem : ∀ t ∈ p.txNonceQueue.dropLast, t ∈ p.txNonceQueue :=
          fun t ht => (List.dropLast_sublist _).subset ht
        have hs3q : SqSorted nonceLtKey p3.txNonceQueue := by
          rw [hp3]
          exact hs.sublist (List.dropLast_sublist _)
        have hnd3 : (p3.txNonceQueue.map fun t => (nonceLtKey t, t.sig)).Nodup := by
          rw [hp3]
          exact hnd.sublist ((List.dropLast_sublist _).map _)
        have hnp3 : p3.processingTx = none := by rw [hp3]; exact hnp
        have haddr3 : p3.senderAddress = p.senderAddress := by rw [hp3]
        have hstored3 : dlookup s3.senderPoolDict p3.senderAddress = some p3 := by
          rw [hpd]
          exact (schedUpdPool_parts s p3).2.2.2.2.2.2.2.1
            (by rw [haddr3, hstored]; rfl)
        obtain ⟨ih1, ih2, ih3, ih4, ih5, ih6, ih7, ih8, ih9, ih10, ih11,
          ih12, ih13, ih14⟩ := ih s3 p3 p2 s2 h hs3q hnd3 hnp3 hstored3
        refine ⟨ih1, by rw [ih2, haddr3], by rw [ih3, hp3],
          by rw [ih4, hp3], by rw [ih5, hp3], ih6, ?_, ?_, ?_, ?_,
          by rw [ih11, hhq1], by rw [ih12, hpq1], by rw [ih13, hss1],
          by rw [← haddr3, ih14]⟩
        · intro a ha
          rw [ih7 a (by rw [haddr3]; exact ha), hpd]
          exact (schedUpdPool_parts s p3).2.2.2.2.2.2.1 a
            (by rw [haddr3]; exact ha)
        · intro k hk
          rw [ih8 k (by rw [hp3]; intro t ht; exact hk t (hsubmem t ht)), hh,
            dlookup_derase, if_neg (fun he => hk topTx htopmem he.symm)]
        · intro t ht
          rw [← hqdec] at ht
          rcases List.mem_append.mp ht with ht1 | ht2
          · exact ih9 t (by rw [hp3]; exact ht1)
          · have ht3 : t = topTx := by simpa using ht2
            subst ht3
            refine ih10 t.sig ?_
            rw [hh, dlookup_derase, if_pos rfl]
        · intro k hk
          refine ih10 k ?_
          rw [hh, dlookup_derase]
          split
          · rfl
          · exact hk

/-- Syncing an emptied, invalid pool pops its heartbeat entry and removes
it from the pool dictionary, leaving the index dictionary and all other
pool entries alone. -/
theorem schedSync_empty_effects (s : MPTxSchedule) (p p5 : MPSenderTxPool)
    (s3 : MPTxSchedule) (hq0 : p.txNonceQueue = [])
    (hval : ¬ p.hasValidState = true)
    (hsync : schedSyncSenderState s p = some (p5, s3)) :
    ∃ pr, sqPopItem Prod.fst Prod.snd s.senderPoolHeartbeatQueue
        (-(p.heartbeatF : Int), p.senderAddress) = some pr ∧
      s3.senderPoolHeartbeatQueue = pr.2 ∧
      s3.txDict = s.txDict ∧
      (∀ a, a ≠ p.senderAddress →
        dlookup s3.senderPoolDict a = dlookup s.senderPoolDict a) ∧
      dlookup s3.senderPoolDict p.senderAddress = none := by
  have hsyncF : p.syncState.stateF = PoolState.Empty := by
    show p.actualState = PoolState.Empty
    rw [MPSenderTxPool.actualState, hq0]
    rfl
  rw [schedSyncSenderState, if_neg hval] at hsync
  rcases hold : (match p.stateF with
    | PoolState.Suspended =>
        if p.senderAddress ∈ s.suspendedSenderSet then
          some { s with suspendedSenderSet :=
            s.suspendedSenderSet.erase p.senderAddress }
        else none
    | PoolState.Queued =>
        match sqPopItem Prod.fst Prod.snd s.senderPoolQueue
            (p.gasPriceF, p.senderAddress) with
        | none => none
        | some (_, pq2) => some { s with senderPoolQueue := pq2 }
    | _ => some s) with _ | s2b
  · rw [hold] at hsync; exact Option.noConfusion hsync
  simp only [hold] at hsync
  have hs2b : s2b.txDict = s.txDict ∧ s2b.senderPoolDict = s.senderPoolDict ∧
      s2b.senderPoolHeartbeatQueue = s.senderPoolHeartbeatQueue := by
    rcases hst : p.stateF with _ | _ | _ | _ <;> simp only [hst] at hold
    · cases hold; exact ⟨rfl, rfl, rfl⟩
    · rcases hpq : sqPopItem Prod.fst Prod.snd s.senderPoolQueue
          (p.gasPriceF, p.senderAddress) with _ | pr0
      · rw [hpq] at hold; exact Option.noConfusion hold
      · obtain ⟨b0, pq2⟩ := pr0
        rw [hpq] at hold
        cases hold
        exact ⟨rfl, rfl, rfl⟩
    · cases hold; exact ⟨rfl, rfl, rfl⟩
    · split at hold
      · cases hold; exact ⟨rfl, rfl, rfl⟩
      · exact Option.noConfusion hold
  simp only [hsyncF] at hsync
  split at hsync
  · rcases hpop : sqPopItem Prod.fst Prod.snd
        (schedUpdPool s2b p.syncState).senderPoolHeartbeatQueue
        (-(p.syncState.heartbeatF : Int), p.syncState.senderAddress)
        with _ | pr
    · rw [hpop] at hsync; exact Option.noConfusion hsync
    obtain ⟨b, hq2⟩ := pr
    rw [hpop] at hsync
    cases hsync
    have hupd := schedUpdPool_parts s2b p.syncState
    have hq_eq : (schedUpdPool s2b p.syncState).senderPoolHeartbeatQueue =
        s.senderPoolHeartbeatQueue := by rw [hupd.2.1, hs2b.2.2]
    rw [hq_eq] at hpop
    refine ⟨(b, hq2), hpop, rfl, ?_, ?_, ?_⟩
    · show (schedUpdPool s2b p.syncState).txDict = s.txDict
      rw [hupd.1, hs2b.1]
    · intro a ha
      have ha2 : ¬ a = p.syncState.senderAddress := ha
      show dlookup (derase (schedUpdPool s2b p.syncState).senderPoolDict
        p.syncState.senderAddress) a = _
      rw [dlookup_derase, if_neg ha2,
        hupd.2.2.2.2.2.2.1 a ha2, hs2b.2.1]
    · show dlookup (derase (schedUpdPool s2b p.syncState).senderPoolDict
        p.syncState.senderAddress) p.senderAddress = none
      rw [dlookup_derase,
        if_pos (show p.senderAddress = p.syncState.senderAddress from rfl)]
  · exact Option.noConfusion hsync

/-- A run that reaches a droppable, already-empty pool with a valid cached
state spins without progress and exhausts its fuel. -/
theorem schedDropExpiredLoop_stuck (threshold : Int) :
    ∀ (fuel : Nat) (s : MPTxSchedule) (e : Int × String) (p : MPSenderTxPool),
      s.senderPoolHeartbeatQueue.getLast? = some e →
      dlookup s.senderPoolDict e.2 = some p →
      ¬ threshold < (p.heartbeatF : Int) → p.processingTx = none →
      p.txNonceQueue = [] → p.hasValidState = true →
      schedDropExpiredLoop fuel s threshold = none := by
  intro fuel
  induction fuel with
  | zero => intro s e p _ _ _ _ _ _; rfl
  | succ fuel ih =>
      intro s e p hlast hlk hth hnp hq0 hval
      have hpr : ¬ p.isProcessing = true := by
        rw [MPSenderTxPool.isProcessing, hnp]
        simp
      rw [schedDropExpiredLoop]
      simp only [hlast, hlk]
      rw [if_neg (fun hor => hor.elim hth hpr)]
      have hinner : schedDropPoolTxsLoop (p.txNonceQueue.length + 1) s p
          = some (p, s) := by
        rw [schedDropPoolTxsLoop]
        simp [hq0]
      have hsync : schedSyncSenderState s p = some (p, s) := by
        rw [schedSyncSenderState, if_pos hval]
      simp only [hinner, hsync]
      exact ih s e p hlast hlk hth hnp hq0 hval

/-- The eviction loop inspects pools oldest-first: a successful run removes
exactly the maximal oldest-first prefix of droppable (expired,
non-processing) pools — the heartbeat queue loses that prefix, each dropped
pool disappears from the pool dictionary together with its transactions'
hash entries, and every other pool and every foreign hash key is
untouched. -/
theorem schedDropExpiredLoop_spec (threshold : Int) :
    ∀ (fuel : Nat) (s s2 : MPTxSchedule),
      schedDropExpiredLoop fuel s threshold = some s2 → DropWF s →
      s2.senderPoolHeartbeatQueue =
        (s.senderPoolHeartbeatQueue.reverse.dropWhile
          (schedPoolDroppable s threshold)).reverse ∧
      (∀ e ∈ s.senderPoolHeartbeatQueue.reverse.takeWhile
          (schedPoolDroppable s threshold),
        dlookup s2.senderPoolDict e.2 = none ∧
        ∀ p, dlookup s.senderPoolDict e.2 = some p →
          ∀ t ∈ p.txNonceQueue, dlookup s2.txDict.txHashDict t.sig = none) ∧
      (∀ a, (∀ e ∈ s.senderPoolHeartbeatQueue.reverse.takeWhile
          (schedPoolDroppable s threshold), e.2 ≠ a) →
        dlookup s2.senderPoolDict a = dlookup s.senderPoolDict a) ∧
      (∀ k, (∀ e ∈ s.senderPoolHeartbeatQueue.reverse.takeWhile
          (schedPoolDroppable s threshold),
          ∀ p, dlookup s.senderPoolDict e.2 = some p →
            ∀ t ∈ p.txNonceQueue, t.sig ≠ k) →
        dlookup s2.txDict.txHashDict k = dlookup s.txDict.txHashDict k) := by
  intro fuel
  induction fuel with
  | zero => intro s s2 h; exact Option.noConfusion h
  | succ fuel ih =>
      intro s s2 h hwf
      obtain ⟨hqsort, hqnd, hqcorr, hpools⟩ := hwf
      rw [schedDropExpiredLoop] at h
      rcases hql : s.senderPoolHeartbeatQueue.getLast? with _ | e
      · rw [hql] at h
        cases h
        have hnil : s.senderPoolHeartbeatQueue = [] :=
          List.getLast?_eq_none_iff.mp hql
        rw [hnil]
        exact ⟨by simp, by simp, fun a _ => rfl, fun k _ => rfl⟩
      · simp only [hql] at h
        have hemem : e ∈ s.senderPoolHeartbeatQueue := mem_of_getLast_some hql
        have hcorr0 := hqcorr e hemem
        rcases hlk : dlookup s.senderPoolDict e.2 with _ | p
        · simp only [hlk] at hcorr0
          exact Bool.noConfusion hcorr0
        simp only [hlk] at h hcorr0
        have hcorr1 : e.1 = -(p.heartbeatF : Int) := of_decide_eq_true hcorr0
        obtain ⟨hpaddr, hpsort, hpnd, hptx⟩ :=
          hpools (e.2, p) (dlookup_mem _ _ _ hlk) hlk
        have hqdec : s.senderPoolHeartbeatQueue.dropLast ++ [e]
            = s.senderPoolHeartbeatQueue :=
          List.dropLast_append_getLast? e hql
        have hrev : s.senderPoolHeartbeatQueue.reverse
            = e :: s.senderPoolHeartbeatQueue.dropLast.reverse := by
          conv_lhs => rw [← hqdec]
          rw [List.reverse_append]
          simp
        split at h
        · rename_i hkeep
          cases h
          have hDe : schedPoolDroppable s threshold e = false := by
            rw [schedPoolDroppable, hlk]
            rcases hkeep with hk | hk
            · simp [hk]
            · simp [hk]
          refine ⟨?_, ?_, fun a _ => rfl, fun k _ => rfl⟩
          · rw [hrev, List.dropWhile_cons, hDe]
            simp only [Bool.false_eq_true, if_false]
            rw [List.reverse_cons, List.reverse_reverse]
            exact hqdec.symm
          · intro e2 he2
            rw [hrev, List.takeWhile_cons, hDe] at he2
            simp at he2
        · rename_i hkeep
          have hth : ¬ threshold < (p.heartbeatF : Int) :=
            fun hlt => hkeep (Or.inl hlt)
          have hprB : ¬ p.isProcessing = true := fun hp => hkeep (Or.inr hp)
          have hnp : p.processingTx = none := by
            rcases hpt : p.processingTx with _ | t
            · rfl
            · rw [MPSenderTxPool.isProcessing, hpt] at hprB
              simp at hprB
          have hpf : p.isProcessing = false := by
            rw [MPSenderTxPool.isProcessing, hnp]
            rfl
          have hDe : schedPoolDroppable s threshold e = true := by
            rw [schedPoolDroppable, hlk]
            simp [hth, hpf]
          rcases hinner : schedDropPoolTxsLoop (p.txNonceQueue.length + 1) s p
              with _ | pr
          · rw [hinner] at h; exact Option.noConfusion h
          obtain ⟨p2, s2a⟩ := pr
          simp only [hinner] at h
          obtain ⟨hi1, hi2, hi3, hi4, hi5, hi6, hi7, hi8, hi9, hi10,
            hi11, hi12, hi13, hi14⟩ :=
            schedDropPoolTxs_spec _ _ _ _ _ hinner hpsort hpnd hnp
              (by rw [hpaddr]; exact hlk)
          rcases hsync : schedSyncSenderState s2a p2 with _ | pr2
          · rw [hsync] at h; exact Option.noConfusion h
          obtain ⟨p5, s3⟩ := pr2
          simp only [hsync] at h
          by_cases hval : p2.hasValidState = true
          · exfalso
            have hsync2 : schedSyncSenderState s2a p2 = some (p2, s2a) := by
              rw [schedSyncSenderState, if_pos hval]
            rw [hsync2] at hsync
            have hs3 : s3 = s2a :=
              (congrArg Prod.snd (Option.some.inj hsync)).symm
            rw [hs3] at h
            have hlk2a : dlookup s2a.senderPoolDict e.2 = some p2 := by
              have := hi14
              rw [hpaddr] at this
              exact this
            have hstuck := schedDropExpiredLoop_stuck threshold fuel s2a e p2
              (by rw [hi11, hql]) hlk2a (by rw [hi4]; exact hth) hi6 hi1 hval
            rw [hstuck] at h
            exact Option.noConfusion h
          · obtain ⟨prq, hpop, hs3hq, hs3td, hs3lk, hs3none⟩ :=
              schedSync_empty_effects s2a p2 p5 s3 hi1 hval hsync
            rw [hi11] at hpop
            have hitem : ((-(p2.heartbeatF : Int), p2.senderAddress)
                : Int × String) = e := by
              rw [hi4, hi2, hpaddr, ← hcorr1]
            rw [hitem] at hpop
            have hqpairs : (s.senderPoolHeartbeatQueue.map
                fun y => (Prod.fst y, Prod.snd y)).Nodup := by
              have h1 : (s.senderPoolHeartbeatQueue.map
                  fun (y : Int × String) => (y.1, y.2))
                  = s.senderPoolHeartbeatQueue := by
                simp
              rw [h1]
              exact List.Nodup.of_map Prod.snd hqnd
            obtain ⟨aa, hpop2⟩ := sqPopItem_last s.senderPoolHeartbeatQueue e
              hqsort hql hqpairs
            rw [hpop2] at hpop
            have hprq : prq = (aa, s.senderPoolHeartbeatQueue.dropLast) :=
              (Option.some.inj hpop).symm
            have hs3hq2 : s3.senderPoolHeartbeatQueue
                = s.senderPoolHeartbeatQueue.dropLast := by
              rw [hs3hq, hprq]
            have hs3lk2 : ∀ a, a ≠ e.2 →
                dlookup s3.senderPoolDict a = dlookup s.senderPoolDict a := by
              intro a ha
              rw [hs3lk a (by rw [hi2, hpaddr]; exact ha),
                hi7 a (by rw [hpaddr]; exact ha)]
            have hs3none2 : dlookup s3.senderPoolDict e.2 = none := by
              have := hs3none
              rw [hi2, hpaddr] at this
              exact this
            have hs3hash : ∀ k, (∀ t ∈ p.txNonceQueue, t.sig ≠ k) →
                dlookup s3.txDict.txHashDict k
                  = dlookup s.txDict.txHashDict k := by
              intro k hk
              rw [hs3td]
              exact hi8 k hk
            have hs3erased : ∀ t ∈ p.txNonceQueue,
                dlookup s3.txDict.txHashDict t.sig = none := by
              intro t ht
              rw [hs3td]
              exact hi9 t ht
            have hsigdis : ∀ b q, b ≠ e.2 →
                dlookup s.senderPoolDict b = some q →
                ∀ u ∈ q.txNonceQueue, ∀ t ∈ p.txNonceQueue,
                  u.sig ≠ t.sig := by
              intro b q hb hq u hu t ht he
              obtain ⟨hqaddr, _, _, hqtx⟩ :=
                hpools (b, q) (dlookup_mem _ _ _ hq) hq
              have h1 := (hqtx u hu).2
              have h2 := (hptx t ht).2
              rw [he, h2] at h1
              have hut : t = u := Option.some.inj h1
              have ha1 := (hqtx u hu).1
              have ha2 := (hptx t ht).1
              rw [← hut] at ha1
              rw [ha2] at ha1
              exact hb ha1.symm
            have hlastne : ∀ x ∈ s.senderPoolHeartbeatQueue.dropLast,
                x.2 ≠ e.2 := by
              intro x hx
              exact map_nodup_last_ne Prod.snd _ e
                (by rw [hqdec]; exact hqnd) x hx
            have hwf3 : DropWF s3 := by
              refine ⟨?_, ?_, ?_, ?_⟩
              · rw [hs3hq2]
                exact hqsort.sublist (List.dropLast_sublist _)
              · rw [hs3hq2]
                exact hqnd.sublist ((List.dropLast_sublist _).map _)
              · intro e2 he2
                rw [hs3hq2] at he2
                have he2m : e2 ∈ s.senderPoolHeartbeatQueue :=
                  (List.dropLast_sublist _).subset he2
                rw [hs3lk2 e2.2 (hlastne e2 he2)]
                exact hqcorr e2 he2m
              · intro pr2 hpr2 hlk2
                by_cases hpe : pr2.1 = e.2
                · rw [hpe, hs3none2] at hlk2
                  exact Option.noConfusion hlk2
                · have hlks : dlookup s.senderPoolDict pr2.1 = some pr2.2 := by
                    rw [← hs3lk2 pr2.1 hpe]
                    exact hlk2
                  obtain ⟨ha1, ha2, ha3, ha4⟩ :=
                    hpools (pr2.1, pr2.2) (dlookup_mem _ _ _ hlks) hlks
                  refine ⟨ha1, ha2, ha3, ?_⟩
                  intro t ht
                  refine ⟨(ha4 t ht).1, ?_⟩
                  rw [hs3hash t.sig ?_]
                  · exact (ha4 t ht).2
                  · intro u hu he
                    exact hsigdis pr2.1 pr2.2 hpe hlks t ht u hu he.symm
            obtain ⟨ihA, ihB, ihC, ihD⟩ := ih s3 s2 h hwf3
            have hDcong : ∀ x ∈ s3.senderPoolHeartbeatQueue.reverse,
                schedPoolDroppable s3 threshold x
                  = schedPoolDroppable s threshold x := by
              intro x hx
              rw [List.mem_reverse] at hx
              rw [hs3hq2] at hx
              rw [schedPoolDroppable, schedPoolDroppable,
                hs3lk2 x.2 (hlastne x hx)]
            have hrev3 : s3.senderPoolHeartbeatQueue.reverse
                = s.senderPoolHeartbeatQueue.dropLast.reverse := by
              rw [hs3hq2]
            have htake : s.senderPoolHeartbeatQueue.reverse.takeWhile
                (schedPoolDroppable s threshold)
                = e :: s3.senderPoolHeartbeatQueue.reverse.takeWhile
                    (schedPoolDroppable s3 threshold) := by
              rw [list_takeWhile_congr (schedPoolDroppable s3 threshold)
                (schedPoolDroppable s threshold) _ hDcong]
              rw [hrev, hrev3, List.takeWhile_cons, hDe]
              simp
            have hdropeq : s.senderPoolHeartbeatQueue.reverse.dropWhile
                (schedPoolDroppable s threshold)
                = s3.senderPoolHeartbeatQueue.reverse.dropWhile
                    (schedPoolDroppable s3 threshold) := by
              rw [list_dropWhile_congr (schedPoolDroppable s3 threshold)
                (schedPoolDroppable s threshold) _ hDcong]
              rw [hrev, hrev3, List.dropWhile_cons, hDe]
              simp
            have htails : ∀ e2 ∈ s3.senderPoolHeartbeatQueue.reverse.takeWhile
                (schedPoolDroppable s3 threshold), e2.2 ≠ e.2 := by
              intro e2 he2
              have h1 : e2 ∈ s3.senderPoolHeartbeatQueue.reverse :=
                (List.takeWhile_sublist _).subset he2
              rw [List.mem_reverse, hs3hq2] at h1
              exact hlastne e2 h1
            refine ⟨?_, ?_, ?_, ?_⟩
            · rw [ihA, hdropeq]
            · intro e2 he2
              rw [htake] at he2
              rcases List.mem_cons.mp he2 with he2e | he2t
              · subst he2e
                constructor
                · rw [ihC e2.2 (fun x hx hxe => htails x hx hxe)]
                  exact hs3none2
                · intro p' hp' t ht
                  have hpp : p' = p := (Option.some.inj (hlk.symm.trans hp')).symm
                  subst hpp
                  rw [ihD t.sig ?_]
                  · exact hs3erased t ht
                  · intro x hx q hq u hu
                    have hxq : dlookup s.senderPoolDict x.2 = some q := by
                      rw [← hs3lk2 x.2 (htails x hx)]
                      exact hq
                    exact hsigdis x.2 q (htails x hx) hxq u hu t ht
              · have hB := ihB e2 he2t
                constructor
                · exact hB.1
                · intro p' hp' t ht
                  refine hB.2 p' ?_ t ht
                  rw [hs3lk2 e2.2 (htails e2 he2t)]
                  exact hp'
            · intro a ha
              rw [htake] at ha
              have hae : a ≠ e.2 := by
                intro hcon
                exact ha e (by simp) hcon.symm
              rw [ihC a (fun x hx => ha x (List.mem_cons_of_mem _ hx))]
              exact hs3lk2 a hae
            · intro k hk
              rw [htake] at hk
              have hpk : ∀ t ∈ p.txNonceQueue, t.sig ≠ k :=
                fun t ht => hk e (by simp) p hlk t ht
              rw [ihD k ?_]
              · exact hs3hash k hpk
              · intro x hx q hq u hu
                refine hk x (List.mem_cons_of_mem _ hx) q ?_ u hu
                rw [← hs3lk2 x.2 (htails x hx)]
                exact hq

/-- C2 (amended): drop_expired_sender_pools examines pools oldest-heartbeat
first and stops at the first pool that is non-expired or Processing.  On a
well-formed schedule, a completed call removes exactly the maximal
oldest-first prefix of expired non-Processing pools: each pool of that
prefix disappears from the mempool together with all of its transactions,
and every non-expired or Processing pool survives unchanged (the heartbeat
queue keeps exactly the other pools, in order). -/
theorem schedDropExpired_spec (now timeout : Nat) (s s2 : MPTxSchedule)
    (hwf : DropWF s)
    (hrun : schedDropExpiredSenderPools now s timeout = some s2) :
    s2.senderPoolHeartbeatQueue =
      (s.senderPoolHeartbeatQueue.reverse.dropWhile
        (schedPoolDroppable s ((now : Int) - timeout))).reverse ∧
    (∀ e ∈ s.senderPoolHeartbeatQueue.reverse.takeWhile
        (schedPoolDroppable s ((now : Int) - timeout)),
      dlookup s2.senderPoolDict e.2 = none ∧
      ∀ p, dlookup s.senderPoolDict e.2 = some p →
        ∀ t ∈ p.txNonceQueue, dlookup s2.txDict.txHashDict t.sig = none) ∧
    (∀ a p, dlookup s.senderPoolDict a = some p →
      ((now : Int) - timeout < (p.heartbeatF : Int) ∨ p.isProcessing = true) →
      dlookup s2.senderPoolDict a = some p) := by
  obtain ⟨c1, c2, c3, c4⟩ := schedDropExpiredLoop_spec ((now : Int) - timeout)
    (s.senderPoolHeartbeatQueue.length + 1) s s2 hrun hwf
  refine ⟨c1, c2, ?_⟩
  intro a p hp hkeep
  rw [c3 a ?_]
  · exact hp
  · intro e he hea
    have hDe := List.mem_takeWhile_imp he
    simp only [schedPoolDroppable, hea, hp] at hDe
    simp only [Bool.and_eq_true, Bool.not_eq_true', decide_eq_false_iff_not]
      at hDe
    rcases hkeep with hk | hk
    · exact hDe.1 hk
    · rw [hDe.2] at hk
      exact Bool.noConfusion hk

/-- The expired queued transaction of the C2 witness. -/
def exTxW : MPTxRequest := ⟨"tA", "A", 1, 7, 0⟩

/-- The expired queued pool of sender "A". -/
def exPoolA : MPSenderTxPool := ⟨PoolState.Queued, "A", 7, 5, 1, none, [exTxW]⟩

/-- A consistent one-pool schedule whose pool is expired. -/
def exC2w : MPTxSchedule :=
  ⟨100, 80, 1,
   ⟨[("tA", exTxW)], [(("A", 1), exTxW)], [exTxW], []⟩,
   [("A", exPoolA)], [(-5, "A")], [(7, "A")], []⟩

/-- C2 witness: the eviction run on the concrete schedule succeeds and the
spec theorem shows pool "A" and its transaction are gone. -/
theorem schedDropExpired_spec_witness :
    ∃ s2, schedDropExpiredSenderPools 100 exC2w 10 = some s2 ∧
      dlookup s2.senderPoolDict "A" = none ∧
      ∀ t ∈ exPoolA.txNonceQueue,
        dlookup s2.txDict.txHashDict t.sig = none := by
  have hwf : DropWF exC2w := by
    unfold DropWF SqSorted
    decide
  obtain ⟨c1, c2, c3⟩ := schedDropExpired_spec 100 10 exC2w _ hwf rfl
  refine ⟨_, rfl, ?_, ?_⟩
  · exact (c2 (-5, "A") (by decide)).1
  · intro t ht
    exact (c2 (-5, "A") (by decide)).2 exPoolA rfl t ht

end Proxy
